import Mathlib

/-!
# The epoll loop of mstpd (`epoll_loop.c`)

A shallow embedding of `add_epoll`, `remove_epoll`, `time_diff`, `run_timeouts`,
`epoll_main_loop`, `epoll_timer_start`, `epoll_timer_expired` and
`epoll_timer_which_second`.

* Memory.  A pointer to a `struct epoll_event_handler` is an address `Nat`; the
  registrations live in `State.heap`.  The array `ev[EV_SIZE]` of
  `epoll_main_loop` is `State.ev`; a pointer `&ev[i]` is the index `i`.  A null
  pointer is `none`.
* The outside world.  What the kernel answers (the return value of `epoll_ctl`,
  the clock readings, the outcome of `epoll_wait`) is an argument of the function
  that makes the call.  Every call that leaves the file (`epoll_ctl`,
  `epoll_wait`, `bridge_one_second`, a handler) is appended to `State.trace`.
* Handlers.  A handler is a function pointer (a `Nat`); what the function does is
  given by `Env.handler` as the sequence of `add_epoll` / `remove_epoll` calls
  (and writes of the quit flag) it performs, which may depend on its arguments
  and on the state it is called in.
* Integers.  `time_t` and `long` are 64 bit and are modelled by `Int` (signed
  overflow is undefined in C); the conversion of the `long` value of `time_diff`
  to its `int` result is modelled by `to_int`, reduction modulo `2^32`.
-/

namespace EpollLoop

/-! ## Data model -/

/-- Modelled from the spec: the declaration of the registration record
`struct epoll_event_handler` (its header `epoll_loop.h` is not among the sources).
The fields are the ones `epoll_loop.c` reads and writes: `fd`, `arg`, `handler`
(a function pointer, `none` for `NULL`), `ref_ev` (a pointer to a slot of `ev`,
`none` for `NULL`) and `priv`. -/
structure epoll_event_handler where
  fd : Int
  arg : Nat
  handler : Option Nat
  ref_ev : Option Nat
  priv : Int
deriving DecidableEq, Repr

/-- The kernel's `struct epoll_event`: the readiness bits and `data.ptr`, which
holds the address of a registration or `NULL`. -/
structure epoll_event where
  events : Nat
  data_ptr : Option Nat
deriving DecidableEq, Repr

/-- A `struct timespec`. -/
structure timespec where
  tv_sec : Int
  tv_nsec : Int
deriving DecidableEq, Repr

/-- The calls that leave `epoll_loop.c`, in the order they are made.
`epoll_ctl_del h fd r` is the call `epoll_ctl(epoll_fd, EPOLL_CTL_DEL, fd, NULL)`
made by `remove_epoll(h)`, with its return value `r`; `epoll_wait n timeout r errno` is
the call `epoll_wait(epoll_fd, ev, n, timeout)` with its return value and `errno`;
`read fd count r errno` is the call `read(fd, buf, count)` with its return value and
`errno`; `timerfd_settime fd flags it_interval it_value` is the call
`timerfd_settime(fd, flags, &new_value, NULL)`. -/
inductive Event where
  | epoll_ctl_add (fd : Int) (events : Nat) (data_ptr : Nat) (r : Int)
  | epoll_ctl_del (h : Nat) (fd : Int) (r : Int)
  | epoll_wait (maxevents : Nat) (timeout : Int) (r : Int) (errno : Int)
  | bridge_one_second
  | handler (fn : Nat) (events : Nat) (p : Nat)
  | read (fd : Int) (count : Nat) (r : Int) (errno : Int)
  | timerfd_settime (fd : Int) (flags : Nat) (it_interval : timespec) (it_value : timespec)
  | timerfd_gettime (fd : Int)
deriving DecidableEq, Repr

/-- The memory the loop works on: the registrations, the array `ev`, the global
`nexttimeout`, the flag `*quit`, and the log of outside calls. -/
structure State where
  heap : Nat → epoll_event_handler
  ev : Nat → epoll_event
  nexttimeout : timespec
  quit : Bool
  trace : List Event

/-- Store `v` at address `p`. -/
def update {α : Type} (f : Nat → α) (p : Nat) (v : α) : Nat → α :=
  fun q => if q = p then v else f q

def EPOLLIN : Nat := 1

def EINTR : Int := 4

def EV_SIZE : Nat := 8

/-! ## `add_epoll` and `remove_epoll` -/

/-- The function `add_epoll(h)`; `r` is what `epoll_ctl` returns. -/
def add_epoll (r : Int) (h : Nat) (s : State) : Int × State :=
  let s1 : State := { s with heap := update s.heap h { s.heap h with ref_ev := none } }
  let s2 : State :=
    { s1 with trace := s1.trace ++ [Event.epoll_ctl_add (s1.heap h).fd EPOLLIN h r] }
  if r < 0 then (-1, s2) else (0, s2)

/-- The function `remove_epoll(h)`; `r` is what `epoll_ctl` returns. -/
def remove_epoll (r : Int) (h : Nat) (s : State) : Int × State :=
  let s1 : State := { s with trace := s.trace ++ [Event.epoll_ctl_del h (s.heap h).fd r] }
  if r < 0 then (-1, s1)
  else
    match (s1.heap h).ref_ev with
    | some i =>
      if (s1.ev i).data_ptr = some h then
        let s2 : State := { s1 with ev := update s1.ev i { s1.ev i with data_ptr := none } }
        (0, { s2 with heap := update s2.heap h { s2.heap h with ref_ev := none } })
      else (0, s1)
    | none => (0, s1)

/-! ## What handlers and the tick do -/

/-- One action of a handler (or of `bridge_one_second`): a call of `add_epoll` or
`remove_epoll` on a registration, with the kernel's answer to it, or setting the
quit flag. -/
inductive Call where
  | add_epoll (h : Nat) (r : Int)
  | remove_epoll (h : Nat) (r : Int)
  | set_quit
deriving DecidableEq, Repr

/-- The code behind the function pointers: `handler fn events p s` is what the
handler function `fn` does when called as `fn(events, p)` in state `s`, and
`bridge_one_second s` what the one-second tick does. -/
structure Env where
  handler : Nat → Nat → Nat → State → List Call
  bridge_one_second : State → List Call

def run_call (c : Call) (s : State) : State :=
  match c with
  | Call.add_epoll h r => (add_epoll r h s).2
  | Call.remove_epoll h r => (remove_epoll r h s).2
  | Call.set_quit => { s with quit := true }

def run_calls : List Call → State → State
  | [], s => s
  | c :: cs, s => run_calls cs (run_call c s)

/-! ## The timeout computation -/

/-- Conversion of a `long` to `int`: the value modulo `2^32`, in
`-2^31 .. 2^31 - 1`. -/
def to_int (x : Int) : Int :=
  (x + 2147483648) % 4294967296 - 2147483648

/-- The function `time_diff(second, first)`: C division truncates towards zero. -/
def time_diff (second first : timespec) : Int :=
  to_int ((second.tv_sec - first.tv_sec) * 1000
    + Int.tdiv (second.tv_nsec - first.tv_nsec) 1000000)

/-- The function `run_timeouts()`. -/
def run_timeouts (env : Env) (s : State) : State :=
  let s1 : State := { s with trace := s.trace ++ [Event.bridge_one_second] }
  let s2 : State := run_calls (env.bridge_one_second s1) s1
  { s2 with nexttimeout := { s2.nexttimeout with tv_sec := s2.nexttimeout.tv_sec + 1 } }

/-- Lines 119-135 of `epoll_main_loop`: from the clock reading `tv` to the timeout
handed to `epoll_wait`. -/
def compute_timeout (env : Env) (tv : timespec) (s : State) : Int × State :=
  let timeout := time_diff s.nexttimeout tv
  if timeout < 0 ∨ timeout > 1000 then
    let s1 := run_timeouts env s
    let s2 : State :=
      if timeout < -4000 ∨ timeout > 1000 then
        { s1 with nexttimeout := { tv_sec := tv.tv_sec + 1, tv_nsec := tv.tv_nsec } }
      else s1
    (0, s2)
  else (timeout, s)

/-! ## Waiting and dispatching -/

/-- What one `epoll_wait` does: it fails with an `errno`, or it fills the first
slots of `ev` with a batch of ready events (none on a timeout). -/
inductive WaitResult where
  | error (errno : Int)
  | ready (batch : List epoll_event)
deriving DecidableEq, Repr

/-- The call `epoll_wait(epoll_fd, ev, maxevents, timeout)`: returns `r`, the
`errno` it leaves, and the memory with the slots `ev[0 .. r-1]` written.  The
kernel returns at most `maxevents` events. -/
def epoll_wait (w : WaitResult) (maxevents : Nat) (timeout : Int) (s : State) :
    Int × Int × State :=
  match w with
  | WaitResult.error errno =>
    (-1, errno, { s with trace := s.trace ++ [Event.epoll_wait maxevents timeout (-1) errno] })
  | WaitResult.ready batch =>
    let b := batch.take maxevents
    ((b.length : Int), 0,
      { s with
        ev := fun i => b.getD i (s.ev i)
        trace := s.trace ++ [Event.epoll_wait maxevents timeout (b.length : Int) 0] })

/-- Body of the first `for` loop (lines 145-147), at index `i`. -/
def phaseA_step (i : Nat) (s : State) : State :=
  match (s.ev i).data_ptr with
  | some p => { s with heap := update s.heap p { s.heap p with ref_ev := some i } }
  | none => s

/-- Body of the second `for` loop (lines 151-153), at index `i`. -/
def phaseB_step (env : Env) (i : Nat) (s : State) : State :=
  match (s.ev i).data_ptr with
  | some p =>
    match (s.heap p).handler with
    | some fn =>
      let s1 : State := { s with trace := s.trace ++ [Event.handler fn (s.ev i).events p] }
      run_calls (env.handler fn (s.ev i).events p s1) s1
    | none => s
  | none => s

/-- Body of the third `for` loop (lines 157-159), at index `i`. -/
def phaseC_step (i : Nat) (s : State) : State :=
  match (s.ev i).data_ptr with
  | some p => { s with heap := update s.heap p { s.heap p with ref_ev := none } }
  | none => s

/-- A loop `for (i = ...; i < r; ++i) body(i)` over the indices `is`. -/
def for_loop (body : Nat → State → State) : List Nat → State → State
  | [], s => s
  | i :: is, s => for_loop body is (body i s)

/-- The indices `0 .. r-1` of `for (i = 0; i < r; ++i)`; none when `r <= 0`. -/
def indices (r : Int) : List Nat := List.range r.toNat

def phaseA (r : Int) (s : State) : State := for_loop phaseA_step (indices r) s

def phaseB (env : Env) (r : Int) (s : State) : State :=
  for_loop (phaseB_step env) (indices r) s

def phaseC (r : Int) (s : State) : State := for_loop phaseC_step (indices r) s

/-- Lines 143-160: the three loops over the `r` slots the wait returned. -/
def dispatch (env : Env) (r : Int) (s : State) : State :=
  phaseC r (phaseB env r (phaseA r s))

/-- What the outside world supplies to one iteration: the clock reading and the
outcome of the wait. -/
structure Input where
  tv : timespec
  wait : WaitResult
deriving DecidableEq, Repr

/-- Lines 137-160: the wait and what follows it.  The result is `some v` when the
loop returns `v` here and `none` when control goes back to the loop test. -/
def wait_and_dispatch (env : Env) (w : WaitResult) (timeout : Int) (s : State) :
    Option Int × State :=
  match epoll_wait w EV_SIZE timeout s with
  | (r, errno, s1) =>
    if r < 0 ∧ errno ≠ EINTR then (some (-1), s1)
    else (none, dispatch env r s1)

/-- One pass through the body of the `while` loop (lines 116-160). -/
def loop_body (env : Env) (x : Input) (s : State) : Option Int × State :=
  match compute_timeout env x.tv s with
  | (timeout, s1) => wait_and_dispatch env x.wait timeout s1

/-- The `while(!*quit)` loop, run against the inputs `xs` of the successive
iterations.  The result is `some v` when the loop has returned `v`, and `none`
when the inputs are used up and the loop is still running. -/
def while_loop (env : Env) : List Input → State → Option Int × State
  | [], s => if s.quit then (some 0, s) else (none, s)
  | x :: xs, s =>
    if s.quit then (some 0, s)
    else
      match loop_body env x s with
      | (some v, s1) => (some v, s1)
      | (none, s1) => while_loop env xs s1

/-- The function `epoll_main_loop(quit)`; `t0` is the clock reading of line 109. -/
def epoll_main_loop (env : Env) (t0 : timespec) (xs : List Input) (s : State) :
    Option Int × State :=
  while_loop env xs { s with nexttimeout := { tv_sec := t0.tv_sec + 1, tv_nsec := t0.tv_nsec } }

/-! ## The points of a dispatch cycle -/

/-- The states after each call of a sequence of calls. -/
def run_calls_points : List Call → State → List State
  | [], _ => []
  | c :: cs, s => run_call c s :: run_calls_points cs (run_call c s)

/-- The states passed in the body of the second loop at index `i`: the state at the
call of the handler and the states after each call the handler makes (the state itself
when no handler is called). -/
def phaseB_step_points (env : Env) (i : Nat) (s : State) : List State :=
  match (s.ev i).data_ptr with
  | some p =>
    match (s.heap p).handler with
    | some fn =>
      let s1 : State := { s with trace := s.trace ++ [Event.handler fn (s.ev i).events p] }
      s1 :: run_calls_points (env.handler fn (s.ev i).events p s1) s1
    | none => [s]
  | none => [s]

/-- The states passed by a `for` loop whose body at `i`, from `s`, passes the states
`points i s` and ends in `body i s`. -/
def for_loop_points (points : Nat → State → List State) (body : Nat → State → State) :
    List Nat → State → List State
  | [], _ => []
  | i :: is, s => points i s ++ for_loop_points points body is (body i s)

/-- The states passed by the three loops of `dispatch`, from the state the wait left:
after each step of Phase A, at each handler call and after each call a handler makes
in Phase B, and after each step of Phase C. -/
def dispatch_points (env : Env) (r : Int) (s : State) : List State :=
  s :: (for_loop_points (fun i s => [phaseA_step i s]) phaseA_step (indices r) s
    ++ for_loop_points (phaseB_step_points env) (phaseB_step env) (indices r) (phaseA r s)
    ++ for_loop_points (fun i s => [phaseC_step i s]) phaseC_step (indices r)
        (phaseB env r (phaseA r s)))

/-- The wait of one iteration: `epoll_wait` called with the timeout that
`compute_timeout` hands over. -/
def wait_of_iteration (env : Env) (x : Input) (s : State) : Int × Int × State :=
  epoll_wait x.wait EV_SIZE (compute_timeout env x.tv s).1 (compute_timeout env x.tv s).2

/-! ## Back-references -/

/-- Every registration has `ref_ev == NULL`. -/
def back_refs_empty (s : State) : Prop := ∀ p, (s.heap p).ref_ev = none

/-- Every registration with a non-null `ref_ev` has it pointing at one of the slots
`ev[0 .. r-1]`, and that slot's `data.ptr` is this registration. -/
def back_refs_consistent (r : Int) (s : State) : Prop :=
  ∀ p i, (s.heap p).ref_ev = some i → (i : Int) < r ∧ (s.ev i).data_ptr = some p

/-- Every registration with a non-null `ref_ev` has it pointing at a slot with an index
in `is`, and that slot's `data.ptr` is this registration. -/
def back_refs_within (is : List Nat) (s : State) : Prop :=
  ∀ p i, (s.heap p).ref_ev = some i → i ∈ is ∧ (s.ev i).data_ptr = some p

/-- No slot with an index in `is` holds the registration `h`. -/
def absent (is : List Nat) (h : Nat) (s : State) : Prop :=
  ∀ i ∈ is, (s.ev i).data_ptr ≠ some h

instance (is : List Nat) (h : Nat) (s : State) : Decidable (absent is h s) := by
  unfold absent
  infer_instance

/-- Among the slots `ev[0 .. r-1]`, no registration is held by two slots. -/
def one_slot_each (r : Int) (s : State) : Prop :=
  ∀ i ∈ indices r, ∀ j ∈ indices r,
    (s.ev i).data_ptr ≠ none → (s.ev i).data_ptr = (s.ev j).data_ptr → i = j

instance (r : Int) (s : State) : Decidable (one_slot_each r s) := by
  unfold one_slot_each
  infer_instance

/-- The calls `cs`, made one after the other from state `s`, call `add_epoll` only on
registrations that no slot in `is` holds at the time of the call. -/
def adds_only_absent (is : List Nat) : List Call → State → Bool
  | [], _ => true
  | Call.add_epoll h r :: cs, s =>
    decide (absent is h s) && adds_only_absent is cs (run_call (Call.add_epoll h r) s)
  | c :: cs, s => adds_only_absent is cs (run_call c s)

/-- The handler called by the second loop at index `i`, if any, calls `add_epoll` only
on registrations that no slot in `is` holds at the time of the call. -/
def step_adds_only_absent (env : Env) (is : List Nat) (i : Nat) (s : State) : Bool :=
  match (s.ev i).data_ptr with
  | some p =>
    match (s.heap p).handler with
    | some fn =>
      adds_only_absent is
        (env.handler fn (s.ev i).events p
          { s with trace := s.trace ++ [Event.handler fn (s.ev i).events p] })
        { s with trace := s.trace ++ [Event.handler fn (s.ev i).events p] }
    | none => true
  | none => true

/-- The handlers called by the second loop over the indices `js`, from state `s`, call
`add_epoll` only on registrations that no slot in `is` holds at the time of the call. -/
def loop_adds_only_absent (env : Env) (is : List Nat) : List Nat → State → Bool
  | [], _ => true
  | j :: js, s =>
    step_adds_only_absent env is j s && loop_adds_only_absent env is js (phaseB_step env j s)

/-- In the dispatch cycle over the slots `ev[0 .. r-1]` from state `s`, the handlers
call `add_epoll` only on registrations that none of these slots holds at the time of
the call. -/
def dispatch_adds_only_absent (env : Env) (r : Int) (s : State) : Bool :=
  loop_adds_only_absent env (indices r) (indices r) (phaseA r s)

/-- Every registration held by a slot with an index in `is` has its `ref_ev` pointing at
that slot. -/
def slots_point_back (is : List Nat) (s : State) : Prop :=
  ∀ i ∈ is, ∀ p, (s.ev i).data_ptr = some p → (s.heap p).ref_ev = some i

/-! ## Reading the log -/

/-- Number of calls of `bridge_one_second` in a log. -/
def ticks (t : List Event) : Nat := t.count Event.bridge_one_second

/-- The timeouts of the `epoll_wait` calls in a log, in order. -/
def waits : List Event → List Int
  | [] => []
  | Event.epoll_wait _ timeout _ _ :: t => timeout :: waits t
  | _ :: t => waits t

/-- The registrations whose handler is called in a log, in order. -/
def invoked : List Event → List Nat
  | [] => []
  | Event.handler _ _ p :: t => p :: invoked t
  | _ :: t => invoked t

/-- The log entries added on the way from state `s` to state `s'`. -/
def logged (s s' : State) : List Event := s'.trace.drop s.trace.length

/-- The log entry is an `epoll_wait` that failed with an `errno` other than `EINTR`. -/
def is_fatal_wait : Event → Bool
  | Event.epoll_wait _ _ r errno => decide (r < 0 ∧ errno ≠ EINTR)
  | _ => false

/-- Some `epoll_wait` of the log failed with an `errno` other than `EINTR`. -/
def has_fatal_wait (t : List Event) : Bool := t.any is_fatal_wait

/-- In the log `t`, no handler is called for a registration after a successful
`remove_epoll` of that registration (an `epoll_ctl` delete that returned `r >= 0`). -/
def never_invoked_after_removal (t : List Event) : Prop :=
  ∀ pre post h fd r, t = pre ++ Event.epoll_ctl_del h fd r :: post → 0 ≤ r →
    h ∉ invoked post

/-- A stretch of a dispatch cycle from `s` to `s'`, over the slots `is`: slots only
lose registrations, handlers are called only for registrations a slot held at `s`, and a
registration removed with success is in no slot at `s'` and has no handler call after
the removal. -/
def Stretch (is : List Nat) (s s' : State) : Prop :=
  (∀ h, absent is h s → absent is h s')
  ∧ ∃ new, s'.trace = s.trace ++ new
    ∧ (∀ p ∈ invoked new, ¬ absent is p s)
    ∧ (∀ pre post h fd r, new = pre ++ Event.epoll_ctl_del h fd r :: post → 0 ≤ r →
        absent is h s' ∧ h ∉ invoked post)

/-- The log entry is a call of `epoll_ctl`. -/
def is_ctl : Event → Bool
  | Event.epoll_ctl_add _ _ _ _ => true
  | Event.epoll_ctl_del _ _ _ => true
  | _ => false

/-- The log entry is a call of `epoll_ctl` or of a handler. -/
def is_callback : Event → Bool
  | Event.handler _ _ _ => true
  | e => is_ctl e

/-- The state `s'` is `s` after some more log entries, all satisfying `P`. -/
def Grows (P : Event → Bool) (s s' : State) : Prop :=
  ∃ new, s'.trace = s.trace ++ new ∧ ∀ e ∈ new, P e = true

/-! ## Countdown timers -/

def EAGAIN : Int := 11

/-- The function `epoll_timer_start(timer, seconds)`.  The return value of
`timerfd_settime` is not looked at. -/
def epoll_timer_start (timer : Nat) (seconds : Int) (s : State) : State :=
  let s1 : State := { s with heap := update s.heap timer { s.heap timer with priv := 0 } }
  { s1 with
    trace := s1.trace ++ [Event.timerfd_settime (s1.heap timer).fd 0
      { tv_sec := 0, tv_nsec := 0 } { tv_sec := seconds, tv_nsec := 0 }] }

/-- The function `epoll_timer_expired(timer)`; `r` and `errno` are what the `read` of
`sizeof(uint64_t) = 8` bytes returns, if it is made.  The test `s == sizeof(expirations)`
compares as unsigned 64-bit values, which for a value of `ssize_t` holds exactly when it
is 8.  The messages of `ERROR` are not modelled. -/
def epoll_timer_expired (r errno : Int) (timer : Nat) (s : State) : Int × State :=
  if (s.heap timer).priv ≠ 0 then (1, s)
  else
    let s1 : State := { s with trace := s.trace ++ [Event.read (s.heap timer).fd 8 r errno] }
    if r = 8 then
      (1, { s1 with heap := update s1.heap timer { s1.heap timer with priv := 1 } })
    else (0, s1)

/-- The function `epoll_timer_which_second(timer)`; `cur` is the `it_value` that
`timerfd_gettime` stores in `current_value`.  The sum is a `long` and the result an
`int`. -/
def epoll_timer_which_second (cur : timespec) (timer : Nat) (s : State) : Int × State :=
  (to_int (cur.tv_sec + (if cur.tv_nsec ≠ 0 then 1 else 0)),
    { s with trace := s.trace ++ [Event.timerfd_gettime (s.heap timer).fd] })

/-- An operation on the registrations other than starting a timer (and other than
creating or closing one): a call of `epoll_timer_expired` or `epoll_timer_which_second`
on some timer, with the kernel's answer, a call of `add_epoll` or `remove_epoll` (or
setting the quit flag), or one iteration of the loop. -/
inductive Op where
  | expired (timer : Nat) (r errno : Int)
  | which_second (timer : Nat) (cur : timespec)
  | call (c : Call)
  | iteration (x : Input)
deriving DecidableEq, Repr

def run_op (env : Env) (op : Op) (s : State) : State :=
  match op with
  | Op.expired timer r errno => (epoll_timer_expired r errno timer s).2
  | Op.which_second timer cur => (epoll_timer_which_second cur timer s).2
  | Op.call c => run_call c s
  | Op.iteration x => (loop_body env x s).2

def run_ops (env : Env) : List Op → State → State
  | [], s => s
  | op :: ops, s => run_ops env ops (run_op env op s)

/-- The `read` calls of a log, as pairs of descriptor and byte count. -/
def reads : List Event → List (Int × Nat)
  | [] => []
  | Event.read fd count _ _ :: t => (fd, count) :: reads t
  | _ :: t => reads t

/-- The iterations the `while` loop performs on the inputs `xs` from state `s`: for each
pass through the loop body, the state in which it starts (the loop test has found the
quit flag clear) and the input it uses. -/
def iterations (env : Env) : List Input → State → List (State × Input)
  | [], _ => []
  | x :: xs, s =>
    if s.quit then []
    else
      (s, x) :: (match loop_body env x s with
        | (some _, _) => []
        | (none, s1) => iterations env xs s1)

/-- The number of ticks it takes to catch up with a lag of `-timeout` milliseconds:
`ceil(-timeout / 1000)`, and none when `timeout` is not negative. -/
def lag_ticks (timeout : Int) : Nat := (-(timeout / 1000)).toNat

/-- The handler calls of a log, in order. -/
def handler_calls : List Event → List Event
  | [] => []
  | Event.handler fn events p :: t => Event.handler fn events p :: handler_calls t
  | _ :: t => handler_calls t

/-- The handler call the second loop makes at index `i` from state `s`: the call
`handler(ev[i].events, p)` when `ev[i].data.ptr` is a registration `p` whose `handler`
is not null, and no call otherwise. -/
def call_at (i : Nat) (s : State) : List Event :=
  match (s.ev i).data_ptr with
  | some p =>
    match (s.heap p).handler with
    | some fn => [Event.handler fn (s.ev i).events p]
    | none => []
  | none => []

/-- The handler calls of the second loop over the indices `is` from state `s`, slot by
slot in the order of `is`: for each index the call `call_at` gives for the slot as it is
when its turn comes. -/
def calls_in_turn (env : Env) : List Nat → State → List Event
  | [], _ => []
  | i :: is, s => call_at i s ++ calls_in_turn env is (phaseB_step env i s)

/-- The registrations the slots `ev[0 .. r-1]` hold, in the order of the slots. -/
def batch_registrations (r : Int) (s : State) : List Nat :=
  (indices r).filterMap (fun i => (s.ev i).data_ptr)

/-- From `s` to `s'` a slot either keeps its registration or has lost it. -/
def slots_lose (s s' : State) : Prop :=
  ∀ i, (s'.ev i).data_ptr = none ∨ (s'.ev i).data_ptr = (s.ev i).data_ptr

/-- The `handler` fields of all registrations. -/
def handlers (s : State) : Nat → Option Nat := fun p => (s.heap p).handler

/-- Every handler makes calls of `remove_epoll` only. -/
def handlers_only_remove (env : Env) : Prop :=
  ∀ fn events p s, ∀ c ∈ env.handler fn events p s, ∃ h r, c = Call.remove_epoll h r

/-- The registration `p` is retired: no slot with an index in `is` holds it, and its
`ref_ev` does not point at a slot that holds it. -/
def retired (is : List Nat) (p : Nat) (s : State) : Prop :=
  absent is p s ∧ ∀ j, (s.heap p).ref_ev = some j → (s.ev j).data_ptr ≠ some p

/-- From `s` to `t` every retired registration stays retired and its memory is not
written. -/
def leaves_retired (is : List Nat) (s t : State) : Prop :=
  ∀ p, retired is p s → retired is p t ∧ t.heap p = s.heap p

/-- The states `ps` are passed on the way from `s` to `t`, in this order, and `R` holds
from each state to every later one. -/
def Ordered (R : State → State → Prop) (s : State) (ps : List State) (t : State) : Prop :=
  R s t ∧ (∀ x ∈ ps, R s x) ∧ (∀ x ∈ ps, R x t)
    ∧ ∀ l1 a l2, ps = l1 ++ a :: l2 → ∀ b ∈ l2, R a b

/-- The point `s'` of a dispatch cycle that started in `s0` has the log of `s0` and more,
its slots hold what they held at `s0` or nothing, and if the last entry added is a
successful `remove_epoll` of a registration, that registration is retired. -/
def removal_settled (is : List Nat) (s0 s' : State) : Prop :=
  (∃ new, s'.trace = s0.trace ++ new) ∧ slots_lose s0 s'
    ∧ ∀ p fd r, (logged s0 s').getLast? = some (Event.epoll_ctl_del p fd r) → 0 ≤ r →
        retired is p s'

/-- The latches `priv` of all registrations. -/
def privs (s : State) : Nat → Int := fun p => (s.heap p).priv

/-- The remaining interval `cur` in whole seconds, rounded up:
`ceil((tv_sec * 10^9 + tv_nsec) / 10^9)`. -/
def ceil_seconds (cur : timespec) : Int :=
  -((-(cur.tv_sec * 1000000000 + cur.tv_nsec)) / 1000000000)

/-- The value is in the range of a 32-bit `int`. -/
def fits_int (x : Int) : Prop := -2147483648 ≤ x ∧ x ≤ 2147483647

instance (x : Int) : Decidable (fits_int x) := by
  unfold fits_int
  infer_instance

/-- The value `x` clamped to the range of a 32-bit `int`. -/
def clamp_int (x : Int) : Int := max (-2147483648) (min x 2147483647)

/-- The `long` value that `time_diff(second, first)` computes before it is converted to
its `int` result. -/
def time_diff_long (second first : timespec) : Int :=
  (second.tv_sec - first.tv_sec) * 1000
    + Int.tdiv (second.tv_nsec - first.tv_nsec) 1000000

/-! ## Clock readings -/

/-- A timespec as `clock_gettime` returns it: `0 <= tv_nsec < 10^9`. -/
def normalised (t : timespec) : Prop := 0 ≤ t.tv_nsec ∧ t.tv_nsec < 1000000000

/-- The instant `a` is not later than the instant `b` (both normalised). -/
def not_later (a b : timespec) : Prop :=
  a.tv_sec < b.tv_sec ∨ (a.tv_sec = b.tv_sec ∧ a.tv_nsec ≤ b.tv_nsec)

/-- The instant `t` plus `n` seconds. -/
def plus_seconds (t : timespec) (n : Int) : timespec :=
  { tv_sec := t.tv_sec + n, tv_nsec := t.tv_nsec }

instance (t : timespec) : Decidable (normalised t) := by
  unfold normalised
  infer_instance

instance (a b : timespec) : Decidable (not_later a b) := by
  unfold not_later
  infer_instance

/-! ## Sample data -/

/-- A registration with no handler and no back-reference. -/
def idle_registration : epoll_event_handler :=
  { fd := 0, arg := 0, handler := none, ref_ev := none, priv := 0 }

/-- A memory with idle registrations only, empty slots, and the deadline at `t`. -/
def idle_state (t : timespec) : State :=
  { heap := fun _ => idle_registration
    ev := fun _ => { events := 0, data_ptr := none }
    nexttimeout := t
    quit := false
    trace := [] }

/-- Handlers and a tick that call nothing. -/
def idle_env : Env :=
  { handler := fun _ _ _ _ => []
    bridge_one_second := fun _ => [] }

/-- A clock reading half a second before the deadline `100 s`, and a timeout. -/
def before_jump : Input :=
  { tv := { tv_sec := 99, tv_nsec := 500000000 }, wait := WaitResult.ready [] }

/-- The clock reading ten seconds after `before_jump`, and a timeout. -/
def after_jump : Input :=
  { tv := { tv_sec := 109, tv_nsec := 500000000 }, wait := WaitResult.ready [] }

/-- Two registrations, at addresses 1 and 2, with the handler functions 1 and 2; the
deadline is at `t`. -/
def two_registrations (t : timespec) : State :=
  { heap := fun p =>
      if p = 1 then { fd := 11, arg := 0, handler := some 1, ref_ev := none, priv := 0 }
      else if p = 2 then { fd := 12, arg := 0, handler := some 2, ref_ev := none, priv := 0 }
      else idle_registration
    ev := fun _ => { events := 0, data_ptr := none }
    nexttimeout := t
    quit := false
    trace := [] }

/-- A batch in which both registrations are ready: slot 0 holds registration 1 and slot
1 holds registration 2. -/
def both_ready : List epoll_event :=
  [{ events := EPOLLIN, data_ptr := some 1 }, { events := EPOLLIN, data_ptr := some 2 }]

/-- The handler function 1 sets the quit flag; the others do nothing. -/
def quitting_env : Env :=
  { handler := fun fn _ _ _ => if fn = 1 then [Call.set_quit] else []
    bridge_one_second := fun _ => [] }

/-- The handler function 1 removes registration 2, and the kernel accepts; the others
do nothing. -/
def removing_env : Env :=
  { handler := fun fn _ _ _ => if fn = 1 then [Call.remove_epoll 2 0] else []
    bridge_one_second := fun _ => [] }

/-- A clock reading half a second before the deadline `100 s`, and a wait that returns
`both_ready`. -/
def both_ready_input : Input :=
  { tv := { tv_sec := 99, tv_nsec := 500000000 }, wait := WaitResult.ready both_ready }

/-- The handler function 1 calls `add_epoll` on registration 2, which the kernel refuses
(it is registered already), and then `remove_epoll` on it, which the kernel accepts; the
others do nothing. -/
def readding_env : Env :=
  { handler := fun fn _ _ _ =>
      if fn = 1 then [Call.add_epoll 2 (-1), Call.remove_epoll 2 0] else []
    bridge_one_second := fun _ => [] }

/-- The handler function 1 removes registration 2 and then adds it again, and the
kernel accepts both; the others do nothing. -/
def reregistering_env : Env :=
  { handler := fun fn _ _ _ =>
      if fn = 1 then [Call.remove_epoll 2 0, Call.add_epoll 2 0] else []
    bridge_one_second := fun _ => [] }

/-- A batch in which registration 2 is reported in two slots: slot 0 holds registration
1, slots 1 and 2 hold registration 2. -/
def twice_ready : List epoll_event :=
  [{ events := EPOLLIN, data_ptr := some 1 }, { events := EPOLLIN, data_ptr := some 2 },
    { events := EPOLLIN, data_ptr := some 2 }]

/-- A clock reading half a second before the deadline `100 s`, and a wait that returns
`twice_ready`. -/
def twice_ready_input : Input :=
  { tv := { tv_sec := 99, tv_nsec := 500000000 }, wait := WaitResult.ready twice_ready }

/-- Three clock readings after a first reading of `100 s`: half a second later, 1.2 s
later, and 6 s later (the loop is then more than 4 s late); every wait times out. -/
def steady_readings : List Input :=
  [{ tv := { tv_sec := 100, tv_nsec := 500000000 }, wait := WaitResult.ready [] },
    { tv := { tv_sec := 101, tv_nsec := 200000000 }, wait := WaitResult.ready [] },
    { tv := { tv_sec := 106, tv_nsec := 0 }, wait := WaitResult.ready [] }]

/-- Five iterations that all read the clock at `100 s`; every wait times out. -/
def frozen_clock : List Input :=
  List.replicate 5 { tv := { tv_sec := 100, tv_nsec := 0 }, wait := WaitResult.ready [] }

/-! ## Basic facts -/

theorem update_same {α : Type} (f : Nat → α) (p : Nat) (v : α) : update f p v p = v := by
  simp [update]

theorem update_other {α : Type} (f : Nat → α) (p q : Nat) (v : α) (hq : q ≠ p) :
    update f p v q = f q := by
  simp [update, hq]

/-! ## `remove_epoll` and `add_epoll` -/

/-- C2: `remove_epoll(h)` returns -1 exactly when the kernel delete fails (`r < 0`), and
then `h->ref_ev` and all slots are as before.  When the delete succeeds it returns 0; if
`h->ref_ev` points at a slot that stores `h`, that slot's `data.ptr` and `h->ref_ev` both
become `NULL`, and otherwise `h->ref_ev` and all slots are as before.  The fields `fd`,
`handler`, `arg` and `priv` of `h` never change. -/
theorem remove_epoll_spec (r : Int) (h : Nat) (s : State) :
    ((remove_epoll r h s).1 = -1 ↔ r < 0)
    ∧ (r < 0 → ((remove_epoll r h s).2.heap h).ref_ev = (s.heap h).ref_ev
        ∧ (remove_epoll r h s).2.ev = s.ev)
    ∧ (¬ r < 0 → (remove_epoll r h s).1 = 0
        ∧ (∀ i, (s.heap h).ref_ev = some i → (s.ev i).data_ptr = some h →
            ((remove_epoll r h s).2.ev i).data_ptr = none
            ∧ ((remove_epoll r h s).2.heap h).ref_ev = none)
        ∧ ((¬ ∃ i, (s.heap h).ref_ev = some i ∧ (s.ev i).data_ptr = some h) →
            ((remove_epoll r h s).2.heap h).ref_ev = (s.heap h).ref_ev
            ∧ (remove_epoll r h s).2.ev = s.ev))
    ∧ ((remove_epoll r h s).2.heap h).fd = (s.heap h).fd
    ∧ ((remove_epoll r h s).2.heap h).handler = (s.heap h).handler
    ∧ ((remove_epoll r h s).2.heap h).arg = (s.heap h).arg
    ∧ ((remove_epoll r h s).2.heap h).priv = (s.heap h).priv := by
  unfold remove_epoll
  by_cases hr : r < 0
  · simp [hr]
  · cases hi : (s.heap h).ref_ev with
    | none => simp [hr, hi]
    | some i =>
      by_cases hp : (s.ev i).data_ptr = some h
      · simp [hr, hi, hp, update]
      · simp [hr, hi, hp]

/-- C3: `add_epoll(h)` makes exactly one kernel call, `epoll_ctl(EPOLL_CTL_ADD)` on
`h->fd` with events `EPOLLIN` and payload `h`; it returns 0 exactly when that call
succeeds and -1 exactly when it fails (`r < 0`).  Afterwards `h->ref_ev` is `NULL` and
the fields `fd`, `handler`, `arg` and `priv` of `h` are as before. -/
theorem add_epoll_spec (r : Int) (h : Nat) (s : State) :
    (add_epoll r h s).2.trace = s.trace ++ [Event.epoll_ctl_add (s.heap h).fd EPOLLIN h r]
    ∧ ((add_epoll r h s).1 = 0 ↔ ¬ r < 0)
    ∧ ((add_epoll r h s).1 = -1 ↔ r < 0)
    ∧ ((add_epoll r h s).2.heap h).ref_ev = none
    ∧ ((add_epoll r h s).2.heap h).fd = (s.heap h).fd
    ∧ ((add_epoll r h s).2.heap h).handler = (s.heap h).handler
    ∧ ((add_epoll r h s).2.heap h).arg = (s.heap h).arg
    ∧ ((add_epoll r h s).2.heap h).priv = (s.heap h).priv := by
  unfold add_epoll
  by_cases hr : r < 0 <;> simp [hr, update]

/-! ## The log only grows -/

theorem ticks_append (a b : List Event) : ticks (a ++ b) = ticks a + ticks b := by
  simp [ticks]

theorem waits_append (a b : List Event) : waits (a ++ b) = waits a ++ waits b := by
  induction a with
  | nil => rfl
  | cons e a ih => cases e <;> simp [waits, ih]

theorem invoked_append (a b : List Event) : invoked (a ++ b) = invoked a ++ invoked b := by
  induction a with
  | nil => rfl
  | cons e a ih => cases e <;> simp [invoked, ih]

theorem is_callback_of_is_ctl {e : Event} (h : is_ctl e = true) : is_callback e = true := by
  cases e <;> simp_all [is_callback, is_ctl]

theorem ticks_of_callback (t : List Event) (h : ∀ e ∈ t, is_callback e = true) :
    ticks t = 0 := by
  induction t with
  | nil => rfl
  | cons e t ih =>
    have he := h e (List.mem_cons_self e t)
    have := ih (fun e he => h e (List.mem_cons_of_mem _ he))
    cases e <;> first
      | (simp [is_callback, is_ctl] at he; done)
      | simp_all [ticks, is_callback, is_ctl]

theorem waits_of_callback (t : List Event) (h : ∀ e ∈ t, is_callback e = true) :
    waits t = [] := by
  induction t with
  | nil => rfl
  | cons e t ih =>
    have he := h e (List.mem_cons_self e t)
    have := ih (fun e he => h e (List.mem_cons_of_mem _ he))
    cases e <;> first
      | (simp [is_callback, is_ctl] at he; done)
      | simp_all [waits, is_callback, is_ctl]

theorem invoked_of_ctl (t : List Event) (h : ∀ e ∈ t, is_ctl e = true) :
    invoked t = [] := by
  induction t with
  | nil => rfl
  | cons e t ih =>
    have he := h e (List.mem_cons_self e t)
    have := ih (fun e he => h e (List.mem_cons_of_mem _ he))
    cases e <;> first
      | (simp [is_ctl] at he; done)
      | simp_all [invoked, is_ctl]

theorem grows_refl (P : Event → Bool) (s : State) : Grows P s s :=
  ⟨[], by simp, by simp⟩

theorem grows_trans {P : Event → Bool} {s1 s2 s3 : State} (h1 : Grows P s1 s2)
    (h2 : Grows P s2 s3) : Grows P s1 s3 := by
  obtain ⟨n1, e1, p1⟩ := h1
  obtain ⟨n2, e2, p2⟩ := h2
  refine ⟨n1 ++ n2, by rw [e2, e1, List.append_assoc], ?_⟩
  intro e he
  rcases List.mem_append.mp he with h | h
  · exact p1 e h
  · exact p2 e h

theorem grows_mono {P Q : Event → Bool} {s1 s2 : State} (h : Grows P s1 s2)
    (hPQ : ∀ e, P e = true → Q e = true) : Grows Q s1 s2 := by
  obtain ⟨n, e, p⟩ := h
  exact ⟨n, e, fun x hx => hPQ x (p x hx)⟩

theorem run_call_grows (c : Call) (s : State) : Grows is_ctl s (run_call c s) := by
  cases c with
  | add_epoll h r =>
    refine ⟨[Event.epoll_ctl_add (s.heap h).fd EPOLLIN h r], ?_, by simp [is_ctl]⟩
    simp only [run_call, add_epoll]
    split <;> simp [update]
  | remove_epoll h r =>
    refine ⟨[Event.epoll_ctl_del h (s.heap h).fd r], ?_, by simp [is_ctl]⟩
    simp only [run_call, remove_epoll]
    split
    · rfl
    · split
      · split <;> rfl
      · rfl
  | set_quit => exact ⟨[], by simp [run_call], by simp⟩

theorem run_calls_grows (cs : List Call) (s : State) : Grows is_ctl s (run_calls cs s) := by
  induction cs generalizing s with
  | nil => exact grows_refl _ _
  | cons c cs ih => exact grows_trans (run_call_grows c s) (ih _)

theorem run_call_nexttimeout (c : Call) (s : State) :
    (run_call c s).nexttimeout = s.nexttimeout := by
  cases c with
  | add_epoll h r =>
    simp only [run_call, add_epoll]
    split <;> rfl
  | remove_epoll h r =>
    simp only [run_call, remove_epoll]
    split
    · rfl
    · split
      · split <;> rfl
      · rfl
  | set_quit => rfl

theorem run_calls_nexttimeout (cs : List Call) (s : State) :
    (run_calls cs s).nexttimeout = s.nexttimeout := by
  induction cs generalizing s with
  | nil => rfl
  | cons c cs ih => simp [run_calls, ih, run_call_nexttimeout]

theorem for_loop_grows {P : Event → Bool} {body : Nat → State → State}
    (hb : ∀ i s, Grows P s (body i s)) (is : List Nat) (s : State) :
    Grows P s (for_loop body is s) := by
  induction is generalizing s with
  | nil => exact grows_refl _ _
  | cons i is ih => exact grows_trans (hb i s) (ih _)

theorem for_loop_keeps {α : Type} (f : State → α) {body : Nat → State → State}
    (hb : ∀ i s, f (body i s) = f s) (is : List Nat) (s : State) :
    f (for_loop body is s) = f s := by
  induction is generalizing s with
  | nil => rfl
  | cons i is ih => simp [for_loop, ih, hb]

theorem phaseA_step_trace (i : Nat) (s : State) : (phaseA_step i s).trace = s.trace := by
  unfold phaseA_step
  split <;> rfl

theorem phaseC_step_trace (i : Nat) (s : State) : (phaseC_step i s).trace = s.trace := by
  unfold phaseC_step
  split <;> rfl

theorem phaseA_step_nexttimeout (i : Nat) (s : State) :
    (phaseA_step i s).nexttimeout = s.nexttimeout := by
  unfold phaseA_step
  split <;> rfl

theorem phaseC_step_nexttimeout (i : Nat) (s : State) :
    (phaseC_step i s).nexttimeout = s.nexttimeout := by
  unfold phaseC_step
  split <;> rfl

theorem phaseB_step_nexttimeout (env : Env) (i : Nat) (s : State) :
    (phaseB_step env i s).nexttimeout = s.nexttimeout := by
  unfold phaseB_step
  split
  · split
    · simp [run_calls_nexttimeout]
    · rfl
  · rfl

theorem phaseB_step_none (env : Env) (i : Nat) (s : State)
    (hp : (s.ev i).data_ptr = none) : phaseB_step env i s = s := by
  simp [phaseB_step, hp]

theorem phaseB_step_no_handler (env : Env) (i : Nat) (s : State) (p : Nat)
    (hp : (s.ev i).data_ptr = some p) (hf : (s.heap p).handler = none) :
    phaseB_step env i s = s := by
  simp [phaseB_step, hp, hf]

theorem phaseB_step_call (env : Env) (i : Nat) (s : State) (p fn : Nat)
    (hp : (s.ev i).data_ptr = some p) (hf : (s.heap p).handler = some fn) :
    phaseB_step env i s
      = run_calls (env.handler fn (s.ev i).events p
          { s with trace := s.trace ++ [Event.handler fn (s.ev i).events p] })
          { s with trace := s.trace ++ [Event.handler fn (s.ev i).events p] } := by
  simp [phaseB_step, hp, hf]

theorem phaseB_step_grows (env : Env) (i : Nat) (s : State) :
    Grows is_callback s (phaseB_step env i s) := by
  cases hp : (s.ev i).data_ptr with
  | none => rw [phaseB_step_none env i s hp]; exact grows_refl _ _
  | some p =>
    cases hf : (s.heap p).handler with
    | none => rw [phaseB_step_no_handler env i s p hp hf]; exact grows_refl _ _
    | some fn =>
      rw [phaseB_step_call env i s p fn hp hf]
      have h1 : Grows is_callback s
          { s with trace := s.trace ++ [Event.handler fn (s.ev i).events p] } :=
        ⟨[Event.handler fn (s.ev i).events p], rfl, by simp [is_callback]⟩
      exact grows_trans h1 (grows_mono (run_calls_grows _ _) (fun e => is_callback_of_is_ctl))

theorem dispatch_trace (env : Env) (r : Int) (s : State) :
    Grows is_callback s (dispatch env r s) := by
  unfold dispatch phaseC phaseB phaseA
  obtain ⟨new, hn, hp⟩ := for_loop_grows (phaseB_step_grows env) (indices r)
    (for_loop phaseA_step (indices r) s)
  refine ⟨new, ?_, hp⟩
  rw [for_loop_keeps State.trace phaseC_step_trace, hn,
    for_loop_keeps State.trace phaseA_step_trace]

theorem dispatch_nexttimeout (env : Env) (r : Int) (s : State) :
    (dispatch env r s).nexttimeout = s.nexttimeout := by
  unfold dispatch phaseC phaseB phaseA
  rw [for_loop_keeps State.nexttimeout phaseC_step_nexttimeout,
    for_loop_keeps State.nexttimeout (phaseB_step_nexttimeout env),
    for_loop_keeps State.nexttimeout phaseA_step_nexttimeout]

theorem epoll_wait_trace (w : WaitResult) (n : Nat) (timeout : Int) (s : State) :
    (epoll_wait w n timeout s).2.2.trace
      = s.trace ++ [Event.epoll_wait n timeout (epoll_wait w n timeout s).1
          (epoll_wait w n timeout s).2.1] := by
  unfold epoll_wait
  cases w <;> rfl

theorem epoll_wait_nexttimeout (w : WaitResult) (n : Nat) (timeout : Int) (s : State) :
    (epoll_wait w n timeout s).2.2.nexttimeout = s.nexttimeout := by
  unfold epoll_wait
  cases w <;> rfl

/-- After the wait: the log has the `epoll_wait` call and then only calls of handlers
and of `epoll_ctl`, none at all when the loop returns here; `nexttimeout` is not
touched. -/
theorem wait_and_dispatch_facts (env : Env) (w : WaitResult) (timeout : Int) (s : State) :
    (∃ r errno new, (wait_and_dispatch env w timeout s).2.trace
        = s.trace ++ [Event.epoll_wait EV_SIZE timeout r errno] ++ new
      ∧ (∀ e ∈ new, is_callback e = true)
      ∧ ((r < 0 ∧ errno ≠ EINTR) →
          (wait_and_dispatch env w timeout s).1 = some (-1) ∧ new = [])
      ∧ (¬ (r < 0 ∧ errno ≠ EINTR) → (wait_and_dispatch env w timeout s).1 = none))
    ∧ (wait_and_dispatch env w timeout s).2.nexttimeout = s.nexttimeout := by
  unfold wait_and_dispatch
  have ht := epoll_wait_trace w EV_SIZE timeout s
  have hn := epoll_wait_nexttimeout w EV_SIZE timeout s
  rcases hw : epoll_wait w EV_SIZE timeout s with ⟨r, errno, s1⟩
  rw [hw] at ht hn
  simp only at ht hn
  dsimp only
  by_cases hf : r < 0 ∧ errno ≠ EINTR
  · rw [if_pos hf]
    exact ⟨⟨r, errno, [], by simp [ht], by simp, fun _ => ⟨rfl, rfl⟩,
      fun h => absurd hf h⟩, hn⟩
  · rw [if_neg hf]
    obtain ⟨new, h1, h2⟩ := dispatch_trace env r s1
    exact ⟨⟨r, errno, new, by rw [h1, ht], h2, fun h => absurd h hf, fun _ => rfl⟩,
      by rw [dispatch_nexttimeout, hn]⟩

/-- Lines 119-135: what the timeout computation leaves in the log. -/
theorem compute_timeout_trace (env : Env) (tv : timespec) (s : State) :
    ∃ new, (compute_timeout env tv s).2.trace = s.trace ++ new
      ∧ ticks new = (if time_diff s.nexttimeout tv < 0 ∨ time_diff s.nexttimeout tv > 1000
          then 1 else 0)
      ∧ waits new = [] ∧ invoked new = [] := by
  unfold compute_timeout
  by_cases hc : time_diff s.nexttimeout tv < 0 ∨ time_diff s.nexttimeout tv > 1000
  · obtain ⟨new, h1, h2⟩ := run_calls_grows
      (env.bridge_one_second { s with trace := s.trace ++ [Event.bridge_one_second] })
      { s with trace := s.trace ++ [Event.bridge_one_second] }
    have hcb : ∀ e ∈ new, is_callback e = true := fun e he => is_callback_of_is_ctl (h2 e he)
    refine ⟨[Event.bridge_one_second] ++ new, ?_, ?_, ?_, ?_⟩
    · simp only [if_pos hc, run_timeouts]
      split <;> simp [h1]
    · rw [if_pos hc, ticks_append, ticks_of_callback new hcb]
      rfl
    · rw [waits_append, waits_of_callback new hcb]
      rfl
    · rw [invoked_append, invoked_of_ctl new h2]
      rfl
  · exact ⟨[], by simp [hc], by simp [hc, ticks], rfl, rfl⟩

theorem compute_timeout_fst (env : Env) (tv : timespec) (s : State) :
    (compute_timeout env tv s).1
      = if time_diff s.nexttimeout tv < 0 ∨ time_diff s.nexttimeout tv > 1000 then 0
        else time_diff s.nexttimeout tv := by
  unfold compute_timeout
  by_cases hc : time_diff s.nexttimeout tv < 0 ∨ time_diff s.nexttimeout tv > 1000
  · simp only [if_pos hc]
  · simp only [if_neg hc]

theorem compute_timeout_nexttimeout (env : Env) (tv : timespec) (s : State) :
    (compute_timeout env tv s).2.nexttimeout
      = if time_diff s.nexttimeout tv < 0 ∨ time_diff s.nexttimeout tv > 1000 then
          (if time_diff s.nexttimeout tv < -4000 ∨ time_diff s.nexttimeout tv > 1000 then
            { tv_sec := tv.tv_sec + 1, tv_nsec := tv.tv_nsec }
          else { tv_sec := s.nexttimeout.tv_sec + 1, tv_nsec := s.nexttimeout.tv_nsec })
        else s.nexttimeout := by
  unfold compute_timeout
  by_cases hc : time_diff s.nexttimeout tv < 0 ∨ time_diff s.nexttimeout tv > 1000
  · by_cases hr : time_diff s.nexttimeout tv < -4000 ∨ time_diff s.nexttimeout tv > 1000
    · simp only [if_pos hc, if_pos hr]
    · simp only [if_pos hc, if_neg hr, run_timeouts, run_calls_nexttimeout]
  · simp only [if_neg hc]

/-- One iteration: the calls it logs and the deadline it leaves. -/
theorem loop_body_facts (env : Env) (x : Input) (s : State) :
    (∃ new, (loop_body env x s).2.trace = s.trace ++ new
      ∧ ticks new = (if time_diff s.nexttimeout x.tv < 0 ∨ time_diff s.nexttimeout x.tv > 1000
          then 1 else 0)
      ∧ waits new = [if time_diff s.nexttimeout x.tv < 0 ∨ time_diff s.nexttimeout x.tv > 1000
          then 0 else time_diff s.nexttimeout x.tv])
    ∧ (loop_body env x s).2.nexttimeout = (compute_timeout env x.tv s).2.nexttimeout := by
  unfold loop_body
  obtain ⟨n1, h1, ht, hw, _⟩ := compute_timeout_trace env x.tv s
  have hfst := compute_timeout_fst env x.tv s
  rcases hc : compute_timeout env x.tv s with ⟨timeout, s1⟩
  rw [hc] at h1 hfst
  simp only at h1 hfst
  dsimp only
  obtain ⟨⟨r, errno, n2, h2, hcb, _, _⟩, hnt⟩ := wait_and_dispatch_facts env x.wait timeout s1
  refine ⟨⟨n1 ++ [Event.epoll_wait EV_SIZE timeout r errno] ++ n2, ?_, ?_, ?_⟩, hnt⟩
  · rw [h2, h1]
    simp
  · rw [ticks_append, ticks_append, ht, ticks_of_callback n2 hcb]
    simp [ticks]
  · rw [waits_append, waits_append, hw, waits_of_callback n2 hcb, hfst]
    simp [waits]

theorem logged_eq {s s' : State} {new : List Event} (h : s'.trace = s.trace ++ new) :
    logged s s' = new := by
  simp [logged, h]

/-- One iteration, in terms of `logged`. -/
theorem loop_body_logged (env : Env) (x : Input) (s : State) :
    (loop_body env x s).2.trace = s.trace ++ logged s (loop_body env x s).2
    ∧ ticks (logged s (loop_body env x s).2)
      = (if time_diff s.nexttimeout x.tv < 0 ∨ time_diff s.nexttimeout x.tv > 1000
          then 1 else 0)
    ∧ waits (logged s (loop_body env x s).2)
      = [if time_diff s.nexttimeout x.tv < 0 ∨ time_diff s.nexttimeout x.tv > 1000
          then 0 else time_diff s.nexttimeout x.tv] := by
  obtain ⟨⟨new, h1, ht, hw⟩, _⟩ := loop_body_facts env x s
  rw [logged_eq h1]
  exact ⟨h1, ht, hw⟩

/-- C6: in one iteration, with `timeout = time_diff(nexttimeout, now)`: when
`timeout < 0` or `timeout > 1000` the tick `bridge_one_second` is called exactly once and
the one `epoll_wait` of the iteration gets timeout 0; otherwise the tick is not called,
the one `epoll_wait` gets exactly `timeout`, which lies in `0 .. 1000`, and `nexttimeout`
is as before. -/
theorem tick_decision (env : Env) (x : Input) (s : State) :
    ((time_diff s.nexttimeout x.tv < 0 ∨ time_diff s.nexttimeout x.tv > 1000) →
        ticks (logged s (loop_body env x s).2) = 1
        ∧ waits (logged s (loop_body env x s).2) = [0])
    ∧ (¬ (time_diff s.nexttimeout x.tv < 0 ∨ time_diff s.nexttimeout x.tv > 1000) →
        ticks (logged s (loop_body env x s).2) = 0
        ∧ waits (logged s (loop_body env x s).2) = [time_diff s.nexttimeout x.tv]
        ∧ 0 ≤ time_diff s.nexttimeout x.tv ∧ time_diff s.nexttimeout x.tv ≤ 1000
        ∧ (loop_body env x s).2.nexttimeout = s.nexttimeout) := by
  obtain ⟨_, ht, hw⟩ := loop_body_logged env x s
  have hn := (loop_body_facts env x s).2
  constructor
  · intro hc
    rw [if_pos hc] at ht hw
    exact ⟨ht, hw⟩
  · intro hc
    rw [if_neg hc] at ht hw
    rw [compute_timeout_nexttimeout, if_neg hc] at hn
    exact ⟨ht, hw, by omega, by omega, hn⟩

/-- Witness of C6: with the deadline 400 ms ahead the wait gets 400 and no tick is
called, and with the deadline 5 ms ahead the wait gets 5 and no tick is called. -/
theorem tick_decision_witness :
    (ticks (logged (idle_state { tv_sec := 100, tv_nsec := 0 })
        (loop_body idle_env { tv := { tv_sec := 99, tv_nsec := 600000000 }, wait := WaitResult.ready [] }
          (idle_state { tv_sec := 100, tv_nsec := 0 })).2) = 0
      ∧ waits (logged (idle_state { tv_sec := 100, tv_nsec := 0 })
        (loop_body idle_env { tv := { tv_sec := 99, tv_nsec := 600000000 }, wait := WaitResult.ready [] }
          (idle_state { tv_sec := 100, tv_nsec := 0 })).2) = [400])
    ∧ (ticks (logged (idle_state { tv_sec := 100, tv_nsec := 5000000 })
        (loop_body idle_env { tv := { tv_sec := 100, tv_nsec := 0 }, wait := WaitResult.ready [] }
          (idle_state { tv_sec := 100, tv_nsec := 5000000 })).2) = 0
      ∧ waits (logged (idle_state { tv_sec := 100, tv_nsec := 5000000 })
        (loop_body idle_env { tv := { tv_sec := 100, tv_nsec := 0 }, wait := WaitResult.ready [] }
          (idle_state { tv_sec := 100, tv_nsec := 5000000 })).2) = [5]) :=
  ⟨⟨((tick_decision idle_env
        { tv := { tv_sec := 99, tv_nsec := 600000000 }, wait := WaitResult.ready [] }
        (idle_state { tv_sec := 100, tv_nsec := 0 })).2 (by decide)).1,
    ((tick_decision idle_env
        { tv := { tv_sec := 99, tv_nsec := 600000000 }, wait := WaitResult.ready [] }
        (idle_state { tv_sec := 100, tv_nsec := 0 })).2 (by decide)).2.1⟩,
   ⟨((tick_decision idle_env
        { tv := { tv_sec := 100, tv_nsec := 0 }, wait := WaitResult.ready [] }
        (idle_state { tv_sec := 100, tv_nsec := 5000000 })).2 (by decide)).1,
    ((tick_decision idle_env
        { tv := { tv_sec := 100, tv_nsec := 0 }, wait := WaitResult.ready [] }
        (idle_state { tv_sec := 100, tv_nsec := 5000000 })).2 (by decide)).2.1⟩⟩

/-- C7: in an iteration that ticks, with `timeout = time_diff(nexttimeout, now)`: when
`timeout < -4000` or `timeout > 1000`, `nexttimeout` becomes `now` plus one second
(`tv_sec = now.tv_sec + 1`, `tv_nsec = now.tv_nsec`); when `-4000 <= timeout < 0`,
`nexttimeout.tv_sec` grows by one and `tv_nsec` stays.  In both cases the tick
`bridge_one_second` is called exactly once in the iteration. -/
theorem deadline_update (env : Env) (x : Input) (s : State) :
    ((time_diff s.nexttimeout x.tv < -4000 ∨ time_diff s.nexttimeout x.tv > 1000) →
      (loop_body env x s).2.nexttimeout
        = { tv_sec := x.tv.tv_sec + 1, tv_nsec := x.tv.tv_nsec }
      ∧ ticks (logged s (loop_body env x s).2) = 1)
    ∧ ((-4000 ≤ time_diff s.nexttimeout x.tv ∧ time_diff s.nexttimeout x.tv < 0) →
      (loop_body env x s).2.nexttimeout
        = { tv_sec := s.nexttimeout.tv_sec + 1, tv_nsec := s.nexttimeout.tv_nsec }
      ∧ ticks (logged s (loop_body env x s).2) = 1) := by
  obtain ⟨_, ht, _⟩ := loop_body_logged env x s
  have hn := (loop_body_facts env x s).2
  rw [compute_timeout_nexttimeout] at hn
  constructor
  · intro hr
    have hc : time_diff s.nexttimeout x.tv < 0 ∨ time_diff s.nexttimeout x.tv > 1000 := by
      omega
    rw [if_pos hc] at ht hn
    rw [if_pos hr] at hn
    exact ⟨hn, ht⟩
  · intro hr
    have hc : time_diff s.nexttimeout x.tv < 0 ∨ time_diff s.nexttimeout x.tv > 1000 := by
      omega
    have hnr : ¬ (time_diff s.nexttimeout x.tv < -4000 ∨ time_diff s.nexttimeout x.tv > 1000) := by
      omega
    rw [if_pos hc] at ht hn
    rw [if_neg hnr] at hn
    exact ⟨hn, ht⟩

/-- Witness of C7: the deadline is at 100 s; a clock reading of 110 s (10 s late) moves
it to 111 s, a clock reading of 101.5 s (1.5 s late) moves it to 101 s; one tick each. -/
theorem deadline_update_witness :
    ((loop_body idle_env { tv := { tv_sec := 110, tv_nsec := 7 }, wait := WaitResult.ready [] }
        (idle_state { tv_sec := 100, tv_nsec := 0 })).2.nexttimeout
        = { tv_sec := 110 + 1, tv_nsec := 7 }
      ∧ ticks (logged (idle_state { tv_sec := 100, tv_nsec := 0 })
        (loop_body idle_env { tv := { tv_sec := 110, tv_nsec := 7 }, wait := WaitResult.ready [] }
          (idle_state { tv_sec := 100, tv_nsec := 0 })).2) = 1)
    ∧ ((loop_body idle_env
        { tv := { tv_sec := 101, tv_nsec := 500000000 }, wait := WaitResult.ready [] }
        (idle_state { tv_sec := 100, tv_nsec := 0 })).2.nexttimeout
        = { tv_sec := 100 + 1, tv_nsec := 0 }
      ∧ ticks (logged (idle_state { tv_sec := 100, tv_nsec := 0 })
        (loop_body idle_env
          { tv := { tv_sec := 101, tv_nsec := 500000000 }, wait := WaitResult.ready [] }
          (idle_state { tv_sec := 100, tv_nsec := 0 })).2) = 1) :=
  ⟨(deadline_update idle_env
      { tv := { tv_sec := 110, tv_nsec := 7 }, wait := WaitResult.ready [] }
      (idle_state { tv_sec := 100, tv_nsec := 0 })).1 (by decide),
   (deadline_update idle_env
      { tv := { tv_sec := 101, tv_nsec := 500000000 }, wait := WaitResult.ready [] }
      (idle_state { tv_sec := 100, tv_nsec := 0 })).2 (by decide)⟩

/-! ## A jump of the clock -/

theorem tdiv_million (a : Int) :
    (0 ≤ a ∧ Int.tdiv a 1000000 = a / 1000000)
    ∨ (a < 0 ∧ Int.tdiv a 1000000 = -((-a) / 1000000)) := by
  rcases Int.lt_or_le a 0 with h | h
  · right
    refine ⟨h, ?_⟩
    have h1 : Int.tdiv (-(-a)) 1000000 = -(Int.tdiv (-a) 1000000) := Int.neg_tdiv (-a) 1000000
    rw [Int.neg_neg] at h1
    rw [h1, Int.tdiv_eq_ediv (by omega) (by omega)]
  · left
    exact ⟨h, Int.tdiv_eq_ediv h (by omega)⟩

/-- With the deadline one second after `now`, every clock reading from `now` to
`now + 1 s` gives a timeout in `0 .. 1000`. -/
theorem time_diff_in_window (now t : timespec) (hnow : normalised now) (ht : normalised t)
    (h1 : not_later now t) (h2 : not_later t (plus_seconds now 1)) :
    0 ≤ time_diff (plus_seconds now 1) t ∧ time_diff (plus_seconds now 1) t ≤ 1000 := by
  unfold normalised at hnow ht
  unfold not_later plus_seconds at *
  simp only at h2
  unfold time_diff to_int
  simp only
  rcases tdiv_million (now.tv_nsec - t.tv_nsec) with ⟨ha, hd⟩ | ⟨ha, hd⟩ <;> rw [hd] <;> omega

/-- While the clock readings keep the timeout in `0 .. 1000`, the loop calls no tick. -/
theorem while_loop_no_tick (env : Env) (d : timespec) (xs : List Input)
    (hxs : ∀ x ∈ xs, 0 ≤ time_diff d x.tv ∧ time_diff d x.tv ≤ 1000) (s : State)
    (hs : s.nexttimeout = d) :
    ∃ new, (while_loop env xs s).2.trace = s.trace ++ new ∧ ticks new = 0 := by
  induction xs generalizing s with
  | nil =>
    refine ⟨[], ?_, rfl⟩
    unfold while_loop
    split <;> simp
  | cons x xs ih =>
    unfold while_loop
    by_cases hq : s.quit = true
    · exact ⟨[], by simp [hq], rfl⟩
    · simp only [hq]
      obtain ⟨⟨n1, e1, t1, _⟩, hn⟩ := loop_body_facts env x s
      have hx := hxs x (List.mem_cons_self x xs)
      rw [hs] at t1
      have hc : ¬ (time_diff d x.tv < 0 ∨ time_diff d x.tv > 1000) := by omega
      rw [if_neg hc] at t1
      rw [compute_timeout_nexttimeout, hs, if_neg hc] at hn
      rcases hb : loop_body env x s with ⟨v, s1⟩
      rw [hb] at e1 hn
      simp only at e1 hn
      cases v with
      | some v => exact ⟨n1, e1, t1⟩
      | none =>
        obtain ⟨n2, e2, t2⟩ := ih (fun y hy => hxs y (List.mem_cons_of_mem _ hy)) s1 hn
        refine ⟨n1 ++ n2, ?_, ?_⟩
        · simp only [Bool.false_eq_true, if_false]
          rw [e2, e1, List.append_assoc]
        · rw [ticks_append, t1, t2]

/-- The jump of C8, with the added log entries named: if at one clock reading `x1.tv` the timeout was in `0 .. 1000` and the next
reading `x2.tv` is ten seconds later, the iteration with `x2.tv` calls the tick exactly
once and sets `nexttimeout` to `x2.tv` plus one second, and the iterations after it whose
clock readings lie between `x2.tv` and `x2.tv` plus one second call no tick; so the loop
resumed at the jump calls one tick in all. -/
theorem ten_second_jump_entries (env : Env) (s : State) (x1 x2 : Input)
    (h1 : 0 ≤ time_diff s.nexttimeout x1.tv ∧ time_diff s.nexttimeout x1.tv ≤ 1000)
    (h2 : x2.tv = plus_seconds x1.tv 10) (hn : normalised x2.tv) :
    (∃ new, (loop_body env x2 (loop_body env x1 s).2).2.trace
        = (loop_body env x1 s).2.trace ++ new ∧ ticks new = 1)
    ∧ (loop_body env x2 (loop_body env x1 s).2).2.nexttimeout = plus_seconds x2.tv 1
    ∧ (∀ xs : List Input,
        (∀ x ∈ xs, normalised x.tv ∧ not_later x2.tv x.tv
          ∧ not_later x.tv (plus_seconds x2.tv 1)) →
        (∃ new, (while_loop env xs (loop_body env x2 (loop_body env x1 s).2).2).2.trace
            = (loop_body env x2 (loop_body env x1 s).2).2.trace ++ new ∧ ticks new = 0)
        ∧ ((loop_body env x1 s).2.quit = false →
            ∃ new, (while_loop env (x2 :: xs) (loop_body env x1 s).2).2.trace
              = (loop_body env x1 s).2.trace ++ new ∧ ticks new = 1)) := by
  have hc1 : ¬ (time_diff s.nexttimeout x1.tv < 0 ∨ time_diff s.nexttimeout x1.tv > 1000) := by
    omega
  have hs1 : (loop_body env x1 s).2.nexttimeout = s.nexttimeout := by
    rw [(loop_body_facts env x1 s).2, compute_timeout_nexttimeout, if_neg hc1]
  have hd : time_diff s.nexttimeout x2.tv = time_diff s.nexttimeout x1.tv - 10000 := by
    rw [h2]
    unfold time_diff to_int plus_seconds at *
    simp only at *
    omega
  have hc2 : time_diff (loop_body env x1 s).2.nexttimeout x2.tv < -4000
      ∨ time_diff (loop_body env x1 s).2.nexttimeout x2.tv > 1000 := by
    rw [hs1, hd]
    omega
  have hc2' : time_diff (loop_body env x1 s).2.nexttimeout x2.tv < 0
      ∨ time_diff (loop_body env x1 s).2.nexttimeout x2.tv > 1000 := by
    omega
  obtain ⟨⟨n2, e2, t2, _⟩, hn2⟩ := loop_body_facts env x2 (loop_body env x1 s).2
  rw [if_pos hc2'] at t2
  rw [compute_timeout_nexttimeout, if_pos hc2', if_pos hc2] at hn2
  have hrest : ∀ xs : List Input,
      (∀ x ∈ xs, normalised x.tv ∧ not_later x2.tv x.tv
        ∧ not_later x.tv (plus_seconds x2.tv 1)) →
      ∃ new, (while_loop env xs (loop_body env x2 (loop_body env x1 s).2).2).2.trace
        = (loop_body env x2 (loop_body env x1 s).2).2.trace ++ new ∧ ticks new = 0 := by
    intro xs hxs
    exact while_loop_no_tick env (plus_seconds x2.tv 1) xs
      (fun x hx => time_diff_in_window x2.tv x.tv hn (hxs x hx).1 (hxs x hx).2.1 (hxs x hx).2.2)
      _ hn2
  refine ⟨⟨n2, e2, t2⟩, hn2, fun xs hxs => ⟨hrest xs hxs, ?_⟩⟩
  intro hq
  obtain ⟨n3, e3, t3⟩ := hrest xs hxs
  unfold while_loop
  simp only [hq, Bool.false_eq_true, if_false]
  rcases hb : loop_body env x2 (loop_body env x1 s).2 with ⟨v, s2⟩
  rw [hb] at e2 e3
  simp only at e2 e3
  cases v with
  | some v => exact ⟨n2, e2, t2⟩
  | none =>
    refine ⟨n2 ++ n3, ?_, by rw [ticks_append, t2, t3]⟩
    simp only
    rw [e3, e2, List.append_assoc]

/-- C8: if at one clock reading `x1.tv` the timeout was in `0 .. 1000` and the next
reading `x2.tv` is ten seconds later, the iteration with `x2.tv` calls the tick exactly
once and sets `nexttimeout` to `x2.tv` plus one second, and the iterations after it whose
clock readings lie between `x2.tv` and `x2.tv` plus one second call no tick; so the loop
resumed at the jump calls one tick in all, not ten. -/
theorem clock_jump (env : Env) (s : State) (x1 x2 : Input)
    (h1 : 0 ≤ time_diff s.nexttimeout x1.tv ∧ time_diff s.nexttimeout x1.tv ≤ 1000)
    (h2 : x2.tv = plus_seconds x1.tv 10) (hn : normalised x2.tv) :
    ticks (logged (loop_body env x1 s).2 (loop_body env x2 (loop_body env x1 s).2).2) = 1
    ∧ (loop_body env x2 (loop_body env x1 s).2).2.nexttimeout = plus_seconds x2.tv 1
    ∧ (∀ xs : List Input,
        (∀ x ∈ xs, normalised x.tv ∧ not_later x2.tv x.tv
          ∧ not_later x.tv (plus_seconds x2.tv 1)) →
        ticks (logged (loop_body env x2 (loop_body env x1 s).2).2
          (while_loop env xs (loop_body env x2 (loop_body env x1 s).2).2).2) = 0
        ∧ ((loop_body env x1 s).2.quit = false →
            ticks (logged (loop_body env x1 s).2
              (while_loop env (x2 :: xs) (loop_body env x1 s).2).2) = 1)) := by
  obtain ⟨⟨n2, e2, t2⟩, hd, hrest⟩ := ten_second_jump_entries env s x1 x2 h1 h2 hn
  refine ⟨by rw [logged_eq e2]; exact t2, hd, fun xs hxs => ?_⟩
  obtain ⟨⟨n3, e3, t3⟩, hall⟩ := hrest xs hxs
  refine ⟨by rw [logged_eq e3]; exact t3, fun hq => ?_⟩
  obtain ⟨n4, e4, t4⟩ := hall hq
  rw [logged_eq e4]
  exact t4

/-- Witness of C8: the deadline is at 100 s, the clock reads 99.5 s and then 109.5 s;
the iteration after the jump ticks once and moves the deadline to 110.5 s, and an
iteration reading 110 s after it does not tick. -/
theorem clock_jump_witness :
    (0 ≤ time_diff (idle_state { tv_sec := 100, tv_nsec := 0 }).nexttimeout before_jump.tv
      ∧ time_diff (idle_state { tv_sec := 100, tv_nsec := 0 }).nexttimeout before_jump.tv ≤ 1000)
    ∧ after_jump.tv = plus_seconds before_jump.tv 10
    ∧ normalised after_jump.tv
    ∧ ticks (logged (loop_body idle_env before_jump (idle_state { tv_sec := 100, tv_nsec := 0 })).2
        (loop_body idle_env after_jump
          (loop_body idle_env before_jump (idle_state { tv_sec := 100, tv_nsec := 0 })).2).2) = 1
    ∧ (loop_body idle_env after_jump
        (loop_body idle_env before_jump (idle_state { tv_sec := 100, tv_nsec := 0 })).2).2.nexttimeout
      = plus_seconds after_jump.tv 1
    ∧ ticks (logged (loop_body idle_env before_jump (idle_state { tv_sec := 100, tv_nsec := 0 })).2
        (while_loop idle_env
          [after_jump, { tv := { tv_sec := 110, tv_nsec := 0 }, wait := WaitResult.ready [] }]
          (loop_body idle_env before_jump (idle_state { tv_sec := 100, tv_nsec := 0 })).2).2) = 1 :=
  ⟨by decide, by decide, by decide,
    (clock_jump idle_env (idle_state { tv_sec := 100, tv_nsec := 0 }) before_jump after_jump
      (by decide) (by decide) (by decide)).1,
    (clock_jump idle_env (idle_state { tv_sec := 100, tv_nsec := 0 }) before_jump after_jump
      (by decide) (by decide) (by decide)).2.1,
    ((clock_jump idle_env (idle_state { tv_sec := 100, tv_nsec := 0 }) before_jump after_jump
      (by decide) (by decide) (by decide)).2.2
        [{ tv := { tv_sec := 110, tv_nsec := 0 }, wait := WaitResult.ready [] }]
        (by decide)).2 (by decide)⟩

/-! ## Leaving the loop -/

theorem has_fatal_wait_append (a b : List Event) :
    has_fatal_wait (a ++ b) = (has_fatal_wait a || has_fatal_wait b) := by
  simp [has_fatal_wait]

theorem has_fatal_wait_of_waits_nil (t : List Event) (h : waits t = []) :
    has_fatal_wait t = false := by
  induction t with
  | nil => rfl
  | cons e t ih =>
    cases e <;> simp_all [waits, has_fatal_wait, is_fatal_wait]

theorem has_fatal_wait_of_callback (t : List Event) (h : ∀ e ∈ t, is_callback e = true) :
    has_fatal_wait t = false :=
  has_fatal_wait_of_waits_nil t (waits_of_callback t h)

/-- One iteration: it returns -1 exactly when its wait fails with an `errno` other than
`EINTR`, and then no handler has been called; otherwise it does not return. -/
theorem loop_body_result (env : Env) (x : Input) (s : State) :
    ∃ new, (loop_body env x s).2.trace = s.trace ++ new
      ∧ (((loop_body env x s).1 = some (-1) ∧ has_fatal_wait new = true ∧ invoked new = [])
        ∨ ((loop_body env x s).1 = none ∧ has_fatal_wait new = false)) := by
  unfold loop_body
  obtain ⟨n1, h1, _, hw, hi⟩ := compute_timeout_trace env x.tv s
  rcases hc : compute_timeout env x.tv s with ⟨timeout, s1⟩
  rw [hc] at h1
  simp only at h1
  dsimp only
  obtain ⟨⟨r, errno, n2, h2, hcb, hfatal, hgo⟩, _⟩ :=
    wait_and_dispatch_facts env x.wait timeout s1
  refine ⟨n1 ++ [Event.epoll_wait EV_SIZE timeout r errno] ++ n2, ?_, ?_⟩
  · rw [h2, h1]
    simp
  · by_cases hf : r < 0 ∧ errno ≠ EINTR
    · left
      obtain ⟨hres, hn2⟩ := hfatal hf
      refine ⟨hres, ?_, ?_⟩
      · rw [has_fatal_wait_append, has_fatal_wait_append]
        simp [has_fatal_wait, is_fatal_wait, hf]
      · rw [hn2, invoked_append, invoked_append, hi]
        rfl
    · right
      refine ⟨hgo hf, ?_⟩
      rw [has_fatal_wait_append, has_fatal_wait_append, has_fatal_wait_of_waits_nil n1 hw,
        has_fatal_wait_of_callback n2 hcb]
      simp only [has_fatal_wait, is_fatal_wait, List.any_cons, List.any_nil, Bool.or_false,
        Bool.false_or, decide_eq_false_iff_not]
      exact hf

/-- The three ways the loop can end on a finite supply of inputs. -/
theorem while_loop_result (env : Env) (xs : List Input) (s : State) :
    ∃ new, (while_loop env xs s).2.trace = s.trace ++ new
      ∧ (((while_loop env xs s).1 = some (-1) ∧ has_fatal_wait new = true)
        ∨ ((while_loop env xs s).1 = some 0 ∧ (while_loop env xs s).2.quit = true
            ∧ has_fatal_wait new = false)
        ∨ ((while_loop env xs s).1 = none ∧ (while_loop env xs s).2.quit = false
            ∧ has_fatal_wait new = false)) := by
  induction xs generalizing s with
  | nil =>
    refine ⟨[], ?_, ?_⟩
    · unfold while_loop
      split <;> simp
    · unfold while_loop
      by_cases hq : s.quit = true
      · right; left
        simp [hq, has_fatal_wait]
      · right; right
        simp [hq, has_fatal_wait]
  | cons x xs ih =>
    unfold while_loop
    by_cases hq : s.quit = true
    · exact ⟨[], by simp [hq], Or.inr (Or.inl (by simp [hq, has_fatal_wait]))⟩
    · simp only [hq, Bool.false_eq_true, if_false]
      obtain ⟨n1, e1, hres⟩ := loop_body_result env x s
      rcases hb : loop_body env x s with ⟨v, s1⟩
      rw [hb] at e1 hres
      simp only at e1 hres
      rcases hres with ⟨hv, hf, _⟩ | ⟨hv, hf⟩
      · subst hv
        exact ⟨n1, e1, Or.inl ⟨rfl, hf⟩⟩
      · subst hv
        obtain ⟨n2, e2, hres2⟩ := ih s1
        refine ⟨n1 ++ n2, ?_, ?_⟩
        · simp only
          rw [e2, e1, List.append_assoc]
        · simp only [has_fatal_wait_append, hf, Bool.false_or]
          exact hres2

/-- C10: `epoll_main_loop` returns -1 exactly when one of its waits fails with an `errno`
other than `EINTR`, and the iteration that returns -1 calls no handler; it returns 0
exactly when the loop test finds the quit flag set (the flag is set at the end and no
wait failed that way).  The flag is read by the loop test only: when it is set on entry
the loop returns 0 with nothing logged (no tick, wait or handler); when an iteration
that does not fail ends with the flag set, the loop returns 0 from the state after the
whole iteration, all three phases included; and a slot of Phase B whose registration has
a handler gets its handler called also when the flag is already set. -/
theorem loop_termination (env : Env) (t0 : timespec) (xs : List Input) (s : State) :
    ((epoll_main_loop env t0 xs s).1 = some (-1)
      ↔ has_fatal_wait (logged s (epoll_main_loop env t0 xs s).2) = true)
    ∧ (∀ x, (loop_body env x s).1 = some (-1) ↔ has_fatal_wait (logged s (loop_body env x s).2) = true)
    ∧ (∀ x, (loop_body env x s).1 = some (-1) → invoked (logged s (loop_body env x s).2) = [])
    ∧ ((epoll_main_loop env t0 xs s).1 = some 0
      ↔ ((epoll_main_loop env t0 xs s).2.quit = true
          ∧ has_fatal_wait (logged s (epoll_main_loop env t0 xs s).2) = false))
    ∧ (s.quit = true →
        epoll_main_loop env t0 xs s = (some 0, { s with nexttimeout := plus_seconds t0 1 }))
    ∧ (s.quit = true → while_loop env xs s = (some 0, s))
    ∧ (∀ x, s.quit = false → (loop_body env x s).1 = none → (loop_body env x s).2.quit = true →
        while_loop env (x :: xs) s = (some 0, (loop_body env x s).2))
    ∧ (∀ i p fn, s.quit = true → (s.ev i).data_ptr = some p → (s.heap p).handler = some fn →
        ∃ rest, logged s (phaseB_step env i s) = Event.handler fn (s.ev i).events p :: rest) := by
  have hmain : ∀ s0 : State, s0.trace = s.trace →
      ((while_loop env xs s0).1 = some (-1)
        ↔ has_fatal_wait (logged s (while_loop env xs s0).2) = true)
      ∧ ((while_loop env xs s0).1 = some 0
        ↔ ((while_loop env xs s0).2.quit = true
            ∧ has_fatal_wait (logged s (while_loop env xs s0).2) = false)) := by
    intro s0 hs0
    obtain ⟨new, e, hres⟩ := while_loop_result env xs s0
    rw [hs0] at e
    rw [logged_eq e]
    rcases hres with ⟨h1, h2⟩ | ⟨h1, h2, h3⟩ | ⟨h1, h2, h3⟩
    · simp [h1, h2]
    · simp [h1, h2, h3]
    · simp [h1, h2, h3]
  have hbody : ∀ x, ((loop_body env x s).1 = some (-1)
        ↔ has_fatal_wait (logged s (loop_body env x s).2) = true)
      ∧ ((loop_body env x s).1 = some (-1) → invoked (logged s (loop_body env x s).2) = []) := by
    intro x
    obtain ⟨new, e, hres⟩ := loop_body_result env x s
    rw [logged_eq e]
    rcases hres with ⟨h1, h2, h3⟩ | ⟨h1, h2⟩
    · simp [h1, h2, h3]
    · simp [h1, h2]
  have hquit : ∀ s0 : State, s0.quit = true → while_loop env xs s0 = (some 0, s0) := by
    intro s0 hq
    cases xs <;> simp [while_loop, hq]
  unfold epoll_main_loop plus_seconds
  refine ⟨(hmain { s with nexttimeout := { tv_sec := t0.tv_sec + 1, tv_nsec := t0.tv_nsec } }
      rfl).1, fun x => (hbody x).1, fun x => (hbody x).2,
    (hmain { s with nexttimeout := { tv_sec := t0.tv_sec + 1, tv_nsec := t0.tv_nsec } } rfl).2,
    fun hq => hquit _ hq, hquit s, ?_, ?_⟩
  · intro x hq hv hq1
    rcases hb : loop_body env x s with ⟨v, s1⟩
    rw [hb] at hv hq1
    simp only at hv hq1
    subst hv
    cases xs <;> simp [while_loop, hq, hb, hq1]
  · intro i p fn _ hp hf
    rw [phaseB_step_call env i s p fn hp hf]
    obtain ⟨new, e, _⟩ := run_calls_grows (env.handler fn (s.ev i).events p
      { s with trace := s.trace ++ [Event.handler fn (s.ev i).events p] })
      { s with trace := s.trace ++ [Event.handler fn (s.ev i).events p] }
    refine ⟨new, logged_eq ?_⟩
    rw [e]
    simp

/-- Witness of C10: registrations 1 and 2 are both ready and the handler of 1 sets the
quit flag.  The handler of 2 is still called, Phase C clears both back-references, and
the loop then returns 0. -/
theorem loop_termination_witness :
    (epoll_main_loop quitting_env { tv_sec := 99, tv_nsec := 0 }
        [{ tv := { tv_sec := 99, tv_nsec := 500000000 }, wait := WaitResult.ready both_ready }]
        (two_registrations { tv_sec := 0, tv_nsec := 0 })).1 = some 0
    ∧ invoked (logged (two_registrations { tv_sec := 0, tv_nsec := 0 })
        (epoll_main_loop quitting_env { tv_sec := 99, tv_nsec := 0 }
          [{ tv := { tv_sec := 99, tv_nsec := 500000000 }, wait := WaitResult.ready both_ready }]
          (two_registrations { tv_sec := 0, tv_nsec := 0 })).2) = [1, 2]
    ∧ ((epoll_main_loop quitting_env { tv_sec := 99, tv_nsec := 0 }
          [{ tv := { tv_sec := 99, tv_nsec := 500000000 }, wait := WaitResult.ready both_ready }]
          (two_registrations { tv_sec := 0, tv_nsec := 0 })).2.heap 1).ref_ev = none
    ∧ ((epoll_main_loop quitting_env { tv_sec := 99, tv_nsec := 0 }
          [{ tv := { tv_sec := 99, tv_nsec := 500000000 }, wait := WaitResult.ready both_ready }]
          (two_registrations { tv_sec := 0, tv_nsec := 0 })).2.heap 2).ref_ev = none :=
  ⟨(loop_termination quitting_env { tv_sec := 99, tv_nsec := 0 }
      [{ tv := { tv_sec := 99, tv_nsec := 500000000 }, wait := WaitResult.ready both_ready }]
      (two_registrations { tv_sec := 0, tv_nsec := 0 })).2.2.2.1.mpr ⟨by decide, by decide⟩,
    by decide, by decide, by decide⟩

/-! ## An interrupted wait -/

/-- C9: a wait that fails with `EINTR` makes the rest of the iteration do nothing: the
loop does not return, the memory is the one before the wait with only the `epoll_wait`
call added to the log (no handler called; registrations, slots, `nexttimeout` and the
quit flag as they were), which is what a wait with zero ready events leaves; and the
loop goes on with its test and the next clock reading. -/
theorem interrupted_wait (env : Env) (tv : timespec) (timeout : Int) (xs : List Input)
    (s : State) :
    wait_and_dispatch env (WaitResult.error EINTR) timeout s
      = (none, { s with trace := s.trace ++ [Event.epoll_wait EV_SIZE timeout (-1) EINTR] })
    ∧ invoked (logged s (wait_and_dispatch env (WaitResult.error EINTR) timeout s).2) = []
    ∧ (wait_and_dispatch env (WaitResult.ready []) timeout s).1
        = (wait_and_dispatch env (WaitResult.error EINTR) timeout s).1
    ∧ (wait_and_dispatch env (WaitResult.ready []) timeout s).2.heap
        = (wait_and_dispatch env (WaitResult.error EINTR) timeout s).2.heap
    ∧ (wait_and_dispatch env (WaitResult.ready []) timeout s).2.ev
        = (wait_and_dispatch env (WaitResult.error EINTR) timeout s).2.ev
    ∧ (loop_body env { tv := tv, wait := WaitResult.error EINTR } s).1 = none
    ∧ (loop_body env { tv := tv, wait := WaitResult.error EINTR } s).2.heap
        = (compute_timeout env tv s).2.heap
    ∧ (loop_body env { tv := tv, wait := WaitResult.error EINTR } s).2.ev
        = (compute_timeout env tv s).2.ev
    ∧ (loop_body env { tv := tv, wait := WaitResult.error EINTR } s).2.nexttimeout
        = (compute_timeout env tv s).2.nexttimeout
    ∧ (loop_body env { tv := tv, wait := WaitResult.error EINTR } s).2.quit
        = (compute_timeout env tv s).2.quit
    ∧ while_loop env ({ tv := tv, wait := WaitResult.error EINTR } :: xs) { s with quit := false }
        = while_loop env xs
            (loop_body env { tv := tv, wait := WaitResult.error EINTR } { s with quit := false }).2 := by
  have h1 : ∀ (t : Int) (s0 : State), wait_and_dispatch env (WaitResult.error EINTR) t s0
      = (none, { s0 with trace := s0.trace ++ [Event.epoll_wait EV_SIZE t (-1) EINTR] }) := by
    intro t s0
    simp [wait_and_dispatch, epoll_wait, dispatch, phaseA, phaseB, phaseC, indices, for_loop]
  have h2 : wait_and_dispatch env (WaitResult.ready []) timeout s
      = (none, { s with trace := s.trace ++ [Event.epoll_wait EV_SIZE timeout 0 0] }) := by
    simp [wait_and_dispatch, epoll_wait, dispatch, phaseA, phaseB, phaseC, indices, for_loop]
  have h3 : ∀ s0 : State, loop_body env { tv := tv, wait := WaitResult.error EINTR } s0
      = (none, { (compute_timeout env tv s0).2 with
          trace := (compute_timeout env tv s0).2.trace
            ++ [Event.epoll_wait EV_SIZE (compute_timeout env tv s0).1 (-1) EINTR] }) := by
    intro s0
    show wait_and_dispatch env (WaitResult.error EINTR) (compute_timeout env tv s0).1
      (compute_timeout env tv s0).2 = _
    rw [h1]
  refine ⟨h1 timeout s, ?_, ?_, ?_, ?_, ?_, ?_, ?_, ?_, ?_, ?_⟩
  · rw [h1]
    simp [logged, invoked]
  · rw [h1, h2]
  · rw [h1, h2]
  · rw [h1, h2]
  · rw [h3]
  · rw [h3]
  · rw [h3]
  · rw [h3]
  · rw [h3]
  · rw [h3]
    simp [while_loop, h3]

/-! ## Back-references during a dispatch cycle -/

theorem mem_indices (r : Int) (i : Nat) : i ∈ indices r ↔ (i : Int) < r := by
  unfold indices
  rw [List.mem_range]
  omega

theorem back_refs_within_indices (r : Int) (s : State) :
    back_refs_within (indices r) s ↔ back_refs_consistent r s := by
  unfold back_refs_within back_refs_consistent
  constructor
  · intro h p i hp
    exact ⟨(mem_indices r i).mp (h p i hp).1, (h p i hp).2⟩
  · intro h p i hp
    exact ⟨(mem_indices r i).mpr (h p i hp).1, (h p i hp).2⟩

theorem back_refs_within_of_empty (is : List Nat) (s : State) (h : back_refs_empty s) :
    back_refs_within is s := by
  intro p i hp
  rw [h p] at hp
  cases hp

theorem back_refs_empty_of_within_nil (s : State) (h : back_refs_within [] s) :
    back_refs_empty s := by
  intro p
  cases hp : (s.heap p).ref_ev with
  | none => rfl
  | some i => exact absurd (h p i hp).1 (List.not_mem_nil i)

theorem add_epoll_within (is : List Nat) (r : Int) (h : Nat) (s : State)
    (hs : back_refs_within is s) : back_refs_within is (add_epoll r h s).2 := by
  have hh : (add_epoll r h s).2.heap = update s.heap h { s.heap h with ref_ev := none } := by
    unfold add_epoll
    split <;> rfl
  have he : (add_epoll r h s).2.ev = s.ev := by
    unfold add_epoll
    split <;> rfl
  intro p i hp
  rw [hh] at hp
  rw [he]
  by_cases hph : p = h
  · subst hph
    rw [update_same] at hp
    cases hp
  · rw [update_other _ _ _ _ hph] at hp
    exact hs p i hp

theorem remove_epoll_within (is : List Nat) (r : Int) (h : Nat) (s : State)
    (hs : back_refs_within is s) : back_refs_within is (remove_epoll r h s).2 := by
  unfold remove_epoll
  by_cases hr : r < 0
  · simp only [if_pos hr]
    exact hs
  · simp only [if_neg hr]
    cases hi : (s.heap h).ref_ev with
    | none => exact hs
    | some j =>
      by_cases hj : (s.ev j).data_ptr = some h
      · simp only [if_pos hj]
        intro p i hp
        simp only at hp ⊢
        by_cases hph : p = h
        · subst hph
          rw [update_same] at hp
          cases hp
        · rw [update_other _ _ _ _ hph] at hp
          obtain ⟨h1, h2⟩ := hs p i hp
          refine ⟨h1, ?_⟩
          by_cases hij : i = j
          · subst hij
            rw [hj] at h2
            exact absurd (Option.some.inj h2).symm hph
          · rw [update_other _ _ _ _ hij]
            exact h2
      · simp only [if_neg hj]
        exact hs

theorem run_call_within (is : List Nat) (c : Call) (s : State)
    (hs : back_refs_within is s) : back_refs_within is (run_call c s) := by
  cases c with
  | add_epoll h r => exact add_epoll_within is r h s hs
  | remove_epoll h r => exact remove_epoll_within is r h s hs
  | set_quit => exact hs

theorem run_calls_within (is : List Nat) (cs : List Call) (s : State)
    (hs : back_refs_within is s) :
    back_refs_within is (run_calls cs s)
    ∧ ∀ s' ∈ run_calls_points cs s, back_refs_within is s' := by
  induction cs generalizing s with
  | nil => exact ⟨hs, by simp [run_calls_points]⟩
  | cons c cs ih =>
    obtain ⟨h1, h2⟩ := ih (run_call c s) (run_call_within is c s hs)
    refine ⟨h1, ?_⟩
    intro s' hs'
    simp only [run_calls_points, List.mem_cons] at hs'
    rcases hs' with rfl | hs'
    · exact run_call_within is c s hs
    · exact h2 s' hs'

theorem phaseA_step_within (is : List Nat) (j : Nat) (hj : j ∈ is) (s : State)
    (hs : back_refs_within is s) : back_refs_within is (phaseA_step j s) := by
  unfold phaseA_step
  cases hq : (s.ev j).data_ptr with
  | none => exact hs
  | some q =>
    intro p i hp
    simp only at hp ⊢
    by_cases hpq : p = q
    · subst hpq
      rw [update_same] at hp
      cases hp
      exact ⟨hj, hq⟩
    · rw [update_other _ _ _ _ hpq] at hp
      exact hs p i hp

theorem phaseC_step_within (j : Nat) (is : List Nat) (s : State)
    (hs : back_refs_within (j :: is) s) : back_refs_within is (phaseC_step j s) := by
  unfold phaseC_step
  cases hq : (s.ev j).data_ptr with
  | none =>
    intro p i hp
    obtain ⟨h1, h2⟩ := hs p i hp
    rcases List.mem_cons.mp h1 with rfl | h1
    · rw [hq] at h2
      cases h2
    · exact ⟨h1, h2⟩
  | some q =>
    intro p i hp
    simp only at hp ⊢
    by_cases hpq : p = q
    · subst hpq
      rw [update_same] at hp
      cases hp
    · rw [update_other _ _ _ _ hpq] at hp
      obtain ⟨h1, h2⟩ := hs p i hp
      rcases List.mem_cons.mp h1 with rfl | h1
      · rw [hq] at h2
        exact absurd (Option.some.inj h2).symm hpq
      · exact ⟨h1, h2⟩

theorem back_refs_within_mono {is js : List Nat} (h : ∀ i ∈ is, i ∈ js) (s : State)
    (hs : back_refs_within is s) : back_refs_within js s :=
  fun p i hp => ⟨h i (hs p i hp).1, (hs p i hp).2⟩

theorem phaseB_step_within (env : Env) (is : List Nat) (j : Nat) (s : State)
    (hs : back_refs_within is s) :
    back_refs_within is (phaseB_step env j s)
    ∧ ∀ s' ∈ phaseB_step_points env j s, back_refs_within is s' := by
  cases hp : (s.ev j).data_ptr with
  | none =>
    rw [phaseB_step_none env j s hp]
    simp only [phaseB_step_points, hp]
    exact ⟨hs, by simpa using hs⟩
  | some p =>
    cases hf : (s.heap p).handler with
    | none =>
      rw [phaseB_step_no_handler env j s p hp hf]
      simp only [phaseB_step_points, hp, hf]
      exact ⟨hs, by simpa using hs⟩
    | some fn =>
      rw [phaseB_step_call env j s p fn hp hf]
      simp only [phaseB_step_points, hp, hf]
      have hs1 : back_refs_within is
          { s with trace := s.trace ++ [Event.handler fn (s.ev j).events p] } := hs
      obtain ⟨h1, h2⟩ := run_calls_within is (env.handler fn (s.ev j).events p
        { s with trace := s.trace ++ [Event.handler fn (s.ev j).events p] }) _ hs1
      refine ⟨h1, ?_⟩
      intro s' hs'
      rcases List.mem_cons.mp hs' with rfl | hs'
      · exact hs1
      · exact h2 s' hs'

/-- A property kept by every step of a loop holds at every point of the loop and at its
end. -/
theorem for_loop_points_keep (I : State → Prop) (points : Nat → State → List State)
    (body : Nat → State → State) (is : List Nat)
    (hstep : ∀ i ∈ is, ∀ s, I s → I (body i s) ∧ ∀ s' ∈ points i s, I s')
    (s : State) (hs : I s) :
    I (for_loop body is s) ∧ ∀ s' ∈ for_loop_points points body is s, I s' := by
  induction is generalizing s with
  | nil => exact ⟨hs, by simp [for_loop_points]⟩
  | cons i is ih =>
    obtain ⟨h1, h2⟩ := hstep i (List.mem_cons_self i is) s hs
    obtain ⟨h3, h4⟩ := ih (fun j hj => hstep j (List.mem_cons_of_mem _ hj)) (body i s) h1
    refine ⟨h3, ?_⟩
    intro s' hs'
    simp only [for_loop_points, List.mem_append] at hs'
    rcases hs' with hs' | hs'
    · exact h2 s' hs'
    · exact h4 s' hs'

/-- The third loop empties every back-reference that points into the slots it visits. -/
theorem phaseC_clears (is : List Nat) (s : State) (hs : back_refs_within is s) :
    back_refs_empty (for_loop phaseC_step is s) := by
  induction is generalizing s with
  | nil => exact back_refs_empty_of_within_nil s hs
  | cons j is ih => exact ih _ (phaseC_step_within j is s hs)

/-- Consistency at every point of the three loops, and empty back-references at the
end, from any state in which the back-references are consistent. -/
theorem dispatch_within (env : Env) (r : Int) (s : State)
    (hs : back_refs_within (indices r) s) :
    (∀ s' ∈ dispatch_points env r s, back_refs_within (indices r) s')
    ∧ back_refs_empty (dispatch env r s) := by
  obtain ⟨hA, hAp⟩ := for_loop_points_keep (back_refs_within (indices r))
    (fun i s => [phaseA_step i s]) phaseA_step (indices r)
    (fun i hi s hs => ⟨phaseA_step_within _ i hi s hs,
      by simpa using phaseA_step_within _ i hi s hs⟩) s hs
  obtain ⟨hB, hBp⟩ := for_loop_points_keep (back_refs_within (indices r))
    (phaseB_step_points env) (phaseB_step env) (indices r)
    (fun i _ s hs => phaseB_step_within env _ i s hs) (phaseA r s) hA
  obtain ⟨_, hCp⟩ := for_loop_points_keep (back_refs_within (indices r))
    (fun i s => [phaseC_step i s]) phaseC_step (indices r)
    (fun i _ s hs =>
      have hstep : back_refs_within (indices r) (phaseC_step i s) :=
        phaseC_step_within i (indices r) s
          (back_refs_within_mono (fun j hj => List.mem_cons_of_mem _ hj) s hs)
      ⟨hstep, by simpa using hstep⟩)
    (phaseB env r (phaseA r s)) hB
  refine ⟨?_, phaseC_clears (indices r) _ hB⟩
  intro s' hs'
  simp only [dispatch_points, List.mem_cons, List.mem_append] at hs'
  rcases hs' with rfl | (hs' | hs') | hs'
  · exact hs
  · exact hAp s' hs'
  · exact hBp s' hs'
  · exact hCp s' hs'

theorem run_calls_mem_points (cs : List Call) (s : State) :
    run_calls cs s ∈ s :: run_calls_points cs s := by
  induction cs generalizing s with
  | nil => simp [run_calls]
  | cons c cs ih =>
    simp only [run_calls, run_calls_points]
    exact List.mem_cons_of_mem _ (ih (run_call c s))

theorem phaseB_step_mem_points (env : Env) (i : Nat) (s : State) :
    phaseB_step env i s ∈ phaseB_step_points env i s := by
  cases hp : (s.ev i).data_ptr with
  | none =>
    rw [phaseB_step_none env i s hp]
    simp [phaseB_step_points, hp]
  | some p =>
    cases hf : (s.heap p).handler with
    | none =>
      rw [phaseB_step_no_handler env i s p hp hf]
      simp [phaseB_step_points, hp, hf]
    | some fn =>
      rw [phaseB_step_call env i s p fn hp hf]
      simp only [phaseB_step_points, hp, hf]
      exact run_calls_mem_points _ _

theorem for_loop_mem_points (points : Nat → State → List State) (body : Nat → State → State)
    (hb : ∀ i s, body i s ∈ points i s) (is : List Nat) (s : State) :
    for_loop body is s ∈ s :: for_loop_points points body is s := by
  induction is generalizing s with
  | nil => simp [for_loop]
  | cons i is ih =>
    simp only [for_loop, for_loop_points]
    refine List.mem_cons_of_mem _ (List.mem_append.mpr ?_)
    rcases List.mem_cons.mp (ih (body i s)) with h | h
    · left
      rw [h]
      exact hb i s
    · right
      exact h

/-- The points of a dispatch cycle are points of the run of `dispatch`: the states
after each of the three loops are among them. -/
theorem dispatch_points_reach (env : Env) (r : Int) (s : State) :
    phaseA r s ∈ dispatch_points env r s
    ∧ phaseB env r (phaseA r s) ∈ dispatch_points env r s
    ∧ dispatch env r s ∈ dispatch_points env r s := by
  have hA := for_loop_mem_points (fun i s => [phaseA_step i s]) phaseA_step
    (fun i s => by simp) (indices r) s
  have hB := for_loop_mem_points (phaseB_step_points env) (phaseB_step env)
    (phaseB_step_mem_points env) (indices r) (phaseA r s)
  have hC := for_loop_mem_points (fun i s => [phaseC_step i s]) phaseC_step
    (fun i s => by simp) (indices r) (phaseB env r (phaseA r s))
  have hA' : phaseA r s ∈ dispatch_points env r s := by
    unfold dispatch_points
    rcases List.mem_cons.mp hA with h | h
    · rw [show phaseA r s = s from h]
      exact List.mem_cons_self _ _
    · exact List.mem_cons_of_mem _ (List.mem_append.mpr (Or.inl (List.mem_append.mpr (Or.inl h))))
  have hB' : phaseB env r (phaseA r s) ∈ dispatch_points env r s := by
    rcases List.mem_cons.mp hB with h | h
    · rw [show phaseB env r (phaseA r s) = phaseA r s from h]
      exact hA'
    · unfold dispatch_points
      exact List.mem_cons_of_mem _ (List.mem_append.mpr (Or.inl (List.mem_append.mpr (Or.inr h))))
  refine ⟨hA', hB', ?_⟩
  rcases List.mem_cons.mp hC with h | h
  · rw [show dispatch env r s = phaseB env r (phaseA r s) from h]
    exact hB'
  · unfold dispatch_points
    exact List.mem_cons_of_mem _ (List.mem_append.mpr (Or.inr h))

theorem run_calls_empty (cs : List Call) (s : State) (hs : back_refs_empty s) :
    back_refs_empty (run_calls cs s) :=
  back_refs_empty_of_within_nil _
    (run_calls_within [] cs s (back_refs_within_of_empty [] s hs)).1

theorem compute_timeout_empty (env : Env) (tv : timespec) (s : State)
    (hs : back_refs_empty s) : back_refs_empty (compute_timeout env tv s).2 := by
  have h1 : back_refs_empty (run_timeouts env s) := by
    have := run_calls_empty
      (env.bridge_one_second { s with trace := s.trace ++ [Event.bridge_one_second] })
      { s with trace := s.trace ++ [Event.bridge_one_second] } hs
    exact this
  unfold compute_timeout
  by_cases hc : time_diff s.nexttimeout tv < 0 ∨ time_diff s.nexttimeout tv > 1000
  · simp only [if_pos hc]
    split
    · exact h1
    · exact h1
  · simp only [if_neg hc]
    exact hs

theorem epoll_wait_heap (w : WaitResult) (n : Nat) (timeout : Int) (s : State) :
    (epoll_wait w n timeout s).2.2.heap = s.heap := by
  unfold epoll_wait
  cases w <;> rfl

theorem wait_of_iteration_empty (env : Env) (x : Input) (s : State)
    (hs : back_refs_empty s) : back_refs_empty (wait_of_iteration env x s).2.2 := by
  intro p
  unfold wait_of_iteration
  rw [epoll_wait_heap]
  exact compute_timeout_empty env x.tv s hs p

/-- One iteration is the timeout computation, the wait, and then either the return of
-1 or the three loops of `dispatch`. -/
theorem loop_body_eq (env : Env) (x : Input) (s : State) :
    loop_body env x s
      = if (wait_of_iteration env x s).1 < 0 ∧ (wait_of_iteration env x s).2.1 ≠ EINTR then
          (some (-1), (wait_of_iteration env x s).2.2)
        else
          (none, dispatch env (wait_of_iteration env x s).1 (wait_of_iteration env x s).2.2) := by
  rfl

theorem loop_body_empty (env : Env) (x : Input) (s : State) (hs : back_refs_empty s) :
    back_refs_empty (loop_body env x s).2 := by
  rw [loop_body_eq]
  split
  · exact wait_of_iteration_empty env x s hs
  · exact (dispatch_within env _ _
      (back_refs_within_of_empty _ _ (wait_of_iteration_empty env x s hs))).2

theorem while_loop_empty (env : Env) (xs : List Input) (s : State) (hs : back_refs_empty s) :
    back_refs_empty (while_loop env xs s).2 := by
  induction xs generalizing s with
  | nil =>
    unfold while_loop
    split <;> exact hs
  | cons x xs ih =>
    unfold while_loop
    by_cases hq : s.quit = true
    · simp only [hq, if_true]
      exact hs
    · simp only [hq, Bool.false_eq_true, if_false]
      have h1 := loop_body_empty env x s hs
      rcases hb : loop_body env x s with ⟨v, s1⟩
      rw [hb] at h1
      cases v with
      | some v => exact h1
      | none => exact ih s1 h1

theorem two_registrations_empty (t : timespec) : back_refs_empty (two_registrations t) := by
  intro p
  unfold two_registrations
  simp only
  split
  · rfl
  · split <;> rfl

/-- C4: if every registration's `ref_ev` is `NULL` when an iteration of the loop begins,
then, whatever the wait returns and whatever `add_epoll` / `remove_epoll` calls the
handlers and the tick make, every `ref_ev` is still `NULL` after the timeout computation
and after the wait (so until Phase A starts), and is `NULL` again when the iteration
ends; hence also when the loop, or `epoll_main_loop`, stops. -/
theorem back_refs_empty_outside_dispatch (env : Env) (x : Input) (s : State)
    (hs : back_refs_empty s) :
    back_refs_empty (compute_timeout env x.tv s).2
    ∧ back_refs_empty (wait_of_iteration env x s).2.2
    ∧ back_refs_empty (loop_body env x s).2
    ∧ (∀ xs, back_refs_empty (while_loop env xs s).2)
    ∧ (∀ t0 xs, back_refs_empty (epoll_main_loop env t0 xs s).2) :=
  ⟨compute_timeout_empty env x.tv s hs, wait_of_iteration_empty env x s hs,
    loop_body_empty env x s hs, fun xs => while_loop_empty env xs s hs,
    fun _ xs => while_loop_empty env xs _ hs⟩

/-- Witness of C4: registrations 1 and 2 are both ready and the handler of 1 removes 2. -/
theorem back_refs_empty_outside_dispatch_witness :
    back_refs_empty (two_registrations { tv_sec := 100, tv_nsec := 0 })
    ∧ back_refs_empty
        (loop_body removing_env both_ready_input
          (two_registrations { tv_sec := 100, tv_nsec := 0 })).2 :=
  ⟨two_registrations_empty _,
    (back_refs_empty_outside_dispatch removing_env both_ready_input
      (two_registrations { tv_sec := 100, tv_nsec := 0 }) (two_registrations_empty _)).2.2.1⟩

/-- C5: starting an iteration from a state in which every `ref_ev` is `NULL`, at every
point of the dispatch cycle (after each step of Phases A, B and C, at each handler call
and after each `add_epoll` / `remove_epoll` a handler performs) every registration with a
non-null `ref_ev` has it pointing at a slot `ev[i]` with `i < r`, whose `data.ptr` is that
same registration. -/
theorem back_reference_consistency (env : Env) (x : Input) (s : State)
    (hs : back_refs_empty s) :
    ∀ s' ∈ dispatch_points env (wait_of_iteration env x s).1 (wait_of_iteration env x s).2.2,
      back_refs_consistent (wait_of_iteration env x s).1 s' := by
  intro s' hs'
  rw [← back_refs_within_indices]
  exact (dispatch_within env _ _
    (back_refs_within_of_empty _ _ (wait_of_iteration_empty env x s hs))).1 s' hs'

/-- Witness of C5: registrations 1 and 2 are both ready and the handler of 1 removes 2. -/
theorem back_reference_consistency_witness :
    back_refs_empty (two_registrations { tv_sec := 100, tv_nsec := 0 })
    ∧ ∀ s' ∈ dispatch_points removing_env
        (wait_of_iteration removing_env both_ready_input
          (two_registrations { tv_sec := 100, tv_nsec := 0 })).1
        (wait_of_iteration removing_env both_ready_input
          (two_registrations { tv_sec := 100, tv_nsec := 0 })).2.2,
      back_refs_consistent
        (wait_of_iteration removing_env both_ready_input
          (two_registrations { tv_sec := 100, tv_nsec := 0 })).1 s' :=
  ⟨two_registrations_empty _,
    back_reference_consistency removing_env both_ready_input
      (two_registrations { tv_sec := 100, tv_nsec := 0 }) (two_registrations_empty _)⟩

/-! ## No dispatch after removal -/

theorem stretch_refl (is : List Nat) (s : State) : Stretch is s s := by
  refine ⟨fun _ h => h, [], by simp, by simp [invoked], ?_⟩
  intro pre post h fd r hsplit
  simp at hsplit

theorem stretch_trans {is : List Nat} {s1 s2 s3 : State} (h12 : Stretch is s1 s2)
    (h23 : Stretch is s2 s3) : Stretch is s1 s3 := by
  obtain ⟨m1, n1, e1, i1, d1⟩ := h12
  obtain ⟨m2, n2, e2, i2, d2⟩ := h23
  refine ⟨fun h ha => m2 h (m1 h ha), n1 ++ n2, by rw [e2, e1, List.append_assoc], ?_, ?_⟩
  · intro p hp
    rw [invoked_append] at hp
    rcases List.mem_append.mp hp with hp | hp
    · exact i1 p hp
    · exact fun ha => i2 p hp (m1 p ha)
  · intro pre post h fd r hsplit hr
    rcases List.append_eq_append_iff.mp hsplit with ⟨a, ha1, ha2⟩ | ⟨c, hc1, hc2⟩
    · exact d2 a post h fd r ha2 hr
    · cases c with
      | nil =>
        simp only [List.nil_append] at hc2
        exact d2 [] post h fd r (by simpa using hc2.symm) hr
      | cons d c =>
        simp only [List.cons_append, List.cons.injEq] at hc2
        obtain ⟨hd, hpost⟩ := hc2
        subst hd
        obtain ⟨habs, hinv⟩ := d1 pre c h fd r hc1 hr
        refine ⟨m2 h habs, ?_⟩
        rw [hpost, invoked_append]
        intro hmem
        rcases List.mem_append.mp hmem with hm | hm
        · exact hinv hm
        · exact i2 h hm habs

theorem split_singleton {e a : Event} {pre post : List Event}
    (h : [a] = pre ++ e :: post) : pre = [] ∧ e = a ∧ post = [] := by
  cases pre with
  | nil =>
    simp only [List.nil_append, List.cons.injEq] at h
    exact ⟨rfl, h.1.symm, h.2.symm⟩
  | cons b pre =>
    simp only [List.cons_append, List.cons.injEq] at h
    exact absurd h.2 (by simp)

theorem add_epoll_stretch (is : List Nat) (r : Int) (h : Nat) (s : State)
    (hJ : slots_point_back is s) (habs : absent is h s) :
    slots_point_back is (add_epoll r h s).2 ∧ Stretch is s (add_epoll r h s).2 := by
  have hh : (add_epoll r h s).2.heap = update s.heap h { s.heap h with ref_ev := none } := by
    unfold add_epoll
    split <;> rfl
  have he : (add_epoll r h s).2.ev = s.ev := by
    unfold add_epoll
    split <;> rfl
  have ht : (add_epoll r h s).2.trace
      = s.trace ++ [Event.epoll_ctl_add (s.heap h).fd EPOLLIN h r] := by
    unfold add_epoll
    split <;> simp [update]
  refine ⟨?_, ?_, [Event.epoll_ctl_add (s.heap h).fd EPOLLIN h r], ht, by simp [invoked], ?_⟩
  · intro i hi p hp
    rw [he] at hp
    rw [hh]
    have hph : p ≠ h := fun hph => habs i hi (hph ▸ hp)
    rw [update_other _ _ _ _ hph]
    exact hJ i hi p hp
  · intro h' ha i hi
    rw [he]
    exact ha i hi
  · intro pre post h' fd k hsplit
    obtain ⟨_, h2, _⟩ := split_singleton hsplit
    cases h2

theorem remove_epoll_stretch (is : List Nat) (r : Int) (h : Nat) (s : State)
    (hJ : slots_point_back is s) :
    slots_point_back is (remove_epoll r h s).2 ∧ Stretch is s (remove_epoll r h s).2 := by
  have key : (remove_epoll r h s).2.trace = s.trace ++ [Event.epoll_ctl_del h (s.heap h).fd r]
      ∧ slots_point_back is (remove_epoll r h s).2
      ∧ (∀ h', absent is h' s → absent is h' (remove_epoll r h s).2)
      ∧ (0 ≤ r → absent is h (remove_epoll r h s).2) := by
    unfold remove_epoll
    by_cases hr : r < 0
    · simp only [if_pos hr]
      exact ⟨by trivial, hJ, fun _ ha => ha, fun h0 => absurd hr (by omega)⟩
    · simp only [if_neg hr]
      cases hi : (s.heap h).ref_ev with
      | none =>
        refine ⟨by trivial, hJ, fun _ ha => ha, fun _ i hmem hp => ?_⟩
        have := hJ i hmem h hp
        rw [hi] at this
        cases this
      | some j =>
        by_cases hj : (s.ev j).data_ptr = some h
        · simp only [if_pos hj]
          refine ⟨by trivial, ?_, ?_, ?_⟩
          · intro i hmem p hp
            simp only at hp ⊢
            have hij : i ≠ j := by
              intro hij
              subst hij
              rw [update_same] at hp
              cases hp
            rw [update_other _ _ _ _ hij] at hp
            have hp' := hJ i hmem p hp
            have hph : p ≠ h := by
              intro hph
              subst hph
              rw [hi] at hp'
              exact hij (Option.some.inj hp').symm
            rw [update_other _ _ _ _ hph]
            exact hp'
          · intro h' ha i hmem hp
            simp only at hp
            by_cases hij : i = j
            · subst hij
              rw [update_same] at hp
              cases hp
            · rw [update_other _ _ _ _ hij] at hp
              exact ha i hmem hp
          · intro _ i hmem hp
            simp only at hp
            by_cases hij : i = j
            · subst hij
              rw [update_same] at hp
              cases hp
            · rw [update_other _ _ _ _ hij] at hp
              have := hJ i hmem h hp
              rw [hi] at this
              exact hij (Option.some.inj this).symm
        · simp only [if_neg hj]
          refine ⟨by trivial, hJ, fun _ ha => ha, fun _ i hmem hp => ?_⟩
          have := hJ i hmem h hp
          rw [hi] at this
          cases this
          exact hj hp
  obtain ⟨ht, hJ', hmono, habs⟩ := key
  refine ⟨hJ', hmono, [Event.epoll_ctl_del h (s.heap h).fd r], ht, by simp [invoked], ?_⟩
  intro pre post h' fd k hsplit hk
  obtain ⟨_, h2, h3⟩ := split_singleton hsplit
  cases h2
  subst h3
  exact ⟨habs hk, by simp [invoked]⟩

theorem run_call_stretch (is : List Nat) (c : Call) (s : State)
    (hJ : slots_point_back is s) (hadd : ∀ h k, c = Call.add_epoll h k → absent is h s) :
    slots_point_back is (run_call c s) ∧ Stretch is s (run_call c s) := by
  cases c with
  | add_epoll h r => exact add_epoll_stretch is r h s hJ (hadd h r rfl)
  | remove_epoll h r => exact remove_epoll_stretch is r h s hJ
  | set_quit =>
    refine ⟨hJ, fun _ ha => ha, [], by simp [run_call], by simp [invoked], ?_⟩
    intro pre post h fd r hsplit
    simp at hsplit

theorem run_calls_stretch (is : List Nat) (cs : List Call) (s : State)
    (hJ : slots_point_back is s) (hadd : adds_only_absent is cs s = true) :
    slots_point_back is (run_calls cs s) ∧ Stretch is s (run_calls cs s) := by
  induction cs generalizing s with
  | nil => exact ⟨hJ, stretch_refl is s⟩
  | cons c cs ih =>
    have hc : (∀ h k, c = Call.add_epoll h k → absent is h s)
        ∧ adds_only_absent is cs (run_call c s) = true := by
      cases c with
      | add_epoll h r =>
        simp only [adds_only_absent, Bool.and_eq_true, decide_eq_true_eq] at hadd
        refine ⟨fun h' k' heq => ?_, hadd.2⟩
        cases heq
        exact hadd.1
      | remove_epoll h r =>
        simp only [adds_only_absent] at hadd
        exact ⟨fun _ _ heq => Call.noConfusion heq, hadd⟩
      | set_quit =>
        simp only [adds_only_absent] at hadd
        exact ⟨fun _ _ heq => Call.noConfusion heq, hadd⟩
    obtain ⟨hJ1, hS1⟩ := run_call_stretch is c s hJ hc.1
    obtain ⟨hJ2, hS2⟩ := ih (run_call c s) hJ1 hc.2
    exact ⟨hJ2, stretch_trans hS1 hS2⟩

theorem phaseB_step_stretch (env : Env) (is : List Nat) (i : Nat) (hi : i ∈ is) (s : State)
    (hJ : slots_point_back is s) (hadd : step_adds_only_absent env is i s = true) :
    slots_point_back is (phaseB_step env i s) ∧ Stretch is s (phaseB_step env i s) := by
  cases hp : (s.ev i).data_ptr with
  | none =>
    rw [phaseB_step_none env i s hp]
    exact ⟨hJ, stretch_refl is s⟩
  | some p =>
    cases hf : (s.heap p).handler with
    | none =>
      rw [phaseB_step_no_handler env i s p hp hf]
      exact ⟨hJ, stretch_refl is s⟩
    | some fn =>
      rw [phaseB_step_call env i s p fn hp hf]
      simp only [step_adds_only_absent, hp, hf] at hadd
      have hcall : Stretch is s
          { s with trace := s.trace ++ [Event.handler fn (s.ev i).events p] } := by
        refine ⟨fun _ ha => ha, [Event.handler fn (s.ev i).events p], rfl, ?_, ?_⟩
        · intro q hq ha
          simp only [invoked, List.mem_singleton] at hq
          subst hq
          exact ha i hi hp
        · intro pre post h fd r hsplit
          obtain ⟨_, h2, _⟩ := split_singleton hsplit
          cases h2
      obtain ⟨hJ2, hS2⟩ := run_calls_stretch is (env.handler fn (s.ev i).events p
        { s with trace := s.trace ++ [Event.handler fn (s.ev i).events p] })
        { s with trace := s.trace ++ [Event.handler fn (s.ev i).events p] } hJ hadd
      exact ⟨hJ2, stretch_trans hcall hS2⟩

theorem phaseB_stretch (env : Env) (is js : List Nat) (hjs : ∀ j ∈ js, j ∈ is) (s : State)
    (hJ : slots_point_back is s) (hadd : loop_adds_only_absent env is js s = true) :
    slots_point_back is (for_loop (phaseB_step env) js s)
    ∧ Stretch is s (for_loop (phaseB_step env) js s) := by
  induction js generalizing s with
  | nil => exact ⟨hJ, stretch_refl is s⟩
  | cons j js ih =>
    simp only [loop_adds_only_absent, Bool.and_eq_true] at hadd
    obtain ⟨hJ1, hS1⟩ := phaseB_step_stretch env is j (hjs j (List.mem_cons_self _ _)) s hJ
      hadd.1
    obtain ⟨hJ2, hS2⟩ := ih (fun i hi => hjs i (List.mem_cons_of_mem _ hi)) (phaseB_step env j s)
      hJ1 hadd.2
    exact ⟨hJ2, stretch_trans hS1 hS2⟩

theorem phaseA_step_ev (i : Nat) (s : State) : (phaseA_step i s).ev = s.ev := by
  unfold phaseA_step
  split <;> rfl

theorem phaseC_step_ev (i : Nat) (s : State) : (phaseC_step i s).ev = s.ev := by
  unfold phaseC_step
  split <;> rfl

/-- After the first loop over `js`, a registration held by one of the slots `js` points
back at one of the slots that hold it, and any other registration is untouched. -/
theorem phaseA_sets (js : List Nat) (s : State) (p : Nat) :
    (∃ i ∈ js, (s.ev i).data_ptr = some p
        ∧ ((for_loop phaseA_step js s).heap p).ref_ev = some i)
    ∨ ((∀ i ∈ js, (s.ev i).data_ptr ≠ some p)
        ∧ ((for_loop phaseA_step js s).heap p).ref_ev = (s.heap p).ref_ev) := by
  induction js generalizing s with
  | nil => exact Or.inr ⟨by simp, rfl⟩
  | cons j js ih =>
    simp only [for_loop]
    have hev := phaseA_step_ev j s
    rcases ih (phaseA_step j s) with ⟨i, hi, hp, hr⟩ | ⟨hno, hr⟩
    · rw [hev] at hp
      exact Or.inl ⟨i, List.mem_cons_of_mem _ hi, hp, hr⟩
    · rw [hev] at hno
      by_cases hj : (s.ev j).data_ptr = some p
      · left
        refine ⟨j, List.mem_cons_self _ _, hj, ?_⟩
        rw [hr]
        simp [phaseA_step, hj, update]
      · right
        refine ⟨fun i hi => ?_, ?_⟩
        · rcases List.mem_cons.mp hi with rfl | hi
          · exact hj
          · exact hno i hi
        · rw [hr]
          unfold phaseA_step
          cases hq : (s.ev j).data_ptr with
          | none => rfl
          | some q =>
            have hpq : p ≠ q := fun hpq => hj (by rw [hq, hpq])
            simp only
            rw [update_other _ _ _ _ hpq]

theorem phaseA_points_back (is : List Nat) (s : State)
    (hdistinct : ∀ i ∈ is, ∀ j ∈ is, ∀ p,
      (s.ev i).data_ptr = some p → (s.ev j).data_ptr = some p → i = j) :
    slots_point_back is (for_loop phaseA_step is s) := by
  intro i hi p hp
  rw [for_loop_keeps State.ev phaseA_step_ev] at hp
  rcases phaseA_sets is s p with ⟨j, hj, hjp, hr⟩ | ⟨hno, _⟩
  · rw [hr, hdistinct i hi j hj p hp hjp]
  · exact absurd hp (hno i hi)

/-- C1, as the code has it: over the `r` slots a wait returned, if no registration is
held by two of them and the handlers call `add_epoll` only on registrations that none of
them holds at the time of the call (whatever `remove_epoll` calls they make), then once a
`remove_epoll` of a registration has succeeded, no handler is called for that
registration in the rest of the dispatch cycle. -/
theorem removed_not_dispatched (env : Env) (r : Int) (s : State)
    (hdistinct : one_slot_each r s)
    (hadd : dispatch_adds_only_absent env r s = true) :
    never_invoked_after_removal (logged s (dispatch env r s)) := by
  have hJ : slots_point_back (indices r) (for_loop phaseA_step (indices r) s) := by
    refine phaseA_points_back (indices r) s ?_
    intro i hi j hj p hip hjp
    exact hdistinct i hi j hj (by rw [hip]; simp) (by rw [hip, hjp])
  have htrA : (for_loop phaseA_step (indices r) s).trace = s.trace :=
    for_loop_keeps State.trace phaseA_step_trace _ _
  obtain ⟨_, _, new, e, _, hdel⟩ := phaseB_stretch env (indices r) (indices r)
    (fun j hj => hj) (for_loop phaseA_step (indices r) s) hJ hadd
  have htr : (dispatch env r s).trace = s.trace ++ new := by
    unfold dispatch phaseC phaseB phaseA
    rw [for_loop_keeps State.trace phaseC_step_trace, e, htrA]
  rw [logged_eq htr]
  intro pre post h fd k hsplit hk
  exact (hdel pre post h fd k hsplit hk).2

/-- Witness of C1 as the code has it: registrations 1 and 2 are both ready and the
handler of 1 removes 2 and then adds it again; the only handler called is that of 1. -/
theorem removed_not_dispatched_witness :
    one_slot_each
      (wait_of_iteration reregistering_env both_ready_input
        (two_registrations { tv_sec := 100, tv_nsec := 0 })).1
      (wait_of_iteration reregistering_env both_ready_input
        (two_registrations { tv_sec := 100, tv_nsec := 0 })).2.2
    ∧ dispatch_adds_only_absent reregistering_env
      (wait_of_iteration reregistering_env both_ready_input
        (two_registrations { tv_sec := 100, tv_nsec := 0 })).1
      (wait_of_iteration reregistering_env both_ready_input
        (two_registrations { tv_sec := 100, tv_nsec := 0 })).2.2 = true
    ∧ never_invoked_after_removal
      (logged (wait_of_iteration reregistering_env both_ready_input
          (two_registrations { tv_sec := 100, tv_nsec := 0 })).2.2
        (dispatch reregistering_env
          (wait_of_iteration reregistering_env both_ready_input
            (two_registrations { tv_sec := 100, tv_nsec := 0 })).1
          (wait_of_iteration reregistering_env both_ready_input
            (two_registrations { tv_sec := 100, tv_nsec := 0 })).2.2))
    ∧ invoked
      (logged (wait_of_iteration reregistering_env both_ready_input
          (two_registrations { tv_sec := 100, tv_nsec := 0 })).2.2
        (dispatch reregistering_env
          (wait_of_iteration reregistering_env both_ready_input
            (two_registrations { tv_sec := 100, tv_nsec := 0 })).1
          (wait_of_iteration reregistering_env both_ready_input
            (two_registrations { tv_sec := 100, tv_nsec := 0 })).2.2)) = [1] :=
  ⟨by decide, by decide,
    removed_not_dispatched reregistering_env _ _ (by decide) (by decide), by decide⟩

/-- Counterexample to C1 as stated.  (a) Registrations 1 and 2 are both ready; the
handler of 1 calls `add_epoll` on 2, which fails but has cleared the back-reference of 2,
and then `remove_epoll` on 2, which succeeds and finds no back-reference: the handler of
2 is called afterwards.  (b) Registration 2 is in slots 1 and 2 and the handler of 1
removes it: only slot 2 is emptied, and the handler of 2 is called for slot 1. -/
theorem removed_then_dispatched :
    ¬ never_invoked_after_removal
      (logged (wait_of_iteration readding_env both_ready_input
          (two_registrations { tv_sec := 100, tv_nsec := 0 })).2.2
        (dispatch readding_env
          (wait_of_iteration readding_env both_ready_input
            (two_registrations { tv_sec := 100, tv_nsec := 0 })).1
          (wait_of_iteration readding_env both_ready_input
            (two_registrations { tv_sec := 100, tv_nsec := 0 })).2.2))
    ∧ ¬ never_invoked_after_removal
      (logged (wait_of_iteration removing_env twice_ready_input
          (two_registrations { tv_sec := 100, tv_nsec := 0 })).2.2
        (dispatch removing_env
          (wait_of_iteration removing_env twice_ready_input
            (two_registrations { tv_sec := 100, tv_nsec := 0 })).1
          (wait_of_iteration removing_env twice_ready_input
            (two_registrations { tv_sec := 100, tv_nsec := 0 })).2.2)) := by
  constructor
  · intro h
    exact h [Event.handler 1 EPOLLIN 1, Event.epoll_ctl_add 12 EPOLLIN 2 (-1)]
      [Event.handler 2 EPOLLIN 2] 2 12 0 (by decide) (by decide) (by decide)
  · intro h
    exact h [Event.handler 1 EPOLLIN 1] [Event.handler 2 EPOLLIN 2] 2 12 0
      (by decide) (by decide) (by decide)

/-! ## Countdown timers -/

theorem to_int_of_fits (x : Int) (h : fits_int x) : to_int x = x := by
  unfold fits_int at h
  unfold to_int
  omega

theorem to_int_fits (x : Int) : fits_int (to_int x) := by
  unfold fits_int to_int
  omega

/-- C11: `epoll_timer_expired` on a timer whose latch `priv` is clear makes exactly one
call outside, a `read` of 8 bytes from the timer's descriptor.  If the read returns 8 the
latch is set and the result is 1; for every other return value (an error such as
would-block, or any other length) the result is 0 and the latch stays clear.  The fields
`fd`, `handler`, `arg` and `ref_ev` of the timer are as before. -/
theorem timer_expired_reads_once (r errno : Int) (timer : Nat) (s : State)
    (h : (s.heap timer).priv = 0) :
    logged s (epoll_timer_expired r errno timer s).2 = [Event.read (s.heap timer).fd 8 r errno]
    ∧ (r = 8 → (epoll_timer_expired r errno timer s).1 = 1
        ∧ ((epoll_timer_expired r errno timer s).2.heap timer).priv = 1)
    ∧ (r ≠ 8 → (epoll_timer_expired r errno timer s).1 = 0
        ∧ ((epoll_timer_expired r errno timer s).2.heap timer).priv = 0)
    ∧ ((epoll_timer_expired r errno timer s).2.heap timer).fd = (s.heap timer).fd
    ∧ ((epoll_timer_expired r errno timer s).2.heap timer).handler = (s.heap timer).handler
    ∧ ((epoll_timer_expired r errno timer s).2.heap timer).arg = (s.heap timer).arg
    ∧ ((epoll_timer_expired r errno timer s).2.heap timer).ref_ev = (s.heap timer).ref_ev := by
  unfold epoll_timer_expired
  by_cases hr : r = 8
  · simp [h, hr, logged, update]
  · simp [h, hr, logged]

/-- Witness of C11: an idle timer whose read returns 8 bytes, and one whose read would
block. -/
theorem timer_expired_reads_once_witness :
    ((idle_state { tv_sec := 0, tv_nsec := 0 }).heap 3).priv = 0
    ∧ (epoll_timer_expired 8 0 3 (idle_state { tv_sec := 0, tv_nsec := 0 })).1 = 1
    ∧ (epoll_timer_expired (-1) EAGAIN 3 (idle_state { tv_sec := 0, tv_nsec := 0 })).1 = 0 :=
  ⟨rfl,
    ((timer_expired_reads_once 8 0 3 (idle_state { tv_sec := 0, tv_nsec := 0 }) rfl).2.1
      rfl).1,
    ((timer_expired_reads_once (-1) EAGAIN 3 (idle_state { tv_sec := 0, tv_nsec := 0 })
      rfl).2.2.1 (by decide)).1⟩

/-- C13: for every timer state and every `seconds`, `epoll_timer_start` leaves the latch
`priv` at 0, makes one call outside, `timerfd_settime` with `it_value = {seconds, 0}` and
`it_interval = {0, 0}`, and leaves `fd`, `handler`, `arg` and `ref_ev` as they were; an
`epoll_timer_expired` right after it whose read does not return 8 bytes (it would block)
returns 0. -/
theorem timer_start_spec (timer : Nat) (seconds : Int) (s : State) :
    ((epoll_timer_start timer seconds s).heap timer).priv = 0
    ∧ logged s (epoll_timer_start timer seconds s)
        = [Event.timerfd_settime (s.heap timer).fd 0 { tv_sec := 0, tv_nsec := 0 }
            { tv_sec := seconds, tv_nsec := 0 }]
    ∧ ((epoll_timer_start timer seconds s).heap timer).fd = (s.heap timer).fd
    ∧ ((epoll_timer_start timer seconds s).heap timer).handler = (s.heap timer).handler
    ∧ ((epoll_timer_start timer seconds s).heap timer).arg = (s.heap timer).arg
    ∧ ((epoll_timer_start timer seconds s).heap timer).ref_ev = (s.heap timer).ref_ev
    ∧ (epoll_timer_expired (-1) EAGAIN timer (epoll_timer_start timer seconds s)).1 = 0
    ∧ (∀ r errno, r ≠ 8 →
        (epoll_timer_expired r errno timer (epoll_timer_start timer seconds s)).1 = 0) := by
  have hp : ((epoll_timer_start timer seconds s).heap timer).priv = 0 := by
    simp [epoll_timer_start, update]
  have hrest : ∀ r errno, r ≠ 8 →
      (epoll_timer_expired r errno timer (epoll_timer_start timer seconds s)).1 = 0 := by
    intro r errno hr
    unfold epoll_timer_expired
    simp [hp, hr]
  refine ⟨hp, ?_, ?_, ?_, ?_, ?_, hrest (-1) EAGAIN (by decide), hrest⟩ <;>
    simp [epoll_timer_start, update, logged]

/-- Witness of C13: a timer whose latch is set is started for 5 seconds. -/
theorem timer_start_spec_witness :
    ((epoll_timer_start 3 5 (epoll_timer_expired 8 0 3
        (idle_state { tv_sec := 0, tv_nsec := 0 })).2).heap 3).priv = 0
    ∧ (epoll_timer_expired (-1) EAGAIN 3 (epoll_timer_start 3 5 (epoll_timer_expired 8 0 3
        (idle_state { tv_sec := 0, tv_nsec := 0 })).2)).1 = 0 :=
  ⟨(timer_start_spec 3 5 (epoll_timer_expired 8 0 3
      (idle_state { tv_sec := 0, tv_nsec := 0 })).2).1,
    (timer_start_spec 3 5 (epoll_timer_expired 8 0 3
      (idle_state { tv_sec := 0, tv_nsec := 0 })).2).2.2.2.2.2.2.1⟩

/-- C14, as the code has it: for every remaining interval with `0 <= tv_sec`,
`0 <= tv_nsec < 10^9` and a rounded-up number of seconds within the range of `int`,
`epoll_timer_which_second` returns that number, `ceil((tv_sec*10^9 + tv_nsec) / 10^9)`:
`tv_sec + 1` when `tv_nsec` is not zero and `tv_sec` when it is; the result is 0 exactly
when the interval is zero. -/
theorem which_second_rounds_up (cur : timespec) (timer : Nat) (s : State)
    (hn : normalised cur) (h0 : 0 ≤ cur.tv_sec) (hfit : ceil_seconds cur ≤ 2147483647) :
    (epoll_timer_which_second cur timer s).1 = ceil_seconds cur
    ∧ (cur.tv_nsec ≠ 0 → (epoll_timer_which_second cur timer s).1 = cur.tv_sec + 1)
    ∧ (cur.tv_nsec = 0 → (epoll_timer_which_second cur timer s).1 = cur.tv_sec)
    ∧ ((epoll_timer_which_second cur timer s).1 = 0 ↔ (cur.tv_sec = 0 ∧ cur.tv_nsec = 0)) := by
  unfold normalised at hn
  have hv : (epoll_timer_which_second cur timer s).1
      = to_int (cur.tv_sec + (if cur.tv_nsec ≠ 0 then 1 else 0)) := rfl
  by_cases hz : cur.tv_nsec = 0
  · have hc : ceil_seconds cur = cur.tv_sec := by
      unfold ceil_seconds
      rw [hz]
      omega
    have hr : (epoll_timer_which_second cur timer s).1 = cur.tv_sec := by
      rw [hv, if_neg (not_not.mpr hz)]
      rw [hc] at hfit
      unfold to_int
      omega
    refine ⟨by rw [hr, hc], fun h => absurd hz h, fun _ => hr, ?_⟩
    rw [hr]
    exact ⟨fun h => ⟨h, hz⟩, fun h => h.1⟩
  · have hc : ceil_seconds cur = cur.tv_sec + 1 := by
      unfold ceil_seconds
      omega
    have hr : (epoll_timer_which_second cur timer s).1 = cur.tv_sec + 1 := by
      rw [hv, if_pos hz]
      rw [hc] at hfit
      unfold to_int
      omega
    refine ⟨by rw [hr, hc], fun _ => hr, fun h => absurd h hz, ?_⟩
    rw [hr]
    exact ⟨fun h => by omega, fun h => absurd h.2 hz⟩

/-- Witness of C14: 2 s + 1 ns gives 3, exactly 3 s gives 3, and an elapsed timer gives
0. -/
theorem which_second_rounds_up_witness :
    (epoll_timer_which_second { tv_sec := 2, tv_nsec := 1 } 3
        (idle_state { tv_sec := 0, tv_nsec := 0 })).1 = 2 + 1
    ∧ (epoll_timer_which_second { tv_sec := 3, tv_nsec := 0 } 3
        (idle_state { tv_sec := 0, tv_nsec := 0 })).1 = 3
    ∧ ((epoll_timer_which_second { tv_sec := 0, tv_nsec := 0 } 3
        (idle_state { tv_sec := 0, tv_nsec := 0 })).1 = 0
      ↔ ((0 : Int) = 0 ∧ (0 : Int) = 0)) :=
  ⟨(which_second_rounds_up { tv_sec := 2, tv_nsec := 1 } 3
      (idle_state { tv_sec := 0, tv_nsec := 0 }) (by decide) (by decide) (by decide)).2.1
      (by decide),
    (which_second_rounds_up { tv_sec := 3, tv_nsec := 0 } 3
      (idle_state { tv_sec := 0, tv_nsec := 0 }) (by decide) (by decide) (by decide)).2.2.1
      rfl,
    (which_second_rounds_up { tv_sec := 0, tv_nsec := 0 } 3
      (idle_state { tv_sec := 0, tv_nsec := 0 }) (by decide) (by decide) (by decide)).2.2.2⟩

/-- Counterexample to C14 as stated: with `2^31 - 1` seconds and 1 ns remaining the
rounded-up number of seconds is `2^31`, which the `int` result cannot hold, and the
function returns `-2^31`; with `2^32` seconds remaining it returns 0 although the
interval is not zero. -/
theorem which_second_wraps :
    normalised { tv_sec := 2147483647, tv_nsec := 1 }
    ∧ (epoll_timer_which_second { tv_sec := 2147483647, tv_nsec := 1 } 3
        (idle_state { tv_sec := 0, tv_nsec := 0 })).1 = -2147483648
    ∧ ceil_seconds { tv_sec := 2147483647, tv_nsec := 1 } = 2147483648
    ∧ normalised { tv_sec := 4294967296, tv_nsec := 0 }
    ∧ (epoll_timer_which_second { tv_sec := 4294967296, tv_nsec := 0 } 3
        (idle_state { tv_sec := 0, tv_nsec := 0 })).1 = 0 := by
  decide

theorem run_call_privs (c : Call) (s : State) : privs (run_call c s) = privs s := by
  funext p
  cases c with
  | add_epoll h r =>
    simp only [privs, run_call, add_epoll]
    split <;> (simp only [update]; split <;> simp_all)
  | remove_epoll h r =>
    simp only [privs, run_call, remove_epoll]
    split
    · rfl
    · split
      · split
        · simp only [update]
          split <;> simp_all
        · rfl
      · rfl
  | set_quit => rfl

theorem run_calls_privs (cs : List Call) (s : State) : privs (run_calls cs s) = privs s := by
  induction cs generalizing s with
  | nil => rfl
  | cons c cs ih => simp [run_calls, ih, run_call_privs]

theorem phaseA_step_privs (i : Nat) (s : State) : privs (phaseA_step i s) = privs s := by
  funext p
  unfold phaseA_step privs
  split
  · simp only [update]
    split <;> simp_all
  · rfl

theorem phaseC_step_privs (i : Nat) (s : State) : privs (phaseC_step i s) = privs s := by
  funext p
  unfold phaseC_step privs
  split
  · simp only [update]
    split <;> simp_all
  · rfl

theorem phaseB_step_privs (env : Env) (i : Nat) (s : State) :
    privs (phaseB_step env i s) = privs s := by
  cases hp : (s.ev i).data_ptr with
  | none => rw [phaseB_step_none env i s hp]
  | some p =>
    cases hf : (s.heap p).handler with
    | none => rw [phaseB_step_no_handler env i s p hp hf]
    | some fn =>
      rw [phaseB_step_call env i s p fn hp hf, run_calls_privs]
      rfl

theorem dispatch_privs (env : Env) (r : Int) (s : State) :
    privs (dispatch env r s) = privs s := by
  unfold dispatch phaseC phaseB phaseA
  rw [for_loop_keeps privs phaseC_step_privs, for_loop_keeps privs (phaseB_step_privs env),
    for_loop_keeps privs phaseA_step_privs]

theorem compute_timeout_privs (env : Env) (tv : timespec) (s : State) :
    privs (compute_timeout env tv s).2 = privs s := by
  have h1 : privs (run_timeouts env s) = privs s := by
    have := run_calls_privs
      (env.bridge_one_second { s with trace := s.trace ++ [Event.bridge_one_second] })
      { s with trace := s.trace ++ [Event.bridge_one_second] }
    exact this
  unfold compute_timeout
  by_cases hc : time_diff s.nexttimeout tv < 0 ∨ time_diff s.nexttimeout tv > 1000
  · simp only [if_pos hc]
    split
    · exact h1
    · exact h1
  · simp only [if_neg hc]

theorem loop_body_privs (env : Env) (x : Input) (s : State) :
    privs (loop_body env x s).2 = privs s := by
  have hw : privs (wait_of_iteration env x s).2.2 = privs s := by
    rw [← compute_timeout_privs env x.tv s]
    funext p
    unfold privs wait_of_iteration
    rw [epoll_wait_heap]
  rw [loop_body_eq]
  split
  · exact hw
  · rw [dispatch_privs, hw]

theorem timer_expired_keeps_latch (r errno : Int) (t timer : Nat) (s : State)
    (h : (s.heap timer).priv ≠ 0) :
    ((epoll_timer_expired r errno t s).2.heap timer).priv ≠ 0 := by
  unfold epoll_timer_expired
  split
  · exact h
  · rename_i hp
    split
    · simp only [update]
      split
      · simp
      · exact h
    · exact h

theorem run_ops_keep_latch (env : Env) (ops : List Op) (timer : Nat) (s : State)
    (h : (s.heap timer).priv ≠ 0) : ((run_ops env ops s).heap timer).priv ≠ 0 := by
  induction ops generalizing s with
  | nil => exact h
  | cons op ops ih =>
    apply ih
    cases op with
    | expired t r errno => exact timer_expired_keeps_latch r errno t timer s h
    | which_second t cur => exact h
    | call c =>
      have := congrFun (run_call_privs c s) timer
      simp only [privs] at this
      simp only [run_op]
      rw [this]
      exact h
    | iteration x =>
      have := congrFun (loop_body_privs env x s) timer
      simp only [privs] at this
      simp only [run_op]
      rw [this]
      exact h

/-- C12: once `epoll_timer_expired` has returned true for a timer, then after any
sequence of operations other than `epoll_timer_start` (further calls of
`epoll_timer_expired` and `epoll_timer_which_second` on this or other timers,
`add_epoll`, `remove_epoll`, iterations of the loop), a call of `epoll_timer_expired` on
it returns 1 whatever a read of the descriptor would return, and leaves the whole state,
log included, as it is: no read is made. -/
theorem expiry_is_idempotent (env : Env) (timer : Nat) (r errno : Int) (s : State)
    (h : (epoll_timer_expired r errno timer s).1 ≠ 0) (ops : List Op) (r2 errno2 : Int) :
    epoll_timer_expired r2 errno2 timer
        (run_ops env ops (epoll_timer_expired r errno timer s).2)
      = (1, run_ops env ops (epoll_timer_expired r errno timer s).2)
    ∧ reads (logged (run_ops env ops (epoll_timer_expired r errno timer s).2)
        (epoll_timer_expired r2 errno2 timer
          (run_ops env ops (epoll_timer_expired r errno timer s).2)).2) = [] := by
  have h1 : ((epoll_timer_expired r errno timer s).2.heap timer).priv ≠ 0 := by
    unfold epoll_timer_expired at h ⊢
    by_cases hp : (s.heap timer).priv ≠ 0
    · simp only [if_pos hp]
      exact hp
    · simp only [if_neg hp] at h ⊢
      by_cases hr : r = 8
      · simp [hr, update]
      · simp [hr] at h
  have h2 := run_ops_keep_latch env ops timer _ h1
  have h3 : epoll_timer_expired r2 errno2 timer
      (run_ops env ops (epoll_timer_expired r errno timer s).2)
      = (1, run_ops env ops (epoll_timer_expired r errno timer s).2) := by
    unfold epoll_timer_expired at h2 ⊢
    simp only [if_pos h2]
  refine ⟨h3, ?_⟩
  rw [h3]
  simp [logged, reads]

/-- Witness of C12: the read returns 8 bytes; then the loop runs an iteration, the timer
is added and removed, and the timer is asked again while a read would block. -/
theorem expiry_is_idempotent_witness :
    (epoll_timer_expired 8 0 3 (idle_state { tv_sec := 100, tv_nsec := 0 })).1 ≠ 0
    ∧ (epoll_timer_expired (-1) EAGAIN 3
        (run_ops idle_env
          [Op.iteration before_jump, Op.call (Call.add_epoll 3 0),
            Op.call (Call.remove_epoll 3 0), Op.expired 3 (-1) EAGAIN]
          (epoll_timer_expired 8 0 3 (idle_state { tv_sec := 100, tv_nsec := 0 })).2)).1 = 1 :=
  ⟨by decide,
    congrArg Prod.fst (expiry_is_idempotent idle_env 3 8 0
      (idle_state { tv_sec := 100, tv_nsec := 0 }) (by decide)
      [Op.iteration before_jump, Op.call (Call.add_epoll 3 0),
        Op.call (Call.remove_epoll 3 0), Op.expired 3 (-1) EAGAIN] (-1) EAGAIN).1⟩

/-! ## The arithmetic of `time_diff` -/

theorem time_diff_eq (second first : timespec) :
    time_diff second first = to_int (time_diff_long second first) := rfl

/-- C15, as the code has it: `time_diff(second, first)` is the millisecond difference
computed as a `long` and then converted to `int`.  The result is in the range of `int`
and congruent to the `long` value modulo `2^32`; it equals the `long` value when that
lies in the range of `int`, and when it does not the result is the wrapped value, which
is not the value clamped to the range. -/
theorem time_diff_wraps (second first : timespec) :
    time_diff second first = to_int (time_diff_long second first)
    ∧ fits_int (time_diff second first)
    ∧ (time_diff_long second first - time_diff second first) % 4294967296 = 0
    ∧ (fits_int (time_diff_long second first) →
        time_diff second first = time_diff_long second first)
    ∧ (¬ fits_int (time_diff_long second first) →
        time_diff second first ≠ time_diff_long second first) := by
  refine ⟨rfl, to_int_fits _, ?_, ?_, ?_⟩
  · rw [time_diff_eq]
    unfold to_int
    omega
  · intro h
    rw [time_diff_eq, to_int_of_fits _ h]
  · intro h heq
    rw [← heq] at h
    exact h (to_int_fits _)

/-- Witness of C15 as the code has it: a deadline 400 ms ahead, and one 2147484 s ahead
(the `long` value 2147484000 does not fit and is wrapped). -/
theorem time_diff_wraps_witness :
    time_diff { tv_sec := 100, tv_nsec := 0 } { tv_sec := 99, tv_nsec := 600000000 } = 400
    ∧ time_diff { tv_sec := 2147484, tv_nsec := 0 } { tv_sec := 0, tv_nsec := 0 }
      ≠ time_diff_long { tv_sec := 2147484, tv_nsec := 0 } { tv_sec := 0, tv_nsec := 0 } :=
  ⟨((time_diff_wraps { tv_sec := 100, tv_nsec := 0 }
      { tv_sec := 99, tv_nsec := 600000000 }).2.2.2.1 (by decide)).trans (by decide),
    (time_diff_wraps { tv_sec := 2147484, tv_nsec := 0 }
      { tv_sec := 0, tv_nsec := 0 }).2.2.2.2 (by decide)⟩

/-- Counterexample to C15 as stated: with the deadline 2147484 s after `now` the
difference is 2147484000 ms, which clamped to the range of `int` is 2147483647, and
`time_diff` returns -2147483296; with the deadline 2147484 s before `now` the difference
is -2147484000 ms, clamped -2147483648, and `time_diff` returns 2147483296. -/
theorem time_diff_not_saturating :
    time_diff_long { tv_sec := 2147484, tv_nsec := 0 } { tv_sec := 0, tv_nsec := 0 }
      = 2147484000
    ∧ clamp_int 2147484000 = 2147483647
    ∧ time_diff { tv_sec := 2147484, tv_nsec := 0 } { tv_sec := 0, tv_nsec := 0 }
      = -2147483296
    ∧ time_diff_long { tv_sec := 0, tv_nsec := 0 } { tv_sec := 2147484, tv_nsec := 0 }
      = -2147484000
    ∧ clamp_int (-2147484000) = -2147483648
    ∧ time_diff { tv_sec := 0, tv_nsec := 0 } { tv_sec := 2147484, tv_nsec := 0 }
      = 2147483296 := by
  decide

theorem time_diff_long_bounds (second first : timespec) :
    -1000000 < 1000000 * time_diff_long second first
        - ((second.tv_sec - first.tv_sec) * 1000000000 + (second.tv_nsec - first.tv_nsec))
    ∧ 1000000 * time_diff_long second first
        - ((second.tv_sec - first.tv_sec) * 1000000000 + (second.tv_nsec - first.tv_nsec))
      < 1000000 := by
  unfold time_diff_long
  rcases tdiv_million (second.tv_nsec - first.tv_nsec) with ⟨_, hd⟩ | ⟨_, hd⟩ <;>
    rw [hd] <;> omega

theorem time_diff_long_antitone (second first first2 : timespec)
    (hf : normalised first) (hf2 : normalised first2) (hle : not_later first first2) :
    time_diff_long second first2 ≤ time_diff_long second first := by
  unfold normalised at hf hf2
  unfold not_later at hle
  unfold time_diff_long
  rcases tdiv_million (second.tv_nsec - first.tv_nsec) with ⟨_, hd⟩ | ⟨_, hd⟩ <;>
    rcases tdiv_million (second.tv_nsec - first2.tv_nsec) with ⟨_, hd2⟩ | ⟨_, hd2⟩ <;>
    rw [hd, hd2] <;> omega

/-- C20: for timespecs whose millisecond difference fits an `int` (with `first`
normalised, `0 <= tv_nsec < 10^9`, where it advances),
`time_diff(second, first)` times `10^6` differs from the exact difference in nanoseconds
by less than `10^6`; `time_diff` of equal timespecs is 0; and `time_diff(second, first)`
does not grow when `first` advances.  A deadline missed by less than 1 ms can give 0:
with the deadline at 100 s and `now` 999999 ns later, `time_diff` is 0. -/
theorem time_diff_accuracy (second first first2 : timespec)
    (hf : normalised first) (hf2 : normalised first2)
    (hfit : fits_int (time_diff_long second first))
    (hfit2 : fits_int (time_diff_long second first2)) (hle : not_later first first2) :
    (-1000000 < 1000000 * time_diff second first
        - ((second.tv_sec - first.tv_sec) * 1000000000 + (second.tv_nsec - first.tv_nsec))
      ∧ 1000000 * time_diff second first
        - ((second.tv_sec - first.tv_sec) * 1000000000 + (second.tv_nsec - first.tv_nsec))
        < 1000000)
    ∧ time_diff first first = 0
    ∧ time_diff second first2 ≤ time_diff second first
    ∧ time_diff { tv_sec := 100, tv_nsec := 0 } { tv_sec := 100, tv_nsec := 999999 } = 0 := by
  refine ⟨?_, ?_, ?_, by decide⟩
  · rw [time_diff_eq, to_int_of_fits _ hfit]
    exact time_diff_long_bounds second first
  · unfold time_diff to_int
    simp
  · rw [time_diff_eq, time_diff_eq, to_int_of_fits _ hfit, to_int_of_fits _ hfit2]
    exact time_diff_long_antitone second first first2 hf hf2 hle

/-- Witness of C20: the deadline is at 100 s, `now` goes from 99.9996 s to 100.000999999
s; the timeout goes from 0 (truncated from 0.4 ms) to 0. -/
theorem time_diff_accuracy_witness :
    normalised { tv_sec := 99, tv_nsec := 999600000 }
    ∧ not_later { tv_sec := 99, tv_nsec := 999600000 } { tv_sec := 100, tv_nsec := 999999 }
    ∧ time_diff { tv_sec := 100, tv_nsec := 0 } { tv_sec := 100, tv_nsec := 999999 }
      ≤ time_diff { tv_sec := 100, tv_nsec := 0 } { tv_sec := 99, tv_nsec := 999600000 } :=
  ⟨by decide, by decide,
    (time_diff_accuracy { tv_sec := 100, tv_nsec := 0 } { tv_sec := 99, tv_nsec := 999600000 }
      { tv_sec := 100, tv_nsec := 999999 } (by decide) (by decide) (by decide) (by decide)
      (by decide)).2.2.1⟩

/-! ## The order of Phase B -/

theorem handler_calls_append (a b : List Event) :
    handler_calls (a ++ b) = handler_calls a ++ handler_calls b := by
  induction a with
  | nil => rfl
  | cons e a ih => cases e <;> simp [handler_calls, ih]

theorem handler_calls_of_ctl (t : List Event) (h : ∀ e ∈ t, is_ctl e = true) :
    handler_calls t = [] := by
  induction t with
  | nil => rfl
  | cons e t ih =>
    have he := h e (List.mem_cons_self e t)
    have := ih (fun e he => h e (List.mem_cons_of_mem _ he))
    cases e <;> first
      | (simp [is_ctl] at he; done)
      | simp_all [handler_calls, is_ctl]

theorem invoked_handler_calls (t : List Event) : invoked (handler_calls t) = invoked t := by
  induction t with
  | nil => rfl
  | cons e t ih => cases e <;> simp [handler_calls, invoked, ih]

theorem slots_lose_refl (s : State) : slots_lose s s := fun _ => Or.inr rfl

theorem slots_lose_trans {s1 s2 s3 : State} (h12 : slots_lose s1 s2) (h23 : slots_lose s2 s3) :
    slots_lose s1 s3 := by
  intro i
  rcases h23 i with h | h
  · exact Or.inl h
  · rw [h]
    exact h12 i

theorem run_call_slots_lose (c : Call) (s : State) : slots_lose s (run_call c s) := by
  intro i
  cases c with
  | add_epoll h r =>
    right
    simp only [run_call, add_epoll]
    split <;> rfl
  | remove_epoll h r =>
    simp only [run_call, remove_epoll]
    split
    · exact Or.inr rfl
    · split
      · split
        · simp only [update]
          split
          · exact Or.inl rfl
          · exact Or.inr rfl
        · exact Or.inr rfl
      · exact Or.inr rfl
  | set_quit => exact Or.inr rfl

theorem run_calls_slots_lose (cs : List Call) (s : State) : slots_lose s (run_calls cs s) := by
  induction cs generalizing s with
  | nil => exact slots_lose_refl s
  | cons c cs ih => exact slots_lose_trans (run_call_slots_lose c s) (ih _)

theorem phaseB_step_slots_lose (env : Env) (i : Nat) (s : State) :
    slots_lose s (phaseB_step env i s) := by
  cases hp : (s.ev i).data_ptr with
  | none => rw [phaseB_step_none env i s hp]; exact slots_lose_refl s
  | some p =>
    cases hf : (s.heap p).handler with
    | none => rw [phaseB_step_no_handler env i s p hp hf]; exact slots_lose_refl s
    | some fn =>
      rw [phaseB_step_call env i s p fn hp hf]
      exact run_calls_slots_lose _ _

theorem run_call_handlers (c : Call) (s : State) : handlers (run_call c s) = handlers s := by
  funext p
  cases c with
  | add_epoll h r =>
    simp only [handlers, run_call, add_epoll]
    split <;> (simp only [update]; split <;> simp_all)
  | remove_epoll h r =>
    simp only [handlers, run_call, remove_epoll]
    split
    · rfl
    · split
      · split
        · simp only [update]
          split <;> simp_all
        · rfl
      · rfl
  | set_quit => rfl

theorem run_calls_handlers (cs : List Call) (s : State) :
    handlers (run_calls cs s) = handlers s := by
  induction cs generalizing s with
  | nil => rfl
  | cons c cs ih => simp [run_calls, ih, run_call_handlers]

theorem phaseA_step_handlers (i : Nat) (s : State) :
    handlers (phaseA_step i s) = handlers s := by
  funext p
  unfold phaseA_step handlers
  split
  · simp only [update]
    split <;> simp_all
  · rfl

theorem phaseB_step_handlers (env : Env) (i : Nat) (s : State) :
    handlers (phaseB_step env i s) = handlers s := by
  cases hp : (s.ev i).data_ptr with
  | none => rw [phaseB_step_none env i s hp]
  | some p =>
    cases hf : (s.heap p).handler with
    | none => rw [phaseB_step_no_handler env i s p hp hf]
    | some fn =>
      rw [phaseB_step_call env i s p fn hp hf, run_calls_handlers]
      rfl

/-- One step of the second loop logs exactly the handler call of its slot, if any. -/
theorem phaseB_step_calls (env : Env) (i : Nat) (s : State) :
    ∃ new, (phaseB_step env i s).trace = s.trace ++ new ∧ handler_calls new = call_at i s := by
  cases hp : (s.ev i).data_ptr with
  | none =>
    rw [phaseB_step_none env i s hp]
    exact ⟨[], by simp, by simp [call_at, hp, handler_calls]⟩
  | some p =>
    cases hf : (s.heap p).handler with
    | none =>
      rw [phaseB_step_no_handler env i s p hp hf]
      exact ⟨[], by simp, by simp [call_at, hp, hf, handler_calls]⟩
    | some fn =>
      rw [phaseB_step_call env i s p fn hp hf]
      obtain ⟨new, e, hctl⟩ := run_calls_grows (env.handler fn (s.ev i).events p
        { s with trace := s.trace ++ [Event.handler fn (s.ev i).events p] })
        { s with trace := s.trace ++ [Event.handler fn (s.ev i).events p] }
      refine ⟨Event.handler fn (s.ev i).events p :: new, ?_, ?_⟩
      · rw [e]
        simp
      · simp [call_at, hp, hf, handler_calls, handler_calls_of_ctl new hctl]

/-- The second loop logs exactly the handler calls `calls_in_turn` lists. -/
theorem phaseB_loop_calls (env : Env) (is : List Nat) (s : State) :
    ∃ new, (for_loop (phaseB_step env) is s).trace = s.trace ++ new
      ∧ handler_calls new = calls_in_turn env is s := by
  induction is generalizing s with
  | nil => exact ⟨[], by simp [for_loop], by simp [calls_in_turn, handler_calls]⟩
  | cons i is ih =>
    obtain ⟨n1, e1, h1⟩ := phaseB_step_calls env i s
    obtain ⟨n2, e2, h2⟩ := ih (phaseB_step env i s)
    refine ⟨n1 ++ n2, ?_, ?_⟩
    · simp only [for_loop]
      rw [e2, e1, List.append_assoc]
    · rw [handler_calls_append, h1, h2]
      rfl

theorem filterMap_cons_of_none (f : Nat → Option Nat) (i : Nat) (is : List Nat)
    (h : f i = none) : (i :: is).filterMap f = is.filterMap f := by
  simp [List.filterMap_cons, h]

theorem filterMap_cons_of_some (f : Nat → Option Nat) (i : Nat) (is : List Nat) (b : Nat)
    (h : f i = some b) : (i :: is).filterMap f = b :: is.filterMap f := by
  simp [List.filterMap_cons, h]

theorem calls_in_turn_sublist (env : Env) (s0 : State) (is : List Nat) (s : State)
    (hl : slots_lose s0 s) :
    List.Sublist (invoked (calls_in_turn env is s))
      (is.filterMap (fun i => (s0.ev i).data_ptr)) := by
  induction is generalizing s with
  | nil => simp [calls_in_turn, invoked]
  | cons i is ih =>
    have hrest := ih (phaseB_step env i s) (slots_lose_trans hl (phaseB_step_slots_lose env i s))
    simp only [calls_in_turn, invoked_append]
    cases hp : (s.ev i).data_ptr with
    | none =>
      have hc : call_at i s = [] := by simp [call_at, hp]
      rw [hc]
      simp only [invoked, List.nil_append]
      cases h0 : (s0.ev i).data_ptr with
      | none =>
        rw [filterMap_cons_of_none (fun i => (s0.ev i).data_ptr) i is h0]
        exact hrest
      | some b =>
        rw [filterMap_cons_of_some (fun i => (s0.ev i).data_ptr) i is _ h0]
        exact List.Sublist.cons b hrest
    | some p =>
      have h0 : (s0.ev i).data_ptr = some p := by
        rcases hl i with h | h
        · rw [hp] at h
          cases h
        · rw [← h, hp]
      rw [filterMap_cons_of_some (fun i => (s0.ev i).data_ptr) i is _ h0]
      cases hf : (s.heap p).handler with
      | none =>
        have hc : call_at i s = [] := by simp [call_at, hp, hf]
        rw [hc]
        exact List.Sublist.cons p hrest
      | some fn =>
        have hc : call_at i s = [Event.handler fn (s.ev i).events p] := by
          simp [call_at, hp, hf]
        rw [hc]
        exact List.Sublist.cons₂ p hrest

theorem filterMap_nodup (f : Nat → Option Nat) (l : List Nat) (hl : l.Nodup)
    (hinj : ∀ i ∈ l, ∀ j ∈ l, ∀ b, f i = some b → f j = some b → i = j) :
    (l.filterMap f).Nodup := by
  induction l with
  | nil => simp
  | cons i l ih =>
    have hl' := List.nodup_cons.mp hl
    have hrest := ih hl'.2
      (fun a ha b hb c => hinj a (List.mem_cons_of_mem _ ha) b (List.mem_cons_of_mem _ hb) c)
    cases hi : f i with
    | none =>
      rw [filterMap_cons_of_none f i l hi]
      exact hrest
    | some b =>
      rw [filterMap_cons_of_some f i l b hi]
      refine List.nodup_cons.mpr ⟨?_, hrest⟩
      intro hb
      obtain ⟨j, hj, hfj⟩ := List.mem_filterMap.mp hb
      have := hinj i (List.mem_cons_self _ _) j (List.mem_cons_of_mem _ hj) b hi hfj
      rw [this] at hl'
      exact hl'.1 hj

theorem batch_registrations_nodup (r : Int) (s : State) (hd : one_slot_each r s) :
    (batch_registrations r s).Nodup := by
  refine filterMap_nodup _ _ (List.nodup_range _) ?_
  intro i hi j hj b hib hjb
  exact hd i hi j hj (by rw [hib]; simp) (by rw [hib, hjb])

theorem calls_in_turn_have_handler (env : Env) (is : List Nat) (s : State) :
    ∀ p ∈ invoked (calls_in_turn env is s), handlers s p ≠ none := by
  induction is generalizing s with
  | nil => simp [calls_in_turn, invoked]
  | cons i is ih =>
    intro p hp
    simp only [calls_in_turn, invoked_append, List.mem_append] at hp
    rcases hp with hp | hp
    · cases hq : (s.ev i).data_ptr with
      | none => simp [call_at, hq, invoked] at hp
      | some q =>
        cases hf : (s.heap q).handler with
        | none => simp [call_at, hq, hf, invoked] at hp
        | some fn =>
          simp only [call_at, hq, hf, invoked, List.mem_singleton] at hp
          subst hp
          simp [handlers, hf]
    · have := ih (phaseB_step env i s) p hp
      rw [phaseB_step_handlers] at this
      exact this

/-- The handler calls logged by a dispatch cycle are those of its second loop. -/
theorem dispatch_calls (env : Env) (r : Int) (s : State) :
    handler_calls (logged s (dispatch env r s)) = calls_in_turn env (indices r) (phaseA r s) := by
  obtain ⟨new, e, h⟩ := phaseB_loop_calls env (indices r) (phaseA r s)
  have htr : (dispatch env r s).trace = s.trace ++ new := by
    unfold dispatch phaseC phaseB
    rw [for_loop_keeps State.trace phaseC_step_trace, e]
    unfold phaseA
    rw [for_loop_keeps State.trace phaseA_step_trace]
  rw [logged_eq htr, h]

/-- C16: Phase B of a dispatch cycle over slots of which no two hold the same
registration.  The handler calls of the cycle are those of the second loop taking the
slots in index order, and at each slot the loop calls `handler(ev[i].events, p)` exactly
when the slot, as it is at its turn, holds a registration `p` whose `handler` is not
null, and calls nothing otherwise.  Hence the registrations called are, in order, among
the registrations of the batch, none is called twice, and a registration without a
handler is not called. -/
theorem phaseB_in_order (env : Env) (r : Int) (s : State) (hd : one_slot_each r s) :
    handler_calls (logged s (dispatch env r s)) = calls_in_turn env (indices r) (phaseA r s)
    ∧ (∀ i s', handler_calls (logged s' (phaseB_step env i s')) = call_at i s')
    ∧ List.Sublist (invoked (logged s (dispatch env r s))) (batch_registrations r s)
    ∧ (invoked (logged s (dispatch env r s))).Nodup
    ∧ (∀ p, (s.heap p).handler = none → p ∉ invoked (logged s (dispatch env r s))) := by
  have hcalls := dispatch_calls env r s
  have hinv : invoked (logged s (dispatch env r s))
      = invoked (calls_in_turn env (indices r) (phaseA r s)) := by
    rw [← hcalls, invoked_handler_calls]
  have hevA : (phaseA r s).ev = s.ev := for_loop_keeps State.ev phaseA_step_ev _ _
  have hsub : List.Sublist (invoked (logged s (dispatch env r s))) (batch_registrations r s) := by
    rw [hinv]
    unfold batch_registrations
    rw [← hevA]
    exact calls_in_turn_sublist env (phaseA r s) (indices r) (phaseA r s) (slots_lose_refl _)
  refine ⟨hcalls, ?_, hsub, List.Nodup.sublist hsub (batch_registrations_nodup r s hd), ?_⟩
  · intro i s'
    obtain ⟨new, e, h⟩ := phaseB_step_calls env i s'
    rw [logged_eq e, h]
  · intro p hp hmem
    rw [hinv] at hmem
    have := calls_in_turn_have_handler env (indices r) (phaseA r s) p hmem
    have hA : handlers (phaseA r s) = handlers s :=
      for_loop_keeps handlers phaseA_step_handlers _ _
    rw [hA] at this
    exact this hp

/-- Witness of C16: registrations 1 and 2 are both ready and the handler of 1 removes
2; the one handler call is that of registration 1, with the events of slot 0. -/
theorem phaseB_in_order_witness :
    one_slot_each
      (wait_of_iteration removing_env both_ready_input
        (two_registrations { tv_sec := 100, tv_nsec := 0 })).1
      (wait_of_iteration removing_env both_ready_input
        (two_registrations { tv_sec := 100, tv_nsec := 0 })).2.2
    ∧ (invoked (logged (wait_of_iteration removing_env both_ready_input
          (two_registrations { tv_sec := 100, tv_nsec := 0 })).2.2
        (dispatch removing_env
          (wait_of_iteration removing_env both_ready_input
            (two_registrations { tv_sec := 100, tv_nsec := 0 })).1
          (wait_of_iteration removing_env both_ready_input
            (two_registrations { tv_sec := 100, tv_nsec := 0 })).2.2))).Nodup
    ∧ handler_calls (logged (wait_of_iteration removing_env both_ready_input
          (two_registrations { tv_sec := 100, tv_nsec := 0 })).2.2
        (dispatch removing_env
          (wait_of_iteration removing_env both_ready_input
            (two_registrations { tv_sec := 100, tv_nsec := 0 })).1
          (wait_of_iteration removing_env both_ready_input
            (two_registrations { tv_sec := 100, tv_nsec := 0 })).2.2))
      = [Event.handler 1 EPOLLIN 1] :=
  ⟨by decide,
    (phaseB_in_order removing_env _ _ (by decide)).2.2.2.1,
    by decide⟩

/-! ## The iterations of the loop -/

theorem iterations_cons_running (env : Env) (x : Input) (xs : List Input) (s : State)
    (hq : s.quit = false) (hb : (loop_body env x s).1 = none) :
    iterations env (x :: xs) s = (s, x) :: iterations env xs (loop_body env x s).2
    ∧ while_loop env (x :: xs) s = while_loop env xs (loop_body env x s).2 := by
  rcases hl : loop_body env x s with ⟨v, s1⟩
  rw [hl] at hb
  simp only at hb
  subst hb
  simp [iterations, while_loop, hq, hl]

theorem iterations_cons_returning (env : Env) (x : Input) (xs : List Input) (s : State)
    (hq : s.quit = false) (v : Int) (hb : (loop_body env x s).1 = some v) :
    iterations env (x :: xs) s = [(s, x)]
    ∧ while_loop env (x :: xs) s = (some v, (loop_body env x s).2) := by
  rcases hl : loop_body env x s with ⟨w, s1⟩
  rw [hl] at hb
  simp only at hb
  subst hb
  simp [iterations, while_loop, hq, hl]

theorem iterations_quit (env : Env) (xs : List Input) (s : State) (hq : s.quit = true) :
    iterations env xs s = [] := by
  cases xs <;> simp [iterations, hq]

/-- The list `iterations` holds the iterations of `while_loop`: an iteration with input
`x` starting in state `s'` is in it exactly when `x` follows a stretch `pre` of the
inputs on which `while_loop` is still running and has reached `s'`. -/
theorem mem_iterations (env : Env) (xs : List Input) (s : State) (s' : State) (x : Input) :
    (∃ pre post, xs = pre ++ x :: post ∧ while_loop env pre s = (none, s'))
    ↔ (s', x) ∈ iterations env xs s := by
  induction xs generalizing s with
  | nil =>
    constructor
    · rintro ⟨pre, post, h, _⟩
      simp at h
    · intro h
      simp [iterations] at h
  | cons y ys ih =>
    by_cases hq : s.quit = true
    · rw [iterations_quit env _ s hq]
      constructor
      · rintro ⟨pre, post, _, hrun⟩
        cases pre <;> simp [while_loop, hq] at hrun
      · intro h
        simp at h
    · have hq' : s.quit = false := by simpa using hq
      have h0 : while_loop env [] s = (none, s) := by
        simp [while_loop, hq']
      cases hb : (loop_body env y s).1 with
      | some v =>
        rw [(iterations_cons_returning env y ys s hq' v hb).1]
        constructor
        · rintro ⟨pre, post, hsplit, hrun⟩
          cases pre with
          | nil =>
            simp only [List.nil_append, List.cons.injEq] at hsplit
            rw [h0] at hrun
            rw [← (Prod.mk.inj hrun).2, hsplit.1]
            simp
          | cons z pre =>
            simp only [List.cons_append, List.cons.injEq] at hsplit
            rw [← hsplit.1, (iterations_cons_returning env y pre s hq' v hb).2] at hrun
            simp at hrun
        · intro h
          simp only [List.mem_singleton, Prod.mk.injEq] at h
          exact ⟨[], ys, by simp [h.2], by rw [h0, h.1]⟩
      | none =>
        rw [(iterations_cons_running env y ys s hq' hb).1]
        constructor
        · rintro ⟨pre, post, hsplit, hrun⟩
          cases pre with
          | nil =>
            simp only [List.nil_append, List.cons.injEq] at hsplit
            rw [h0] at hrun
            rw [← (Prod.mk.inj hrun).2, hsplit.1]
            exact List.mem_cons_self _ _
          | cons z pre =>
            simp only [List.cons_append, List.cons.injEq] at hsplit
            rw [← hsplit.1, (iterations_cons_running env y pre s hq' hb).2] at hrun
            exact List.mem_cons_of_mem _
              ((ih (loop_body env y s).2).mp ⟨pre, post, hsplit.2, hrun⟩)
        · intro h
          rcases List.mem_cons.mp h with h | h
          · simp only [Prod.mk.injEq] at h
            exact ⟨[], ys, by simp [h.2], by rw [h0, h.1]⟩
          · obtain ⟨pre, post, hsplit, hrun⟩ := (ih (loop_body env y s).2).mpr h
            refine ⟨y :: pre, post, by simp [hsplit], ?_⟩
            rw [(iterations_cons_running env y pre s hq' hb).2]
            exact hrun

/-! ## Non-decreasing clock readings -/

theorem not_later_trans {a b c : timespec} (hab : not_later a b) (hbc : not_later b c) :
    not_later a c := by
  unfold not_later at *
  omega

theorem not_later_plus_second {a b : timespec} (hab : not_later a b) :
    not_later (plus_seconds a 1) (plus_seconds b 1) := by
  unfold not_later plus_seconds at *
  simp only
  omega

theorem time_diff_long_le_1000 (d now : timespec) (hd : normalised d) (hnow : normalised now)
    (h : not_later d (plus_seconds now 1)) : time_diff_long d now ≤ 1000 := by
  unfold normalised at hd hnow
  unfold not_later plus_seconds at h
  simp only at h
  unfold time_diff_long
  rcases tdiv_million (d.tv_nsec - now.tv_nsec) with ⟨_, hq⟩ | ⟨_, hq⟩ <;> rw [hq] <;> omega

theorem not_later_of_negative (d now : timespec) (hd : normalised d) (hnow : normalised now)
    (h : time_diff_long d now < 0) : not_later d now := by
  unfold normalised at hd hnow
  unfold not_later
  unfold time_diff_long at h
  rcases tdiv_million (d.tv_nsec - now.tv_nsec) with ⟨_, hq⟩ | ⟨_, hq⟩ <;>
    rw [hq] at h <;> omega

/-- The deadline an iteration leaves is normalised and at most one second after the
clock reading of the iteration, if it was so with respect to an earlier reading. -/
theorem loop_body_deadline (env : Env) (x : Input) (s : State) (last : timespec)
    (hd : normalised s.nexttimeout) (hx : normalised x.tv)
    (hle : not_later s.nexttimeout (plus_seconds last 1)) (hlast : not_later last x.tv)
    (hfit : fits_int (time_diff_long s.nexttimeout x.tv)) :
    normalised (loop_body env x s).2.nexttimeout
    ∧ not_later (loop_body env x s).2.nexttimeout (plus_seconds x.tv 1) := by
  rw [(loop_body_facts env x s).2, compute_timeout_nexttimeout]
  have ht : time_diff s.nexttimeout x.tv = time_diff_long s.nexttimeout x.tv := by
    rw [time_diff_eq, to_int_of_fits _ hfit]
  have hle2 : not_later s.nexttimeout (plus_seconds x.tv 1) :=
    not_later_trans hle (not_later_plus_second hlast)
  by_cases hc : time_diff s.nexttimeout x.tv < 0 ∨ time_diff s.nexttimeout x.tv > 1000
  · rw [if_pos hc]
    by_cases hr : time_diff s.nexttimeout x.tv < -4000 ∨ time_diff s.nexttimeout x.tv > 1000
    · rw [if_pos hr]
      refine ⟨hx, ?_⟩
      simp [not_later, plus_seconds]
    · rw [if_neg hr]
      have hneg : time_diff_long s.nexttimeout x.tv < 0 := by
        have := time_diff_long_le_1000 s.nexttimeout x.tv hd hx hle2
        omega
      have hbehind := not_later_plus_second (not_later_of_negative s.nexttimeout x.tv hd hx hneg)
      exact ⟨hd, hbehind⟩
  · rw [if_neg hc]
    exact ⟨hd, hle2⟩

theorem timeouts_bounded (env : Env) (xs : List Input) :
    ∀ (last : timespec) (s : State), normalised s.nexttimeout →
      not_later s.nexttimeout (plus_seconds last 1) →
      (∀ x ∈ xs, normalised x.tv) → List.Chain not_later last (xs.map Input.tv) →
      (∀ it ∈ iterations env xs s, fits_int (time_diff_long it.1.nexttimeout it.2.tv)) →
      ∀ it ∈ iterations env xs s, time_diff it.1.nexttimeout it.2.tv ≤ 1000 := by
  induction xs with
  | nil =>
    intro last s _ _ _ _ _ it hit
    simp [iterations] at hit
  | cons x xs ih =>
    intro last s hd hle hnorm hchain hfit it hit
    simp only [List.map_cons, List.chain_cons] at hchain
    by_cases hq : s.quit = true
    · rw [iterations_quit env _ s hq] at hit
      simp at hit
    · have hq' : s.quit = false := by simpa using hq
      have hx := hnorm x (List.mem_cons_self _ _)
      have hhead : (s, x) ∈ iterations env (x :: xs) s := by
        cases hb : (loop_body env x s).1 with
        | some v => rw [(iterations_cons_returning env x xs s hq' v hb).1]; simp
        | none => rw [(iterations_cons_running env x xs s hq' hb).1]; simp
      have hfit0 := hfit (s, x) hhead
      have hbound : time_diff s.nexttimeout x.tv ≤ 1000 := by
        rw [time_diff_eq, to_int_of_fits _ hfit0]
        exact time_diff_long_le_1000 s.nexttimeout x.tv hd hx
          (not_later_trans hle (not_later_plus_second hchain.1))
      cases hb : (loop_body env x s).1 with
      | some v =>
        rw [(iterations_cons_returning env x xs s hq' v hb).1] at hit
        simp only [List.mem_singleton] at hit
        rw [hit]
        exact hbound
      | none =>
        rw [(iterations_cons_running env x xs s hq' hb).1] at hit hfit
        rcases List.mem_cons.mp hit with h | h
        · rw [h]
          exact hbound
        · obtain ⟨hd1, hle1⟩ := loop_body_deadline env x s last hd hx hle hchain.1 hfit0
          exact ih x.tv (loop_body env x s).2 hd1 hle1
            (fun y hy => hnorm y (List.mem_cons_of_mem _ hy)) hchain.2
            (fun it' hit' => hfit it' (List.mem_cons_of_mem _ hit')) it h

/-- C18: `epoll_main_loop` sets `nexttimeout` to its first clock reading plus one
second.  If the clock readings are normalised and each is not earlier than the one
before, and the millisecond difference computed in each iteration fits an `int`, then in
every iteration the loop performs the computed timeout is at most 1000; so the branch
`timeout > 1000` is not taken, and the resynchronisation test
`timeout < -4000 || timeout > 1000` holds only when `timeout < -4000`. -/
theorem timeout_at_most_1000 (env : Env) (t0 : timespec) (xs : List Input) (s : State)
    (hn0 : normalised t0) (hn : ∀ x ∈ xs, normalised x.tv)
    (hmono : List.Chain not_later t0 (xs.map Input.tv))
    (hfit : ∀ it ∈ iterations env xs
        { s with nexttimeout := { tv_sec := t0.tv_sec + 1, tv_nsec := t0.tv_nsec } },
      fits_int (time_diff_long it.1.nexttimeout it.2.tv)) :
    epoll_main_loop env t0 xs s
      = while_loop env xs
          { s with nexttimeout := { tv_sec := t0.tv_sec + 1, tv_nsec := t0.tv_nsec } }
    ∧ ∀ it ∈ iterations env xs
        { s with nexttimeout := { tv_sec := t0.tv_sec + 1, tv_nsec := t0.tv_nsec } },
      time_diff it.1.nexttimeout it.2.tv ≤ 1000
      ∧ ¬ time_diff it.1.nexttimeout it.2.tv > 1000
      ∧ ((time_diff it.1.nexttimeout it.2.tv < -4000 ∨ time_diff it.1.nexttimeout it.2.tv > 1000)
          ↔ time_diff it.1.nexttimeout it.2.tv < -4000) := by
  refine ⟨rfl, ?_⟩
  intro it hit
  have hle : not_later ({ s with nexttimeout :=
      { tv_sec := t0.tv_sec + 1, tv_nsec := t0.tv_nsec } } : State).nexttimeout
      (plus_seconds t0 1) := by
    unfold not_later plus_seconds
    simp
  have h := timeouts_bounded env xs t0 _ hn0 hle hn hmono hfit it hit
  exact ⟨h, by omega, by omega⟩

theorem steady_readings_chain :
    List.Chain not_later { tv_sec := 100, tv_nsec := 0 } (steady_readings.map Input.tv) :=
  List.Chain.cons (by decide) (List.Chain.cons (by decide) (List.Chain.cons (by decide)
    List.Chain.nil))

/-- Witness of C18: a first reading of 100 s and then the readings `steady_readings`. -/
theorem timeout_at_most_1000_witness :
    normalised { tv_sec := 100, tv_nsec := 0 }
    ∧ List.Chain not_later { tv_sec := 100, tv_nsec := 0 } (steady_readings.map Input.tv)
    ∧ ∀ it ∈ iterations idle_env steady_readings
        { idle_state { tv_sec := 0, tv_nsec := 0 } with
          nexttimeout := { tv_sec := 100 + 1, tv_nsec := 0 } },
      time_diff it.1.nexttimeout it.2.tv ≤ 1000
      ∧ ¬ time_diff it.1.nexttimeout it.2.tv > 1000
      ∧ ((time_diff it.1.nexttimeout it.2.tv < -4000 ∨ time_diff it.1.nexttimeout it.2.tv > 1000)
          ↔ time_diff it.1.nexttimeout it.2.tv < -4000) :=
  ⟨by decide, steady_readings_chain,
    (timeout_at_most_1000 idle_env { tv_sec := 100, tv_nsec := 0 } steady_readings
      (idle_state { tv_sec := 0, tv_nsec := 0 }) (by decide) (by decide) steady_readings_chain
      (by decide)).2⟩

/-! ## Catching up -/

theorem time_diff_next_second (d now : timespec) (h1 : -4000 ≤ time_diff d now)
    (h2 : time_diff d now < 0) :
    time_diff { tv_sec := d.tv_sec + 1, tv_nsec := d.tv_nsec } now = time_diff d now + 1000 := by
  unfold time_diff to_int at *
  simp only at *
  omega

/-- The deadline and the ticks of one iteration that starts with a timeout in
`-4000 .. 999`. -/
theorem loop_body_lagging (env : Env) (x : Input) (s : State)
    (h1 : -4000 ≤ time_diff s.nexttimeout x.tv) (h2 : time_diff s.nexttimeout x.tv ≤ 999) :
    (time_diff s.nexttimeout x.tv < 0 →
      (loop_body env x s).2.nexttimeout = plus_seconds s.nexttimeout 1
      ∧ time_diff (loop_body env x s).2.nexttimeout x.tv = time_diff s.nexttimeout x.tv + 1000
      ∧ ticks (logged s (loop_body env x s).2) = 1
      ∧ waits (logged s (loop_body env x s).2) = [0])
    ∧ (0 ≤ time_diff s.nexttimeout x.tv →
      (loop_body env x s).2.nexttimeout = s.nexttimeout
      ∧ ticks (logged s (loop_body env x s).2) = 0
      ∧ waits (logged s (loop_body env x s).2) = [time_diff s.nexttimeout x.tv]) := by
  obtain ⟨_, ht, hw⟩ := loop_body_logged env x s
  have hn := (loop_body_facts env x s).2
  rw [compute_timeout_nexttimeout] at hn
  constructor
  · intro hneg
    have hc : time_diff s.nexttimeout x.tv < 0 ∨ time_diff s.nexttimeout x.tv > 1000 :=
      Or.inl hneg
    have hr : ¬ (time_diff s.nexttimeout x.tv < -4000 ∨ time_diff s.nexttimeout x.tv > 1000) := by
      omega
    rw [if_pos hc] at ht hw hn
    rw [if_neg hr] at hn
    refine ⟨hn, ?_, ht, hw⟩
    rw [hn]
    exact time_diff_next_second s.nexttimeout x.tv h1 hneg
  · intro hpos
    have hc : ¬ (time_diff s.nexttimeout x.tv < 0 ∨ time_diff s.nexttimeout x.tv > 1000) := by
      omega
    rw [if_neg hc] at ht hw hn
    exact ⟨hn, ht, hw⟩

theorem lagging_run (env : Env) (now : timespec) (xs : List Input) :
    ∀ s : State, (∀ x ∈ xs, x.tv = now) → -4000 ≤ time_diff s.nexttimeout now →
      time_diff s.nexttimeout now ≤ 999 →
      (∀ k it, (iterations env xs s)[k]? = some it →
        it.2.tv = now
        ∧ (k < lag_ticks (time_diff s.nexttimeout now) →
            time_diff it.1.nexttimeout now = time_diff s.nexttimeout now + 1000 * k)
        ∧ (lag_ticks (time_diff s.nexttimeout now) ≤ k →
            time_diff it.1.nexttimeout now
              = time_diff s.nexttimeout now + 1000 * lag_ticks (time_diff s.nexttimeout now)))
      ∧ ∃ new, (while_loop env xs s).2.trace = s.trace ++ new
        ∧ ticks new
          = min (lag_ticks (time_diff s.nexttimeout now)) (iterations env xs s).length := by
  induction xs with
  | nil =>
    intro s _ _ _
    refine ⟨fun k it h => by simp [iterations] at h, [], ?_, by simp [iterations, ticks]⟩
    unfold while_loop
    split <;> simp
  | cons x xs ih =>
    intro s hxs h1 h2
    have hx : x.tv = now := hxs x (List.mem_cons_self _ _)
    by_cases hq : s.quit = true
    · rw [iterations_quit env _ s hq]
      refine ⟨fun k it h => by simp at h, [], ?_, by simp [ticks]⟩
      simp [while_loop, hq]
    · have hq' : s.quit = false := by simpa using hq
      rw [← hx] at h1 h2
      obtain ⟨hneg, hpos⟩ := loop_body_lagging env x s h1 h2
      obtain ⟨htr, _, _⟩ := loop_body_logged env x s
      rw [hx] at h1 h2 hneg hpos
      have hhead : ∀ it : State × Input, it = (s, x) →
          it.2.tv = now
          ∧ (0 < lag_ticks (time_diff s.nexttimeout now) →
              time_diff it.1.nexttimeout now = time_diff s.nexttimeout now + 1000 * (0 : Nat))
          ∧ (lag_ticks (time_diff s.nexttimeout now) ≤ 0 →
              time_diff it.1.nexttimeout now
                = time_diff s.nexttimeout now
                  + 1000 * lag_ticks (time_diff s.nexttimeout now)) := by
        intro it hit
        subst hit
        refine ⟨hx, fun _ => by simp, fun h0 => ?_⟩
        have : lag_ticks (time_diff s.nexttimeout now) = 0 := by omega
        rw [this]
        simp
      have hticks : ticks (logged s (loop_body env x s).2)
          = min (lag_ticks (time_diff s.nexttimeout now)) 1 := by
        unfold lag_ticks
        rcases Int.lt_or_le (time_diff s.nexttimeout now) 0 with hlt | hge
        · rw [(hneg hlt).2.2.1]
          omega
        · rw [(hpos hge).2.1]
          omega
      cases hb : (loop_body env x s).1 with
      | some v =>
        rw [(iterations_cons_returning env x xs s hq' v hb).1,
          (iterations_cons_returning env x xs s hq' v hb).2]
        refine ⟨?_, logged s (loop_body env x s).2, htr, by simpa using hticks⟩
        intro k it hk
        cases k with
        | zero =>
          simp only [List.getElem?_cons_zero, Option.some.injEq] at hk
          exact hhead it hk.symm
        | succ k => simp at hk
      | none =>
        rw [(iterations_cons_running env x xs s hq' hb).1,
          (iterations_cons_running env x xs s hq' hb).2]
        have hnext : time_diff (loop_body env x s).2.nexttimeout now
            = if time_diff s.nexttimeout now < 0 then time_diff s.nexttimeout now + 1000
              else time_diff s.nexttimeout now := by
          rcases Int.lt_or_le (time_diff s.nexttimeout now) 0 with hlt | hge
          · rw [if_pos hlt]
            exact (hneg hlt).2.1
          · rw [if_neg (by omega), (hpos hge).1]
        have hlag : lag_ticks (time_diff (loop_body env x s).2.nexttimeout now)
            = lag_ticks (time_diff s.nexttimeout now) - 1 := by
          rw [hnext]
          unfold lag_ticks
          split <;> omega
        obtain ⟨hits, n2, e2, t2⟩ := ih (loop_body env x s).2
          (fun y hy => hxs y (List.mem_cons_of_mem _ hy))
          (by rw [hnext]; split <;> omega) (by rw [hnext]; split <;> omega)
        refine ⟨?_, logged s (loop_body env x s).2 ++ n2, ?_, ?_⟩
        · intro k it hk
          cases k with
          | zero =>
            simp only [List.getElem?_cons_zero, Option.some.injEq] at hk
            exact hhead it hk.symm
          | succ k =>
            simp only [List.getElem?_cons_succ] at hk
            obtain ⟨ha, hb1, hb2⟩ := hits k it hk
            rw [hlag, hnext] at hb1 hb2
            refine ⟨ha, fun hlt => ?_, fun hge => ?_⟩
            · have := hb1 (by omega)
              rw [this]
              unfold lag_ticks at hlt
              split <;> omega
            · have := hb2 (by omega)
              rw [this]
              unfold lag_ticks at hge ⊢
              split <;> omega
        · rw [e2, htr, List.append_assoc]
        · rw [ticks_append, hticks, t2, hlag]
          simp only [List.length_cons]
          omega

/-- C19: with every clock reading equal to `now` and a first timeout
`t = time_diff(nexttimeout, now)` with `-4000 <= t < 0`, let `n = ceil(-t / 1000)`, which
is between 1 and 4.  The iteration number `k` that the loop performs (counting from 0)
computes, for `k < n`, the timeout `t + 1000 * k`, calls the tick exactly once, waits
with timeout 0 and moves `nexttimeout` on by one second; for `k >= n` it computes the
timeout `t + 1000 * n`, which lies in `0 .. 999`, and calls no tick.  So the loop calls
`n` ticks in all (fewer only if it performs fewer than `n` iterations). -/
theorem catch_up (env : Env) (now : timespec) (xs : List Input) (s : State)
    (hxs : ∀ x ∈ xs, x.tv = now)
    (hlag : -4000 ≤ time_diff s.nexttimeout now ∧ time_diff s.nexttimeout now < 0) :
    (1 ≤ lag_ticks (time_diff s.nexttimeout now)
      ∧ lag_ticks (time_diff s.nexttimeout now) ≤ 4
      ∧ 1000 * ((lag_ticks (time_diff s.nexttimeout now) : Int) - 1)
          < -time_diff s.nexttimeout now
      ∧ -time_diff s.nexttimeout now
          ≤ 1000 * (lag_ticks (time_diff s.nexttimeout now) : Int))
    ∧ (∀ k it, (iterations env xs s)[k]? = some it →
        (k < lag_ticks (time_diff s.nexttimeout now) →
          time_diff it.1.nexttimeout it.2.tv = time_diff s.nexttimeout now + 1000 * k
          ∧ ticks (logged it.1 (loop_body env it.2 it.1).2) = 1
          ∧ waits (logged it.1 (loop_body env it.2 it.1).2) = [0]
          ∧ (loop_body env it.2 it.1).2.nexttimeout = plus_seconds it.1.nexttimeout 1)
        ∧ (lag_ticks (time_diff s.nexttimeout now) ≤ k →
          time_diff it.1.nexttimeout it.2.tv
            = time_diff s.nexttimeout now + 1000 * lag_ticks (time_diff s.nexttimeout now)
          ∧ 0 ≤ time_diff it.1.nexttimeout it.2.tv
          ∧ time_diff it.1.nexttimeout it.2.tv ≤ 999
          ∧ ticks (logged it.1 (loop_body env it.2 it.1).2) = 0))
    ∧ ticks (logged s (while_loop env xs s).2)
        = min (lag_ticks (time_diff s.nexttimeout now)) (iterations env xs s).length := by
  obtain ⟨hits, new, e, ht⟩ := lagging_run env now xs s hxs hlag.1 (by omega)
  have hn : 1 ≤ lag_ticks (time_diff s.nexttimeout now)
      ∧ lag_ticks (time_diff s.nexttimeout now) ≤ 4
      ∧ 1000 * ((lag_ticks (time_diff s.nexttimeout now) : Int) - 1)
          < -time_diff s.nexttimeout now
      ∧ -time_diff s.nexttimeout now
          ≤ 1000 * (lag_ticks (time_diff s.nexttimeout now) : Int) := by
    unfold lag_ticks
    omega
  refine ⟨hn, ?_, by rw [logged_eq e]; exact ht⟩
  intro k it hk
  obtain ⟨htv, hlt, hge⟩ := hits k it hk
  rw [htv]
  constructor
  · intro hk1
    have hval := hlt hk1
    have hneg : time_diff it.1.nexttimeout it.2.tv < 0 := by
      rw [htv, hval]
      omega
    have hlow : -4000 ≤ time_diff it.1.nexttimeout it.2.tv := by
      rw [htv, hval]
      omega
    obtain ⟨h1, _, h3, h4⟩ := (loop_body_lagging env it.2 it.1 hlow (by omega)).1 hneg
    exact ⟨hval, h3, h4, h1⟩
  · intro hk1
    have hval := hge hk1
    have hpos : 0 ≤ time_diff it.1.nexttimeout it.2.tv := by
      rw [htv, hval]
      omega
    have hup : time_diff it.1.nexttimeout it.2.tv ≤ 999 := by
      rw [htv, hval]
      omega
    obtain ⟨_, h2, _⟩ := (loop_body_lagging env it.2 it.1 (by omega) hup).2 hpos
    rw [htv] at hpos hup
    exact ⟨hval, hpos, hup, h2⟩

/-- Witness of C19: the deadline is at 97.5 s and the clock stays at 100 s, a lag of
2500 ms; five iterations call three ticks. -/
theorem catch_up_witness :
    (∀ x ∈ frozen_clock, x.tv = { tv_sec := 100, tv_nsec := 0 })
    ∧ (-4000 ≤ time_diff (idle_state { tv_sec := 97, tv_nsec := 500000000 }).nexttimeout
          { tv_sec := 100, tv_nsec := 0 }
      ∧ time_diff (idle_state { tv_sec := 97, tv_nsec := 500000000 }).nexttimeout
          { tv_sec := 100, tv_nsec := 0 } < 0)
    ∧ ticks (logged (idle_state { tv_sec := 97, tv_nsec := 500000000 })
        (while_loop idle_env frozen_clock
          (idle_state { tv_sec := 97, tv_nsec := 500000000 })).2)
      = min (lag_ticks (time_diff (idle_state { tv_sec := 97, tv_nsec := 500000000 }).nexttimeout
          { tv_sec := 100, tv_nsec := 0 }))
        (iterations idle_env frozen_clock
          (idle_state { tv_sec := 97, tv_nsec := 500000000 })).length
    ∧ min (lag_ticks (time_diff (idle_state { tv_sec := 97, tv_nsec := 500000000 }).nexttimeout
          { tv_sec := 100, tv_nsec := 0 }))
        (iterations idle_env frozen_clock
          (idle_state { tv_sec := 97, tv_nsec := 500000000 })).length = 3 :=
  ⟨by decide, by decide,
    (catch_up idle_env { tv_sec := 100, tv_nsec := 0 } frozen_clock
      (idle_state { tv_sec := 97, tv_nsec := 500000000 }) (by decide) (by decide)).2.2,
    by decide⟩

/-! ## A removed registration is left alone -/

theorem ordered_nil {R : State → State → Prop} (hrefl : ∀ s, R s s) (s : State) :
    Ordered R s [] s := by
  refine ⟨hrefl s, by simp, by simp, ?_⟩
  intro l1 a l2 h
  simp at h

theorem ordered_single {R : State → State → Prop} (hrefl : ∀ s, R s s) {s t : State}
    (h : R s t) : Ordered R s [t] t := by
  refine ⟨h, ?_, ?_, ?_⟩
  · intro x hx
    rw [List.mem_singleton.mp hx]
    exact h
  · intro x hx
    rw [List.mem_singleton.mp hx]
    exact hrefl t
  · intro l1 a l2 hsplit b hb
    cases l1 with
    | nil =>
      simp only [List.nil_append, List.cons.injEq] at hsplit
      rw [← hsplit.2] at hb
      simp at hb
    | cons c l1 =>
      simp only [List.cons_append, List.cons.injEq] at hsplit
      exact absurd hsplit.2 (by simp)

theorem ordered_append {R : State → State → Prop}
    (htrans : ∀ a b c, R a b → R b c → R a c) {s t u : State} {ps qs : List State}
    (h1 : Ordered R s ps t) (h2 : Ordered R t qs u) : Ordered R s (ps ++ qs) u := by
  obtain ⟨a1, b1, c1, d1⟩ := h1
  obtain ⟨a2, b2, c2, d2⟩ := h2
  refine ⟨htrans _ _ _ a1 a2, ?_, ?_, ?_⟩
  · intro x hx
    rcases List.mem_append.mp hx with hx | hx
    · exact b1 x hx
    · exact htrans _ _ _ a1 (b2 x hx)
  · intro x hx
    rcases List.mem_append.mp hx with hx | hx
    · exact htrans _ _ _ (c1 x hx) a2
    · exact c2 x hx
  · intro l1 a l2 hsplit b hb
    rcases List.append_eq_append_iff.mp hsplit with ⟨m, hm1, hm2⟩ | ⟨m, hm1, hm2⟩
    · exact d2 m a l2 hm2 b hb
    · cases m with
      | nil =>
        simp only [List.nil_append] at hm2
        exact d2 [] a l2 (by simpa using hm2.symm) b hb
      | cons c m =>
        simp only [List.cons_append, List.cons.injEq] at hm2
        obtain ⟨hc, hl2⟩ := hm2
        subst hc
        rw [hl2] at hb
        have ha : a ∈ ps := by
          rw [hm1]
          simp
        rcases List.mem_append.mp hb with hb | hb
        · exact d1 l1 a m hm1 b hb
        · exact htrans _ _ _ (c1 a ha) (b2 b hb)

theorem ordered_cons {R : State → State → Prop} (hrefl : ∀ s, R s s)
    (htrans : ∀ a b c, R a b → R b c → R a c) {s t u : State} {qs : List State}
    (h1 : R s t) (h2 : Ordered R t qs u) : Ordered R s (t :: qs) u :=
  ordered_append htrans (ordered_single hrefl h1) h2

theorem leaves_retired_refl (is : List Nat) (s : State) : leaves_retired is s s :=
  fun _ h => ⟨h, rfl⟩

theorem leaves_retired_trans (is : List Nat) (a b c : State) (hab : leaves_retired is a b)
    (hbc : leaves_retired is b c) : leaves_retired is a c := by
  intro p hp
  obtain ⟨h1, e1⟩ := hab p hp
  obtain ⟨h2, e2⟩ := hbc p h1
  exact ⟨h2, by rw [e2, e1]⟩

theorem ordered_run_calls {R : State → State → Prop} (hrefl : ∀ s, R s s)
    (htrans : ∀ a b c, R a b → R b c → R a c) (cs : List Call)
    (hstep : ∀ c ∈ cs, ∀ s, R s (run_call c s)) (s : State) :
    Ordered R s (run_calls_points cs s) (run_calls cs s) := by
  induction cs generalizing s with
  | nil => exact ordered_nil hrefl s
  | cons c cs ih =>
    simp only [run_calls_points, run_calls]
    exact ordered_cons hrefl htrans (hstep c (List.mem_cons_self _ _) s)
      (ih (fun d hd => hstep d (List.mem_cons_of_mem _ hd)) _)

theorem ordered_for_loop {R : State → State → Prop} (hrefl : ∀ s, R s s)
    (htrans : ∀ a b c, R a b → R b c → R a c) (points : Nat → State → List State)
    (body : Nat → State → State) (is : List Nat)
    (hstep : ∀ i ∈ is, ∀ s, Ordered R s (points i s) (body i s)) (s : State) :
    Ordered R s (for_loop_points points body is s) (for_loop body is s) := by
  induction is generalizing s with
  | nil => exact ordered_nil hrefl s
  | cons i is ih =>
    simp only [for_loop_points, for_loop]
    exact ordered_append htrans (hstep i (List.mem_cons_self _ _) s)
      (ih (fun j hj => hstep j (List.mem_cons_of_mem _ hj)) _)

theorem remove_epoll_trace (r : Int) (h : Nat) (s : State) :
    (remove_epoll r h s).2.trace = s.trace ++ [Event.epoll_ctl_del h (s.heap h).fd r] := by
  unfold remove_epoll
  by_cases hr : r < 0
  · simp [hr]
  · cases hi : (s.heap h).ref_ev with
    | none => simp [hr, hi]
    | some j =>
      by_cases hj : (s.ev j).data_ptr = some h
      · simp [hr, hi, hj]
      · simp [hr, hi, hj]

theorem remove_epoll_leaves_retired (is : List Nat) (r : Int) (h : Nat) (s : State) :
    leaves_retired is s (remove_epoll r h s).2 := by
  intro p hp
  obtain ⟨habs, href⟩ := hp
  unfold remove_epoll
  by_cases hr : r < 0
  · simp only [if_pos hr]
    exact ⟨⟨habs, href⟩, trivial⟩
  · simp only [if_neg hr]
    cases hi : (s.heap h).ref_ev with
    | none => exact ⟨⟨habs, href⟩, rfl⟩
    | some j =>
      by_cases hj : (s.ev j).data_ptr = some h
      · simp only [if_pos hj]
        have hph : p ≠ h := by
          intro hph
          subst hph
          exact href j hi hj
        have hheap : update s.heap h { s.heap h with ref_ev := none } p = s.heap p :=
          update_other _ _ _ _ hph
        refine ⟨⟨?_, ?_⟩, hheap⟩
        · intro i hmem hp
          simp only at hp
          by_cases hij : i = j
          · subst hij
            rw [update_same] at hp
            cases hp
          · rw [update_other _ _ _ _ hij] at hp
            exact habs i hmem hp
        · intro i hri hp
          simp only at hri hp
          rw [hheap] at hri
          by_cases hij : i = j
          · subst hij
            rw [update_same] at hp
            cases hp
          · rw [update_other _ _ _ _ hij] at hp
            exact href i hri hp
      · simp only [if_neg hj]
        exact ⟨⟨habs, href⟩, trivial⟩

/-- After a successful `remove_epoll(h)`, in a state in which the slots point back, `h`
is retired. -/
theorem remove_epoll_retires (is : List Nat) (r : Int) (h : Nat) (s : State)
    (hJ : slots_point_back is s) (hr : 0 ≤ r) : retired is h (remove_epoll r h s).2 := by
  unfold remove_epoll
  have hr' : ¬ r < 0 := by omega
  simp only [if_neg hr']
  cases hi : (s.heap h).ref_ev with
  | none =>
    refine ⟨fun i hmem hp => ?_, fun j hj => ?_⟩
    · have := hJ i hmem h hp
      rw [hi] at this
      cases this
    · simp only at hj
      rw [hi] at hj
      cases hj
  | some j =>
    by_cases hj : (s.ev j).data_ptr = some h
    · simp only [if_pos hj]
      refine ⟨fun i hmem hp => ?_, fun i hri => ?_⟩
      · simp only at hp
        by_cases hij : i = j
        · subst hij
          rw [update_same] at hp
          cases hp
        · rw [update_other _ _ _ _ hij] at hp
          have := hJ i hmem h hp
          rw [hi] at this
          exact hij (Option.some.inj this).symm
      · simp only at hri
        rw [update_same] at hri
        cases hri
    · simp only [if_neg hj]
      refine ⟨fun i hmem hp => ?_, fun i hri hp => ?_⟩
      · have := hJ i hmem h hp
        rw [hi] at this
        cases this
        exact hj hp
      · simp only at hri hp
        rw [hi] at hri
        cases hri
        exact hj hp

theorem phaseA_step_leaves_retired (is : List Nat) (i : Nat) (hi : i ∈ is) (s : State) :
    leaves_retired is s (phaseA_step i s) := by
  intro p hp
  obtain ⟨habs, href⟩ := hp
  unfold phaseA_step
  cases hq : (s.ev i).data_ptr with
  | none => exact ⟨⟨habs, href⟩, rfl⟩
  | some q =>
    have hpq : p ≠ q := fun hpq => habs i hi (by rw [hq, hpq])
    have hheap : update s.heap q { s.heap q with ref_ev := some i } p = s.heap p :=
      update_other _ _ _ _ hpq
    refine ⟨⟨habs, fun j hj => ?_⟩, hheap⟩
    simp only at hj ⊢
    rw [hheap] at hj
    exact href j hj

theorem phaseC_step_leaves_retired (is : List Nat) (i : Nat) (hi : i ∈ is) (s : State) :
    leaves_retired is s (phaseC_step i s) := by
  intro p hp
  obtain ⟨habs, href⟩ := hp
  unfold phaseC_step
  cases hq : (s.ev i).data_ptr with
  | none => exact ⟨⟨habs, href⟩, rfl⟩
  | some q =>
    have hpq : p ≠ q := fun hpq => habs i hi (by rw [hq, hpq])
    have hheap : update s.heap q { s.heap q with ref_ev := none } p = s.heap p :=
      update_other _ _ _ _ hpq
    refine ⟨⟨habs, fun j hj => ?_⟩, hheap⟩
    simp only at hj ⊢
    rw [hheap] at hj
    exact href j hj

theorem ordered_phaseB_step (env : Env) (hr : handlers_only_remove env) (is : List Nat)
    (i : Nat) (s : State) :
    Ordered (leaves_retired is) s (phaseB_step_points env i s) (phaseB_step env i s) := by
  cases hp : (s.ev i).data_ptr with
  | none =>
    rw [phaseB_step_none env i s hp]
    simp only [phaseB_step_points, hp]
    exact ordered_single (leaves_retired_refl is) (leaves_retired_refl is s)
  | some p =>
    cases hf : (s.heap p).handler with
    | none =>
      rw [phaseB_step_no_handler env i s p hp hf]
      simp only [phaseB_step_points, hp, hf]
      exact ordered_single (leaves_retired_refl is) (leaves_retired_refl is s)
    | some fn =>
      rw [phaseB_step_call env i s p fn hp hf]
      simp only [phaseB_step_points, hp, hf]
      refine ordered_cons (leaves_retired_refl is) (leaves_retired_trans is)
        (fun q hq => ⟨hq, rfl⟩) ?_
      refine ordered_run_calls (leaves_retired_refl is) (leaves_retired_trans is) _ ?_ _
      intro c hc s1
      obtain ⟨h, k, hck⟩ := hr _ _ _ _ c hc
      rw [hck]
      exact remove_epoll_leaves_retired is k h s1

/-- The points of a dispatch cycle are passed in the order of the list, and from each
to every later one, and to the end of the cycle, retired registrations stay retired and
unwritten. -/
theorem ordered_dispatch (env : Env) (hr : handlers_only_remove env) (r : Int) (s : State) :
    Ordered (leaves_retired (indices r)) s
      (for_loop_points (fun i s => [phaseA_step i s]) phaseA_step (indices r) s
        ++ for_loop_points (phaseB_step_points env) (phaseB_step env) (indices r) (phaseA r s)
        ++ for_loop_points (fun i s => [phaseC_step i s]) phaseC_step (indices r)
            (phaseB env r (phaseA r s)))
      (dispatch env r s) := by
  have hA := ordered_for_loop (leaves_retired_refl (indices r))
    (leaves_retired_trans (indices r)) (fun i s => [phaseA_step i s]) phaseA_step (indices r)
    (fun i hi s => ordered_single (leaves_retired_refl _)
      (phaseA_step_leaves_retired (indices r) i hi s)) s
  have hB := ordered_for_loop (leaves_retired_refl (indices r))
    (leaves_retired_trans (indices r)) (phaseB_step_points env) (phaseB_step env) (indices r)
    (fun i _ s => ordered_phaseB_step env hr (indices r) i s) (phaseA r s)
  have hC := ordered_for_loop (leaves_retired_refl (indices r))
    (leaves_retired_trans (indices r)) (fun i s => [phaseC_step i s]) phaseC_step (indices r)
    (fun i hi s => ordered_single (leaves_retired_refl _)
      (phaseC_step_leaves_retired (indices r) i hi s)) (phaseB env r (phaseA r s))
  exact ordered_append (leaves_retired_trans (indices r))
    (ordered_append (leaves_retired_trans (indices r)) hA hB) hC

theorem run_calls_keep (I : State → Prop) (cs : List Call)
    (hstep : ∀ c ∈ cs, ∀ s, I s → I (run_call c s)) (s : State) (hs : I s) :
    I (run_calls cs s) ∧ ∀ s' ∈ run_calls_points cs s, I s' := by
  induction cs generalizing s with
  | nil => exact ⟨hs, by simp [run_calls_points]⟩
  | cons c cs ih =>
    have h1 := hstep c (List.mem_cons_self _ _) s hs
    obtain ⟨h2, h3⟩ := ih (fun d hd => hstep d (List.mem_cons_of_mem _ hd)) (run_call c s) h1
    refine ⟨h2, ?_⟩
    intro s' hs'
    simp only [run_calls_points, List.mem_cons] at hs'
    rcases hs' with rfl | hs'
    · exact h1
    · exact h3 s' hs'

theorem removal_settled_of_same_log (is : List Nat) (s0 s' : State)
    (ht : s'.trace = s0.trace) (hl : slots_lose s0 s') : removal_settled is s0 s' := by
  refine ⟨⟨[], by simp [ht]⟩, hl, ?_⟩
  intro p fd r hlast
  simp [logged, ht] at hlast

theorem logged_last (s0 s' t : State) (e : Event) (h : ∃ new, s'.trace = s0.trace ++ new)
    (ht : t.trace = s'.trace ++ [e]) : (logged s0 t).getLast? = some e := by
  obtain ⟨new, hn⟩ := h
  have : t.trace = s0.trace ++ (new ++ [e]) := by rw [ht, hn, List.append_assoc]
  rw [logged_eq this]
  simp

/-- In Phase B: a successful `remove_epoll` leaves the slots pointing back and the
removed registration retired. -/
theorem remove_epoll_settles (is : List Nat) (s0 : State) (r : Int) (h : Nat) (s : State)
    (hs : slots_point_back is s ∧ removal_settled is s0 s) :
    slots_point_back is (remove_epoll r h s).2
    ∧ removal_settled is s0 (remove_epoll r h s).2 := by
  obtain ⟨hJ, hnew, hlose, _⟩ := hs
  have htr := remove_epoll_trace r h s
  refine ⟨(remove_epoll_stretch is r h s hJ).1, ?_, ?_, ?_⟩
  · obtain ⟨new, hn⟩ := hnew
    exact ⟨new ++ [Event.epoll_ctl_del h (s.heap h).fd r], by rw [htr, hn, List.append_assoc]⟩
  · exact slots_lose_trans hlose (run_call_slots_lose (Call.remove_epoll h r) s)
  · intro p fd k hlast hk
    rw [logged_last s0 s _ _ hnew htr] at hlast
    cases hlast
    exact remove_epoll_retires is r h s hJ hk

theorem phaseB_step_settles (env : Env) (hr : handlers_only_remove env) (is : List Nat)
    (s0 : State) (i : Nat) (s : State)
    (hs : slots_point_back is s ∧ removal_settled is s0 s) :
    (slots_point_back is (phaseB_step env i s) ∧ removal_settled is s0 (phaseB_step env i s))
    ∧ ∀ s' ∈ phaseB_step_points env i s,
        slots_point_back is s' ∧ removal_settled is s0 s' := by
  cases hp : (s.ev i).data_ptr with
  | none =>
    rw [phaseB_step_none env i s hp]
    simp only [phaseB_step_points, hp]
    exact ⟨hs, by simpa using hs⟩
  | some p =>
    cases hf : (s.heap p).handler with
    | none =>
      rw [phaseB_step_no_handler env i s p hp hf]
      simp only [phaseB_step_points, hp, hf]
      exact ⟨hs, by simpa using hs⟩
    | some fn =>
      rw [phaseB_step_call env i s p fn hp hf]
      simp only [phaseB_step_points, hp, hf]
      have hs1 : slots_point_back is
            { s with trace := s.trace ++ [Event.handler fn (s.ev i).events p] }
          ∧ removal_settled is s0
            { s with trace := s.trace ++ [Event.handler fn (s.ev i).events p] } := by
        refine ⟨hs.1, ?_, hs.2.2.1, ?_⟩
        · obtain ⟨new, hn⟩ := hs.2.1
          exact ⟨new ++ [Event.handler fn (s.ev i).events p], by
            simp only
            rw [hn, List.append_assoc]⟩
        · intro q fd k hlast
          rw [logged_last s0 s _ (Event.handler fn (s.ev i).events p) hs.2.1 rfl] at hlast
          cases hlast
      obtain ⟨h1, h2⟩ := run_calls_keep
        (fun s' => slots_point_back is s' ∧ removal_settled is s0 s')
        (env.handler fn (s.ev i).events p
          { s with trace := s.trace ++ [Event.handler fn (s.ev i).events p] })
        (fun c hc s1 hI => by
          obtain ⟨h, k, hck⟩ := hr _ _ _ _ c hc
          rw [hck]
          exact remove_epoll_settles is s0 k h s1 hI) _ hs1
      refine ⟨h1, ?_⟩
      intro s' hs'
      rcases List.mem_cons.mp hs' with rfl | hs'
      · exact hs1
      · exact h2 s' hs'

theorem phaseC_step_settles (is : List Nat) (s0 : State) (i : Nat) (hi : i ∈ is) (s : State)
    (hs : removal_settled is s0 s) : removal_settled is s0 (phaseC_step i s) := by
  obtain ⟨hnew, hlose, hret⟩ := hs
  have ht := phaseC_step_trace i s
  have he := phaseC_step_ev i s
  refine ⟨by rw [ht]; exact hnew, ?_, ?_⟩
  · intro j
    rw [he]
    exact hlose j
  · intro p fd k hlast hk
    have hlog : logged s0 (phaseC_step i s) = logged s0 s := by
      simp [logged, ht]
    rw [hlog] at hlast
    exact (phaseC_step_leaves_retired is i hi s p (hret p fd k hlast hk)).1

/-- What the third loop does to the memory of a registration `q`: nothing when no slot
it visits holds `q`, and otherwise it sets `ref_ev` to `NULL` and nothing else. -/
theorem phaseC_heap (js : List Nat) (s : State) (q : Nat) :
    ((∀ i ∈ js, (s.ev i).data_ptr ≠ some q) → (for_loop phaseC_step js s).heap q = s.heap q)
    ∧ ((∃ i ∈ js, (s.ev i).data_ptr = some q) →
        (for_loop phaseC_step js s).heap q = { s.heap q with ref_ev := none }) := by
  induction js generalizing s with
  | nil => exact ⟨fun _ => rfl, fun h => by simp at h⟩
  | cons j js ih =>
    simp only [for_loop]
    have he := phaseC_step_ev j s
    obtain ⟨ih1, ih2⟩ := ih (phaseC_step j s)
    rw [he] at ih1 ih2
    by_cases hj : (s.ev j).data_ptr = some q
    · have h1 : (phaseC_step j s).heap q = { s.heap q with ref_ev := none } := by
        simp [phaseC_step, hj, update]
      refine ⟨fun h => absurd hj (h j (List.mem_cons_self _ _)), fun _ => ?_⟩
      by_cases hrest : ∃ i ∈ js, (s.ev i).data_ptr = some q
      · rw [ih2 hrest, h1]
      · rw [ih1 (fun i hi hq => hrest ⟨i, hi, hq⟩), h1]
    · have h1 : (phaseC_step j s).heap q = s.heap q := by
        unfold phaseC_step
        cases hp : (s.ev j).data_ptr with
        | none => rfl
        | some p =>
          have hqp : q ≠ p := fun hqp => hj (by rw [hp, hqp])
          simp only
          rw [update_other _ _ _ _ hqp]
      constructor
      · intro h
        rw [ih1 (fun i hi => h i (List.mem_cons_of_mem _ hi)), h1]
      · rintro ⟨i, hi, hq⟩
        rcases List.mem_cons.mp hi with rfl | hi
        · exact absurd hq hj
        · rw [ih2 ⟨i, hi, hq⟩, h1]

/-- Every point of a dispatch cycle over slots of which no two hold the same
registration, with handlers that only remove, is settled. -/
theorem dispatch_points_settled (env : Env) (hr : handlers_only_remove env) (r : Int)
    (s : State) (hd : one_slot_each r s) :
    ∀ s' ∈ dispatch_points env r s, removal_settled (indices r) s s' := by
  obtain ⟨hA, hAp⟩ := for_loop_points_keep (fun s' => s'.trace = s.trace ∧ s'.ev = s.ev)
    (fun i s => [phaseA_step i s]) phaseA_step (indices r)
    (fun i _ s1 h1 =>
      have h2 : (phaseA_step i s1).trace = s.trace ∧ (phaseA_step i s1).ev = s.ev :=
        ⟨by rw [phaseA_step_trace, h1.1], by rw [phaseA_step_ev, h1.2]⟩
      ⟨h2, by simpa using h2⟩) s ⟨rfl, rfl⟩
  have hsame : ∀ s' : State, s'.trace = s.trace ∧ s'.ev = s.ev →
      removal_settled (indices r) s s' := by
    intro s' h
    refine removal_settled_of_same_log _ s s' h.1 ?_
    intro i
    rw [h.2]
    exact Or.inr rfl
  have hJ : slots_point_back (indices r) (phaseA r s) := by
    refine phaseA_points_back (indices r) s ?_
    intro i hi j hj p hip hjp
    exact hd i hi j hj (by rw [hip]; simp) (by rw [hip, hjp])
  obtain ⟨hB, hBp⟩ := for_loop_points_keep
    (fun s' => slots_point_back (indices r) s' ∧ removal_settled (indices r) s s')
    (phaseB_step_points env) (phaseB_step env) (indices r)
    (fun i _ s1 h1 => phaseB_step_settles env hr (indices r) s i s1 h1)
    (phaseA r s) ⟨hJ, hsame _ hA⟩
  obtain ⟨_, hCp⟩ := for_loop_points_keep (removal_settled (indices r) s)
    (fun i s => [phaseC_step i s]) phaseC_step (indices r)
    (fun i hi s1 h1 =>
      have h2 := phaseC_step_settles (indices r) s i hi s1 h1
      ⟨h2, by simpa using h2⟩) (phaseB env r (phaseA r s)) hB.2
  intro s' hs'
  simp only [dispatch_points, List.mem_cons, List.mem_append] at hs'
  rcases hs' with rfl | (hs' | hs') | hs'
  · exact hsame _ ⟨rfl, rfl⟩
  · exact hsame _ (hAp s' hs')
  · exact (hBp s' hs').2
  · exact hCp s' hs'

theorem update_comm {α : Type} (f : Nat → α) (p q : Nat) (v w : α) (hpq : p ≠ q) :
    update (update f p v) q w = update (update f q w) p v := by
  funext x
  unfold update
  by_cases hxq : x = q
  · have hxp : x ≠ p := fun h => hpq (h.symm.trans hxq)
    simp [hxq, hxp, Ne.symm hpq]
  · simp [hxq]

/-- The loops do not read a registration that no slot holds: with the memory of such a
registration `p` overwritten by any `v`, the second loop makes the same handler call at
slot `i`, and the third loop does at slot `i` what it does otherwise and leaves `v`. -/
theorem loops_ignore_absent (is : List Nat) (p : Nat) (s : State) (habs : absent is p s)
    (i : Nat) (hi : i ∈ is) (v : epoll_event_handler) :
    call_at i { s with heap := update s.heap p v } = call_at i s
    ∧ phaseC_step i { s with heap := update s.heap p v }
      = { phaseC_step i s with heap := update (phaseC_step i s).heap p v } := by
  cases hq : (s.ev i).data_ptr with
  | none => simp [call_at, phaseC_step, hq]
  | some q =>
    have hqp : q ≠ p := fun h => habs i hi (by rw [hq, h])
    constructor
    · simp [call_at, hq, update_other _ _ _ _ hqp]
    · simp only [phaseC_step, hq, update_other _ _ _ _ hqp]
      rw [update_comm _ _ _ _ _ (Ne.symm hqp)]

theorem removing_env_only_removes : handlers_only_remove removing_env := by
  intro fn events p s c hc
  unfold removing_env at hc
  simp only at hc
  split at hc
  · simp only [List.mem_singleton] at hc
    exact ⟨2, 0, hc⟩
  · simp at hc

/-- C17: in a dispatch cycle over slots of which no two hold the same registration, with
handlers that call only `remove_epoll`: at a point `s'` of the cycle reached by a
successful `remove_epoll` of a registration `p` (by whichever handler), no slot of the
batch holds `p`, the slot that held it is empty, and at every later point of Phase B and
Phase C, and at the end of the cycle, still no slot holds `p` and the memory of `p` is
what it was at `s'` (it is not written).  Phase C changes the memory of a registration
only if a slot still holds it when Phase B ends, and then only sets its `ref_ev` to
`NULL`.  The loops do not read a registration that no slot holds: overwriting its memory
changes neither the handler call the second loop makes at a slot nor what the third loop
does there. -/
theorem removed_left_alone (env : Env) (r : Int) (s : State) (hd : one_slot_each r s)
    (hr : handlers_only_remove env) :
    (∀ l1 s' l2 p fd k, dispatch_points env r s = l1 ++ s' :: l2 →
        (logged s s').getLast? = some (Event.epoll_ctl_del p fd k) → 0 ≤ k →
        absent (indices r) p s'
        ∧ (∀ i ∈ indices r, (s.ev i).data_ptr = some p → (s'.ev i).data_ptr = none)
        ∧ (∀ s'' ∈ l2, absent (indices r) p s'' ∧ s''.heap p = s'.heap p)
        ∧ absent (indices r) p (dispatch env r s)
        ∧ (dispatch env r s).heap p = s'.heap p)
    ∧ (∀ q, (absent (indices r) q (phaseB env r (phaseA r s)) →
          (dispatch env r s).heap q = (phaseB env r (phaseA r s)).heap q)
        ∧ (¬ absent (indices r) q (phaseB env r (phaseA r s)) →
          (dispatch env r s).heap q
            = { (phaseB env r (phaseA r s)).heap q with ref_ev := none }))
    ∧ (∀ (s'' : State) (p : Nat), absent (indices r) p s'' →
        ∀ i ∈ indices r, ∀ v : epoll_event_handler,
          call_at i { s'' with heap := update s''.heap p v } = call_at i s''
          ∧ phaseC_step i { s'' with heap := update s''.heap p v }
            = { phaseC_step i s'' with heap := update (phaseC_step i s'').heap p v }) := by
  refine ⟨?_, ?_, fun s'' p habs i hi v => loops_ignore_absent (indices r) p s'' habs i hi v⟩
  · intro l1 s' l2 p fd k hsplit hlast hk
    have hmem : s' ∈ dispatch_points env r s := by
      rw [hsplit]
      simp
    obtain ⟨_, hlose, hret⟩ := dispatch_points_settled env hr r s hd s' hmem
    have hretired := hret p fd k hlast hk
    obtain ⟨hend, hfrom, hto, hpair⟩ := ordered_dispatch env hr r s
    have hlater : (∀ s'' ∈ l2, leaves_retired (indices r) s' s'')
        ∧ leaves_retired (indices r) s' (dispatch env r s) := by
      unfold dispatch_points at hsplit
      cases l1 with
      | nil =>
        simp only [List.nil_append, List.cons.injEq] at hsplit
        obtain ⟨h1, h2⟩ := hsplit
        subst h1
        exact ⟨fun s'' hs'' => hfrom s'' (by rw [h2]; exact hs''), hend⟩
      | cons a l1 =>
        simp only [List.cons_append, List.cons.injEq] at hsplit
        obtain ⟨_, h2⟩ := hsplit
        exact ⟨fun s'' hs'' => hpair l1 s' l2 h2 s'' hs'', hto s' (by rw [h2]; simp)⟩
    refine ⟨hretired.1, ?_, ?_, (hlater.2 p hretired).1.1, (hlater.2 p hretired).2⟩
    · intro i hi hp
      rcases hlose i with h | h
      · exact h
      · rw [hp] at h
        exact absurd h (hretired.1 i hi)
    · intro s'' hs''
      exact ⟨(hlater.1 s'' hs'' p hretired).1.1, (hlater.1 s'' hs'' p hretired).2⟩
  · intro q
    obtain ⟨h1, h2⟩ := phaseC_heap (indices r) (phaseB env r (phaseA r s)) q
    refine ⟨fun h => h1 h, fun h => h2 ?_⟩
    unfold absent at h
    by_contra hne
    exact h (fun i hi hq => hne ⟨i, hi, hq⟩)

/-- Witness of C17: registrations 1 and 2 are both ready and the handler of 1 removes
2.  When Phase B ends no slot holds registration 2, and Phase C leaves its memory as it
is. -/
theorem removed_left_alone_witness :
    one_slot_each
      (wait_of_iteration removing_env both_ready_input
        (two_registrations { tv_sec := 100, tv_nsec := 0 })).1
      (wait_of_iteration removing_env both_ready_input
        (two_registrations { tv_sec := 100, tv_nsec := 0 })).2.2
    ∧ handlers_only_remove removing_env
    ∧ absent
      (indices (wait_of_iteration removing_env both_ready_input
        (two_registrations { tv_sec := 100, tv_nsec := 0 })).1) 2
      (phaseB removing_env
        (wait_of_iteration removing_env both_ready_input
          (two_registrations { tv_sec := 100, tv_nsec := 0 })).1
        (phaseA
          (wait_of_iteration removing_env both_ready_input
            (two_registrations { tv_sec := 100, tv_nsec := 0 })).1
          (wait_of_iteration removing_env both_ready_input
            (two_registrations { tv_sec := 100, tv_nsec := 0 })).2.2))
    ∧ (dispatch removing_env
        (wait_of_iteration removing_env both_ready_input
          (two_registrations { tv_sec := 100, tv_nsec := 0 })).1
        (wait_of_iteration removing_env both_ready_input
          (two_registrations { tv_sec := 100, tv_nsec := 0 })).2.2).heap 2
      = (phaseB removing_env
        (wait_of_iteration removing_env both_ready_input
          (two_registrations { tv_sec := 100, tv_nsec := 0 })).1
        (phaseA
          (wait_of_iteration removing_env both_ready_input
            (two_registrations { tv_sec := 100, tv_nsec := 0 })).1
          (wait_of_iteration removing_env both_ready_input
            (two_registrations { tv_sec := 100, tv_nsec := 0 })).2.2)).heap 2 :=
  ⟨by decide, removing_env_only_removes, by decide,
    ((removed_left_alone removing_env
      (wait_of_iteration removing_env both_ready_input
        (two_registrations { tv_sec := 100, tv_nsec := 0 })).1
      (wait_of_iteration removing_env both_ready_input
        (two_registrations { tv_sec := 100, tv_nsec := 0 })).2.2
      (by decide) removing_env_only_removes).2.1 2).1 (by decide)⟩

end EpollLoop
